import Mathlib

/-!
# Verification of vamdclib's catalogue synchronisation engine

Shallow embedding of `vamdclib/database.py` (module-level constants,
`make_name`, and the `Database` methods `doublicate_pf_entry_for_hfs`,
`set_status`, `set_uuid`, `update_pf_state`, `update_partitionfunction`,
`parse_and_update_partitionfunctions` and `update_species_data`).

The sqlite tables `Partitionfunctions` and `Transitions` are modelled as
lists of records, a row per record; SQL `UPDATE`/`DELETE`/`INSERT` become
`List.map`/`List.filter`/append.  `REAL` values are modelled as `Rat`
(the code formats them with `"%lf"`/`"%g"`; the numeric value is kept).
The parsed remote result (`results.Result`, populated by `specmodel`,
neither of which is under src/) is modelled from the spec: tagged records
with explicit optional fields, mappings keyed by internal reference.

Python-level behaviour modelled explicitly:
* a `TEXT` column that is SQL `NULL` or `''` is an `Option String`;
  `update_species_data` masks `''` to `None` when building its key
  dictionary (`maskField`);
* `dict` objects keyed by the identity tuple become association lists
  with single-binding semantics (`dictInsert` erases before inserting);
* `sqlite3` assigns fresh increasing rowids per table; the connection-wide
  `lastrowid` (which Python's `cursor.lastrowid` reports even when an
  `INSERT ... SELECT` copied zero rows) is tracked in the field
  `connLast`;
* control paths on which the Python code would raise an *uncaught*
  exception (a clone with no base row, a `KeyError` on
  `species_dict_id[sidx]` in the final status loop) clear the flag
  `ok` in the pass state; theorems about normal passes hypothesise
  `ok = true`.
-/

namespace Vamdclib

/-- Optional text column (SQL NULL / Python None as `none`). -/
abbrev OStr := Option String

/-- `STATI`, the list of valid stati (database.py lines 53-60). -/
def STATI : List String :=
  ["New", "Update Available", "Up-To-Date", "Outdated", "Keep",
   "Updating", "Update Failed"]

/-- `TEMPERATURES` (database.py lines 31-44): the fixed grid of
temperatures for which a partition-function field exists. -/
def TEMPERATURES : List Rat :=
  [1.072, 1.148, 1.230, 1.318, 1.413, 1.514, 1.622, 1.738, 1.862,
   1.995, 2.138, 2.291, 2.455, 2.630, 2.725, 2.818, 3.020, 3.236,
   3.467, 3.715, 3.981, 4.266, 4.571, 4.898, 5.000, 5.248, 5.623,
   6.026, 6.457, 6.918, 7.413, 7.943, 8.511, 9.120, 9.375, 9.772,
   10.471, 11.220, 12.023, 12.882, 13.804, 14.791, 15.849, 16.982,
   18.197, 18.750, 19.498, 20.893, 22.387, 23.988, 25.704, 27.542,
   29.512, 31.623, 33.884, 36.308, 37.500, 38.905, 41.687, 44.668,
   47.863, 51.286, 54.954, 58.884, 63.096, 67.608, 72.444, 75.000,
   77.625, 83.176, 89.125, 95.499, 102.329, 109.648, 117.490,
   125.893, 134.896, 144.544, 150.000, 154.882, 165.959, 177.828,
   190.546, 204.174, 218.776, 225.000, 234.423, 251.189, 269.153,
   288.403, 300.000, 309.030, 331.131, 354.813, 380.189, 407.380,
   436.516, 467.735, 500.000, 501.187, 537.032, 575.440, 616.595,
   660.693, 707.946, 758.578, 812.831, 870.964, 933.254, 1000.000]

/-- Append one `;`-separated segment if it is neither `None` nor `''`
(the three `if` blocks inside `make_name`). -/
def addSeg (name : String) (p : OStr) : String :=
  match p with
  | none => name
  | some v => if v = "" then name else name ++ ";" ++ v

/-- `make_name(name, nsi=None, hfs=None, state=None)` (lines 66-79):
appends, in this order, `nsi`, `state` and `hfs` whenever the segment is
neither `None` nor the empty string.  Note the positional parameter
order `(name, nsi, hfs, state)` while the body appends `nsi`, `state`,
`hfs`. -/
def make_name (name : String) (nsi hfs state : OStr) : String :=
  addSeg (addSeg (addSeg name nsi) state) hfs

/-- One row of the `Partitionfunctions` table (the Species Record).
`pf` is the vector of `PF_<temperature>` fields, one per entry of
`TEMPERATURES`; columns that never influence the modelled control flow
(formula strings, comment, resource id, URL, ...) are summarised by
`name`. -/
structure PFRow where
  id : Int
  name : String
  species_id : String
  nsi : OStr
  vibstate : OStr
  hfs : OStr
  status : String
  uuid : OStr
  pf : List Rat
  checkdate : Nat
deriving DecidableEq, Repr

/-- One row of the `Transitions` table. -/
structure TRow where
  tid : Int
  pf_id : Int
  name : String
  frequency : Rat
  einsteinA : Rat
  uncertainty : Rat
  energyLower : Rat
  weight : Int
  hfs : OStr
  upperQN : String
  lowerQN : String
deriving DecidableEq, Repr

/-- `IFNULL(column, '')` used by `doublicate_pf_entry_for_hfs` and
`update_partitionfunction`. -/
def ifnull (o : OStr) : String := o.getD ""

/-- Python's `str.strip()`: drop leading and trailing whitespace.
(Defined over the character list so that it evaluates by kernel
reduction.) -/
def pyStrip (s : String) : String :=
  ⟨((s.data.dropWhile Char.isWhitespace).reverse.dropWhile
      Char.isWhitespace).reverse⟩

/-- Python's `str.lower()`. -/
def pyLower (s : String) : String := ⟨s.data.map Char.toLower⟩

/-- Python's `s[:n]` slice. -/
def pyTake (s : String) (n : Nat) : String := ⟨s.data.take n⟩

/-- `db_insert_partitionfunction`-style masking in the scan loop of
`update_species_data` (lines 878-889): a field that is NULL or empty
becomes `None`. -/
def maskField (o : OStr) : OStr :=
  match o with
  | none => none
  | some v => if v.length = 0 then none else some v

/-- The identity tuple `sidx = (species_id, nsi, vibstate, hfs)` used as
dictionary key by `update_species_data`. -/
structure SIdx where
  species : String
  nsi : OStr
  vib : OStr
  hfs : OStr
deriving DecidableEq, Repr

/-- The masked identity key of a Species Record, as the scan loop of
`update_species_data` computes it from a table row. -/
def maskedKey (r : PFRow) : SIdx :=
  ⟨r.species_id, maskField r.nsi, maskField r.vibstate, maskField r.hfs⟩

/-- `species_dict_id`: a Python dict keyed by `sidx`. -/
abbrev SDict := List (SIdx × Int)

def dictGet (d : SDict) (k : SIdx) : Option Int :=
  (d.find? (fun p => p.1 = k)).map (·.2)

def dictErase (d : SDict) (k : SIdx) : SDict :=
  d.filter (fun p => ¬ p.1 = k)

/-- `d[k] = v` (single binding per key, like a Python dict). -/
def dictInsert (d : SDict) (k : SIdx) (v : Int) : SDict :=
  (k, v) :: dictErase d k

/-- `set_status` (lines 483-513).  Returns the new table and whether a
commit was performed; an invalid status only prints a message and
returns, changing nothing.  With `db_id = some i` only row `i` is
updated, otherwise every row of the species; both set `PF_Checkdate`
to the current time `now`. -/
def set_status (cat : List PFRow) (now : Nat) (species_id status : String)
    (db_id : Option Int) : List PFRow × Bool :=
  if status ∈ STATI then
    match db_id with
    | some i =>
        (cat.map fun r =>
          if r.id = i then { r with status := status, checkdate := now } else r,
         true)
    | none =>
        (cat.map fun r =>
          if r.species_id = species_id then
            { r with status := status, checkdate := now } else r,
         true)
  else (cat, false)

/-- `set_uuid` (lines 515-532): records the query UUID on one row;
`None` is ignored. -/
def set_uuid (cat : List PFRow) (id : Int) (uuid : OStr) : List PFRow :=
  match uuid with
  | none => cat
  | some u =>
      cat.map fun r => if r.id = id then { r with uuid := some u } else r

/-- `update_pf_state` (lines 534-547): persists vibrational state and
hyperfine info onto the row with the given id. -/
def update_pf_state (cat : List PFRow) (id : Int) (state hfs : OStr) :
    List PFRow :=
  cat.map fun r =>
    if r.id = id then { r with vibstate := state, hfs := hfs } else r

/-- `doublicate_pf_entry_for_hfs` (lines 422-481): `INSERT ... SELECT`
that copies the first row with the given species id and (IFNULL-equal)
nuclear spin isomer, overriding `PF_HFS` and `PF_VibState` with the new
values and copying every `PF_<temperature>` field verbatim (`PF_UUID` is
not in the column list, so the clone's uuid is NULL).  The `name`
parameter of the Python function is unused.  Returns the new table and
the fresh rowid, or `none` when no base row matched (in which case the
`INSERT ... SELECT` copies zero rows and Python's `cursor.lastrowid` is
the stale connection-wide value). -/
def doublicate_pf_entry_for_hfs (cat : List PFRow) (newId : Int)
    (species_id : String) (nsi state hfs : OStr) :
    List PFRow × Option Int :=
  match cat.find? (fun r =>
      r.species_id = species_id ∧ ifnull r.nsi = ifnull nsi) with
  | some base =>
      (cat ++ [{ base with
                  id := newId, hfs := hfs, vibstate := state, uuid := none }],
       some newId)
  | none => (cat, none)

/-- Index of a grid temperature in the fixed list (the `PF_%.3f` field
name generated by `update_partitionfunction`). -/
def tempIndex (T : Rat) : Nat := TEMPERATURES.indexOf T

/-- `update_partitionfunction` (lines 2094-2122): set the field for one
temperature on every row of the species whose `IFNULL(nsi,'')` matches. -/
def update_partitionfunction (cat : List PFRow) (id : String) (T : Rat)
    (value : Rat) (nsi : String) : List PFRow :=
  cat.map fun r =>
    if r.species_id = id ∧ ifnull r.nsi = nsi then
      { r with pf := r.pf.set (tempIndex T) value } else r

/-! ## The parsed remote result

Modelled from the spec: the Remote Data Gateway returns a result
exposing `Molecules`, `States` and `RadiativeTransitions` keyed by
internal reference, plus a query UUID; dynamically-typed parser output
becomes tagged records with explicit optional fields (spec sections 6
and 9).  The parser (`specmodel`, `results`) is not under src/. -/

/-- A parsed energy state (the attributes `update_species_data` reads).
`NuclearSpinIsomerLowestEnergy` holds the reference of the isomer's
lowest-energy state; a `none` value formats as the string "None", whose
lookup in `States` raises the `KeyError` caught at line 1076. -/
structure RState where
  StateEnergyValue : Rat
  TotalStatisticalWeight : Option Int
  NuclearSpinIsomerName : Option String
  NuclearSpinIsomerLowestEnergy : Option String
  qn_string : String
deriving DecidableEq, Repr

/-- A parsed radiative transition (the attributes read at lines
992-1175). -/
structure RTrans where
  SpeciesID : String
  UpperStateRef : String
  LowerStateRef : String
  FrequencyValue : Rat
  FrequencyAccuracy : Option Rat
  TransitionProbabilityA : Rat
  ProcessClass : List String
deriving DecidableEq, Repr

/-- `result.get_state` / `result.data['States'][ref]`: lookup by
internal reference. -/
def lookupState (states : List (String × RState)) (ref : String) :
    Option RState :=
  (states.find? (fun p => p.1 = ref)).map (·.2)

/-- The hyperfine tag: the last `ProcessClass` entry starting with
`hyp`, stripped (lines 1037-1043). -/
def hfsOf (pcs : List String) : OStr :=
  pcs.foldl
    (fun acc pc => if pyTake pc 3 = "hyp" then some (pyStrip pc) else acc)
    none

/-- Did this transition fail to import?  Mirrors the four `continue`
paths that append to `species_with_error` (lines 1010-1018, 1046-1051,
1054-1059, 1070-1080): missing upper or lower state, missing frequency
accuracy, missing statistical weight, or a named nuclear spin isomer
whose lowest-energy reference state is missing. -/
def transFails (states : List (String × RState)) (tr : RTrans) : Bool :=
  match lookupState states tr.UpperStateRef,
        lookupState states tr.LowerStateRef with
  | some up, some _ =>
      tr.FrequencyAccuracy.isNone ||
      up.TotalStatisticalWeight.isNone ||
      (match up.NuclearSpinIsomerName.map pyStrip with
       | none => false
       | some s =>
           if s = "" then false
           else (up.NuclearSpinIsomerLowestEnergy.bind
                   (lookupState states)).isNone)
  | _, _ => true

/-- One species group processed by the `while species_dict` loop of
`update_species_data`: one remote fetch.  The model covers the
molecular branch (`is_molecule = True`) with a result whose species
data contains the fetched species; `formula` is its
`OrdinaryStructuralFormula` and `uuid` is `result.get_uuid()`. -/
structure GroupInput where
  species_id : String
  formula : String
  states : List (String × RState)
  transitions : List RTrans
  uuid : OStr
deriving Repr

/-- The mutable state of one `update_species_data` call. -/
structure PassState where
  cat : List PFRow
  trs : List TRow
  dict : SDict
  errors : List String
  processed : List (SIdx × Nat)
  report : List (SIdx × Nat)
  connLast : Int
  nextPf : Int
  nextT : Int
  ok : Bool
deriving Repr

/-- The value the scan loop assigns for one row: its rowid when the
status (lowercased) is one of new/update available/update failed/
updating or `force_update` is set, else the sentinel `-1` (lines
902-918). -/
def scanVal (force : Bool) (r : PFRow) : Int :=
  if force ||
     pyLower r.status ∈
       ["new", "update available", "update failed", "updating"] then
    r.id
  else -1

/-- The scan loop (lines 874-919): build `species_dict_id`, mapping the
masked identity key of every row either to its rowid or to the sentinel
`-1`. -/
def buildSpeciesDictId (force : Bool) (cat : List PFRow) : SDict :=
  cat.foldl (fun d r => dictInsert d (maskedKey r) (scanVal force r)) []

/-- Pass start for one species (lines 972-977): mark eligible rows
`Updating`.  The SQL `IN` comparison is case sensitive. -/
def markUpdating (cat : List PFRow) (sid : String) : List PFRow :=
  cat.map fun r =>
    if r.species_id = sid ∧
       (r.status = "New" ∨ r.status = "Update Available" ∨
        r.status = "Update Failed") then
      { r with status := "Updating" } else r

/-- Rowids of the rows of a species currently in status `Updating`
(the subselect of lines 979-984 and 1190-1193). -/
def updatingIds (cat : List PFRow) (sid : String) : List Int :=
  (cat.filter (fun r => r.species_id = sid ∧ r.status = "Updating")).map
    (·.id)

/-- Delete every transition owned by an `Updating` row of the species. -/
def deleteTransOf (cat : List PFRow) (trs : List TRow) (sid : String) :
    List TRow :=
  trs.filter (fun t => ¬ t.pf_id ∈ updatingIds cat sid)

/-- `transitions_processed[sidx] = 0` if absent (lines 1088-1089). -/
def procInit (p : List (SIdx × Nat)) (k : SIdx) : List (SIdx × Nat) :=
  if (p.find? (fun q => q.1 = k)).isSome then p else p ++ [(k, 0)]

/-- `transitions_processed[sidx] += 1` (line 1176). -/
def procInc (p : List (SIdx × Nat)) (k : SIdx) : List (SIdx × Nat) :=
  p.map fun q => if q.1 = k then (q.1, q.2 + 1) else q

/-- The identity resolver (lines 1106-1147): exact dictionary match,
else promotion of the fully-unknown placeholder `(species, nsi, None,
None)` (popped, re-keyed to `sidx`, vibstate/hfs persisted via
`update_pf_state` when its id is positive; a sentinel is put back
unchanged), else creation via `doublicate_pf_entry_for_hfs` — called
with the *group's* species id (line 1131).  When the clone finds no
base row, Python stores the stale `cursor.lastrowid`; the model records
this anomaly by clearing `ok`. -/
def resolveId (groupSpecies : String) (st : PassState) (sidx : SIdx) :
    Int × PassState :=
  match dictGet st.dict sidx with
  | some i => (i, st)
  | none =>
      let ph : SIdx := ⟨sidx.species, sidx.nsi, none, none⟩
      match dictGet st.dict ph with
      | some i =>
          if 0 < i then
            (i, { st with
                    dict := dictInsert (dictErase st.dict ph) sidx i,
                    cat := update_pf_state st.cat i sidx.vib sidx.hfs })
          else
            (i, { st with
                    dict := dictInsert (dictErase st.dict ph) ph i })
      | none =>
          match doublicate_pf_entry_for_hfs st.cat st.nextPf
                  groupSpecies sidx.nsi sidx.vib sidx.hfs with
          | (cat1, some newId) =>
              (newId, { st with
                          cat := cat1,
                          dict := dictInsert st.dict sidx newId,
                          nextPf := st.nextPf + 1,
                          connLast := newId })
          | (_, none) =>
              (st.connLast,
               { st with
                   dict := dictInsert st.dict sidx st.connLast,
                   ok := false })

/-- The stored lower-state energy (lines 1091-1099): corrected by the
isomer's reference-state offset in the named-isomer branch, uncorrected
otherwise. -/
def branchEnergy (nsiName : OStr) (lowE off : Rat) : Rat :=
  match nsiName with
  | some _ => lowE - off
  | none => lowE

/-- Insert the Transition Record for one `nsiName` branch of the inner
`for nsiName in nsinames` loop (lines 1084-1176).  `off` is the isomer
energy offset (used only when `nsiName` is not `None`). -/
def insertBranch (groupSpecies tName : String) (tState tHfs : OStr)
    (tr : RTrans) (up low : RState) (unc : Rat) (w : Int) (off : Rat)
    (st : PassState) (nsiName : OStr) : PassState :=
  let sidx : SIdx := ⟨tr.SpeciesID, nsiName, tState, tHfs⟩
  let st := { st with processed := procInit st.processed sidx }
  let energy : Rat := branchEnergy nsiName low.StateEnergyValue off
  let pair := resolveId groupSpecies st sidx
  let dbId := pair.1
  let st := pair.2
  if dbId < 0 then st
  else
    let row : TRow :=
      { tid := st.nextT, pf_id := dbId,
        name := make_name tName nsiName tState tHfs,
        frequency := tr.FrequencyValue,
        einsteinA := tr.TransitionProbabilityA,
        uncertainty := unc, energyLower := energy, weight := w,
        hfs := tHfs, upperQN := up.qn_string, lowerQN := low.qn_string }
    { st with trs := st.trs ++ [row], nextT := st.nextT + 1,
              connLast := st.nextT,
              processed := procInc st.processed sidx }

/-- Process one radiative transition (lines 992-1179).  `vibLabel`
models `getvibstatelabel` (which depends on `specmodel`, not under
src/): the theorems hold for every label function. -/
def processTransition (vibLabel : RState → RState → String)
    (g : GroupInput) (st : PassState) (tr : RTrans) : PassState :=
  let sid := tr.SpeciesID
  if sid ∈ st.errors then st
  else
    match lookupState g.states tr.UpperStateRef,
          lookupState g.states tr.LowerStateRef with
    | some up, some low =>
        let tState0 := vibLabel up low
        let tState : OStr :=
          if tState0.length = 0 then none else some tState0
        let tName := pyStrip g.formula
        let tHfs := hfsOf tr.ProcessClass
        match tr.FrequencyAccuracy with
        | none => { st with errors := st.errors ++ [sid] }
        | some unc =>
            match up.TotalStatisticalWeight with
            | none => { st with errors := st.errors ++ [sid] }
            | some w =>
                let nsiName : OStr :=
                  up.NuclearSpinIsomerName.map pyStrip
                match nsiName with
                | some s =>
                    if s = "" then
                      insertBranch g.species_id tName tState tHfs tr up
                        low unc w 0 st none
                    else
                      match up.NuclearSpinIsomerLowestEnergy.bind
                              (lookupState g.states) with
                      | none => { st with errors := st.errors ++ [sid] }
                      | some origin =>
                          let off := origin.StateEnergyValue
                          let st1 := insertBranch g.species_id tName
                            tState tHfs tr up low unc w off st (some s)
                          insertBranch g.species_id tName tState tHfs
                            tr up low unc w off st1 none
                | none =>
                    insertBranch g.species_id tName tState tHfs tr up
                      low unc w 0 st none
    | _, _ => { st with errors := st.errors ++ [sid] }

/-- The error cleanup at pass end of one group (lines 1186-1198): for
every species in `species_with_error` (which persists across groups,
line 826), delete the transitions owned by its rows still in status
`Updating`, then set every row of the species to `Update Failed`. -/
def cleanupErrors (now : Nat) (st : PassState) : PassState :=
  st.errors.foldl
    (fun acc sid =>
      let trs := deleteTransOf acc.cat acc.trs sid
      let cat := (set_status acc.cat now sid "Update Failed" none).1
      { acc with trs := trs, cat := cat })
    st

/-- The success loop (lines 1211-1226): for every processed identity
tuple whose species did not fail, record the query uuid on its row and
set that row `Up-To-Date`; the per-tuple counter printed at line 1215
is appended to `report`.  Line 1220 indexes `species_dict_id[sidx]`
directly — a missing key would raise an uncaught `KeyError`, which the
model records by clearing `ok`. -/
def finishProcessed (now : Nat) (uuid : OStr) (st : PassState) :
    PassState :=
  st.processed.foldl
    (fun acc p =>
      if p.1.species ∈ acc.errors then acc
      else
        let acc := { acc with report := acc.report ++ [p] }
        match dictGet acc.dict p.1 with
        | none => { acc with ok := false }
        | some i =>
            let cat := set_uuid acc.cat i uuid
            let cat :=
              (set_status cat now p.1.species "Up-To-Date" (some i)).1
            { acc with cat := cat })
    st

/-- One iteration of the `while species_dict` loop (lines 922-1227) for
an already-fetched molecular result `g`: mark the species' eligible
rows `Updating` and delete their transitions, import the result's
radiative transitions, clean up failed species, then finish the
successfully processed tuples.  `transitions_processed` is reset per
group (line 924). -/
def runGroup (vibLabel : RState → RState → String) (now : Nat)
    (st : PassState) (g : GroupInput) : PassState :=
  let cat := markUpdating st.cat g.species_id
  let trs := deleteTransOf cat st.trs g.species_id
  let st := { st with cat := cat, trs := trs, processed := [] }
  let st := g.transitions.foldl (processTransition vibLabel g) st
  let st := cleanupErrors now st
  finishProcessed now g.uuid st

/-- `update_species_data` (lines 815-1227): scan the catalogue into
`species_dict_id`, then process the species groups one fetch at a
time.  The model covers passes in which every fetch succeeds and
returns a molecular result for the requested species (the node
registry resolves, no `where` filter restricts the scan).  `nextPf`
and `nextT` are the next sqlite rowids of the two tables. -/
def update_species_data (vibLabel : RState → RState → String)
    (force : Bool) (now : Nat) (nextPf nextT : Int) (cat : List PFRow)
    (trs : List TRow) (groups : List GroupInput) : PassState :=
  let st : PassState :=
    { cat := cat, trs := trs, dict := buildSpeciesDictId force cat,
      errors := [], processed := [], report := [], connLast := 0,
      nextPf := nextPf, nextT := nextT, ok := true }
  groups.foldl (runGroup vibLabel now) st

/-- The `calc_part = True` branch of `parse_and_update_partitionfunctions`
(lines 2046-2074), taken for species without a remote partition-function
block: for every grid temperature the partition function is computed from
the state energies (`specmodel.calculate_partitionfunction`, not under
src/, modelled as the parameter `calcPF` returning either a mapping from
species id to value or a raised error).  The `try` of lines 2066-2069
covers only the computation; the assignment at line 2074 runs outside
it, reading the variable `pf_values` — unbound if no earlier
temperature succeeded (`NameError`), stale otherwise — and indexing it
with the species id (`KeyError` when absent).  Uncaught exceptions are
returned as `Except.error`. -/
def parse_and_update_pf_calc
    (calcPF : Rat → Except String (List (String × Rat)))
    (id : String) (cat : List PFRow) : Except String (List PFRow) :=
  go TEMPERATURES none cat
where
  go : List Rat → Option (List (String × Rat)) → List PFRow →
      Except String (List PFRow)
    | [], _, cat => .ok cat
    | T :: rest, prev, cat =>
        let pfValues : Option (List (String × Rat)) :=
          match calcPF T with
          | .ok v => some v
          | .error _ => prev
        match pfValues with
        | none => .error "NameError: pf_values referenced before assignment"
        | some vals =>
            match vals.find? (fun p => p.1 = id) with
            | none => .error "KeyError"
            | some p =>
                go rest pfValues (update_partitionfunction cat id T p.2 "")

/-! ## Basic lemmas -/

theorem dictGet_insert_self (d : SDict) (k : SIdx) (v : Int) :
    dictGet (dictInsert d k v) k = some v := by
  simp [dictGet, dictInsert, List.find?]

theorem find?_erase_ne (d : SDict) (k k2 : SIdx) (h : k2 ≠ k) :
    List.find? (fun p => p.1 = k2) (dictErase d k) =
    List.find? (fun p => p.1 = k2) d := by
  induction d with
  | nil => rfl
  | cons p t ih =>
      unfold dictErase at *
      by_cases hq : p.1 = k2
      · have hp : ¬ p.1 = k := by rw [hq]; exact h
        rw [List.filter_cons_of_pos (by simpa using hp),
            List.find?_cons_of_pos _ (by simpa using hq),
            List.find?_cons_of_pos _ (by simpa using hq)]
      · by_cases hp : p.1 = k
        · rw [List.filter_cons_of_neg (by simpa using hp),
              List.find?_cons_of_neg _ (by simpa using hq), ih]
        · rw [List.filter_cons_of_pos (by simpa using hp),
              List.find?_cons_of_neg _ (by simpa using hq),
              List.find?_cons_of_neg _ (by simpa using hq), ih]

theorem dictGet_insert_ne (d : SDict) (k k2 : SIdx) (v : Int)
    (h : k2 ≠ k) : dictGet (dictInsert d k v) k2 = dictGet d k2 := by
  unfold dictGet dictInsert
  rw [List.find?_cons_of_neg _ (by simpa using fun he => h he.symm),
      find?_erase_ne d k k2 h]

theorem dictGet_erase_self (d : SDict) (k : SIdx) :
    dictGet (dictErase d k) k = none := by
  have hfind : List.find? (fun p => p.1 = k) (dictErase d k) = none := by
    rw [List.find?_eq_none]
    intro p hp
    simp only [dictErase, List.mem_filter] at hp
    simpa using hp.2
  simp [dictGet, hfind]

theorem dictGet_erase_ne (d : SDict) (k k2 : SIdx) (h : k2 ≠ k) :
    dictGet (dictErase d k) k2 = dictGet d k2 := by
  unfold dictGet
  rw [find?_erase_ne d k k2 h]

theorem ids_update_pf_state (cat : List PFRow) (i : Int) (v h : OStr) :
    (update_pf_state cat i v h).map (·.id) = cat.map (·.id) := by
  unfold update_pf_state
  rw [List.map_map]
  apply List.map_congr_left
  intro r _
  by_cases hr : r.id = i <;> simp [hr]

/-! ## C10 — set_status with an invalid status -/

/-- C10: for every species id, row id and status string not in the
enumerated list `STATI`, `set_status` leaves the catalogue completely
unchanged and performs no commit. -/
theorem c10_set_status_invalid_noop (cat : List PFRow) (now : Nat)
    (species_id status : String) (db_id : Option Int)
    (h : status ∉ STATI) :
    set_status cat now species_id status db_id = (cat, false) := by
  simp [set_status, h]

def catW : List PFRow :=
  [{ id := 1, name := "CO", species_id := "XCDMS-1", nsi := none,
     vibstate := none, hfs := none, status := "New", uuid := none,
     pf := [3, 4], checkdate := 0 }]

/-- Witness for C10 at the invalid status string "Archived". -/
theorem c10_set_status_invalid_noop_witness :
    "Archived" ∉ STATI ∧
      set_status catW 5 "XCDMS-1" "Archived" (some 1) = (catW, false) :=
  ⟨by decide, c10_set_status_invalid_noop catW 5 "XCDMS-1" "Archived"
      (some 1) (by decide)⟩

/-! ## C5 — partition-function cloning -/

/-- C5: when a new Species Record is created by
`doublicate_pf_entry_for_hfs` from a base record sharing the species id
and (IFNULL-compared) nuclear spin isomer, the clone is appended with
its `PF_<temperature>` vector equal to the base's, field for field, and
its hyperfine and vibrational-state fields set to the target tuple's
values. -/
theorem c5_clone_copies_pf (cat : List PFRow) (newId : Int)
    (species_id : String) (nsi state hfs : OStr) (base : PFRow)
    (hfind : cat.find? (fun r =>
        r.species_id = species_id ∧ ifnull r.nsi = ifnull nsi) =
        some base) :
    ∃ c : PFRow,
      doublicate_pf_entry_for_hfs cat newId species_id nsi state hfs =
        (cat ++ [c], some newId) ∧
      c.pf = base.pf ∧ (∀ i : Nat, c.pf.get? i = base.pf.get? i) ∧
      c.hfs = hfs ∧ c.vibstate = state ∧ c.species_id = species_id ∧
      base ∈ cat ∧ base.species_id = species_id ∧
      ifnull base.nsi = ifnull nsi := by
  have hmem : base ∈ cat := List.mem_of_find?_eq_some hfind
  have hpred := List.find?_some hfind
  have hprops : base.species_id = species_id ∧
      ifnull base.nsi = ifnull nsi := by simpa using hpred
  refine ⟨{ base with
              id := newId, hfs := hfs, vibstate := state, uuid := none },
    ?_, rfl, fun i => rfl, rfl, rfl, hprops.1, hmem, hprops.1, hprops.2⟩
  unfold doublicate_pf_entry_for_hfs
  rw [hfind]

def baseW : PFRow :=
  { id := 3, name := "H2O;ortho", species_id := "XCDMS-2",
    nsi := some "ortho", vibstate := none, hfs := none,
    status := "Updating", uuid := none, pf := [7, 8, 9], checkdate := 2 }

/-- Witness for C5: cloning a hyperfine variant from a concrete ortho
base row copies the partition-function vector. -/
theorem c5_clone_copies_pf_witness :
    [baseW].find? (fun r =>
        r.species_id = "XCDMS-2" ∧ ifnull r.nsi = ifnull (some "ortho")) =
      some baseW ∧
    ∃ c : PFRow,
      doublicate_pf_entry_for_hfs [baseW] 4 "XCDMS-2" (some "ortho")
          (some "v=0") (some "hyp1") = ([baseW] ++ [c], some 4) ∧
      c.pf = baseW.pf ∧ (∀ i : Nat, c.pf.get? i = baseW.pf.get? i) ∧
      c.hfs = some "hyp1" ∧ c.vibstate = some "v=0" ∧
      c.species_id = "XCDMS-2" ∧ baseW ∈ [baseW] ∧
      baseW.species_id = "XCDMS-2" ∧
      ifnull baseW.nsi = ifnull (some "ortho") :=
  ⟨by decide,
   c5_clone_copies_pf [baseW] 4 "XCDMS-2" (some "ortho") (some "v=0")
     (some "hyp1") baseW (by decide)⟩

theorem resolveId_exact (gs : String) (st : PassState) (sidx : SIdx)
    (i : Int) (hex : dictGet st.dict sidx = some i) :
    resolveId gs st sidx = (i, st) := by
  unfold resolveId
  rw [hex]

/-- Evaluation of one `nsiName` branch when the identity tuple has an
exact dictionary match with a non-negative id: one Transition Record is
appended. -/
theorem insertBranch_exact (gs tName : String) (tS tH : OStr)
    (tr : RTrans) (up low : RState) (unc : Rat) (w : Int) (off : Rat)
    (st : PassState) (nsiName : OStr) (i : Int)
    (hex : dictGet st.dict ⟨tr.SpeciesID, nsiName, tS, tH⟩ = some i)
    (hpos : 0 ≤ i) :
    insertBranch gs tName tS tH tr up low unc w off st nsiName =
      { st with
          processed := procInc
            (procInit st.processed ⟨tr.SpeciesID, nsiName, tS, tH⟩)
            ⟨tr.SpeciesID, nsiName, tS, tH⟩
          trs := st.trs ++
            [{ tid := st.nextT
               pf_id := i
               name := make_name tName nsiName tS tH
               frequency := tr.FrequencyValue
               einsteinA := tr.TransitionProbabilityA
               uncertainty := unc
               energyLower := branchEnergy nsiName low.StateEnergyValue off
               weight := w
               hfs := tH
               upperQN := up.qn_string
               lowerQN := low.qn_string }]
          nextT := st.nextT + 1
          connLast := st.nextT } := by
  unfold insertBranch
  dsimp only
  rw [resolveId_exact gs
    { st with
        processed := procInit st.processed
          ⟨tr.SpeciesID, nsiName, tS, tH⟩ }
    ⟨tr.SpeciesID, nsiName, tS, tH⟩ i hex]
  dsimp only
  rw [if_neg (not_lt.mpr hpos)]

/-! ## C4 — double import of named nuclear-spin-isomer transitions -/

/-- C4: for a transition whose upper state carries a non-empty (after
stripping) `NuclearSpinIsomerName` and whose required fields parse,
when both resolved ids are non-negative exactly two Transition Records
are inserted: one named with the isomer segment and lower-state energy
equal to the lower state's energy minus the isomer reference state's
energy, and one without the isomer segment carrying the uncorrected
lower-state energy. -/
theorem c4_isomer_double_insert (vibLabel : RState → RState → String)
    (g : GroupInput) (st : PassState) (tr : RTrans) (up low origin : RState)
    (unc : Rat) (w : Int) (s0 : String) (i j : Int) (tS tH : OStr)
    (hserr : tr.SpeciesID ∉ st.errors)
    (hup : lookupState g.states tr.UpperStateRef = some up)
    (hlow : lookupState g.states tr.LowerStateRef = some low)
    (hacc : tr.FrequencyAccuracy = some unc)
    (hw : up.TotalStatisticalWeight = some w)
    (hnsi : up.NuclearSpinIsomerName = some s0)
    (hs : ¬ (pyStrip s0) = "")
    (horig : up.NuclearSpinIsomerLowestEnergy.bind (lookupState g.states) =
      some origin)
    (htS : tS = (if (vibLabel up low).length = 0 then none
                 else some (vibLabel up low)))
    (htH : tH = hfsOf tr.ProcessClass)
    (hiso : dictGet st.dict ⟨tr.SpeciesID, some (pyStrip s0), tS, tH⟩ = some i)
    (hipos : 0 ≤ i)
    (hplain : dictGet st.dict ⟨tr.SpeciesID, none, tS, tH⟩ = some j)
    (hjpos : 0 ≤ j) :
    (processTransition vibLabel g st tr).trs = st.trs ++
      [{ tid := st.nextT
         pf_id := i
         name := make_name (pyStrip g.formula) (some (pyStrip s0)) tS tH
         frequency := tr.FrequencyValue
         einsteinA := tr.TransitionProbabilityA
         uncertainty := unc
         energyLower := low.StateEnergyValue - origin.StateEnergyValue
         weight := w
         hfs := tH
         upperQN := up.qn_string
         lowerQN := low.qn_string },
       { tid := st.nextT + 1
         pf_id := j
         name := make_name (pyStrip g.formula) none tS tH
         frequency := tr.FrequencyValue
         einsteinA := tr.TransitionProbabilityA
         uncertainty := unc
         energyLower := low.StateEnergyValue
         weight := w
         hfs := tH
         upperQN := up.qn_string
         lowerQN := low.qn_string }] := by
  have e1 : processTransition vibLabel g st tr =
      insertBranch g.species_id (pyStrip g.formula) tS tH tr up low unc w
        origin.StateEnergyValue
        (insertBranch g.species_id (pyStrip g.formula) tS tH tr up low unc w
          origin.StateEnergyValue st (some (pyStrip s0))) none := by
    unfold processTransition
    rw [if_neg hserr, hup, hlow]
    dsimp only
    rw [hacc]
    dsimp only
    rw [hw]
    dsimp only
    rw [hnsi]
    dsimp only [Option.map]
    rw [if_neg hs, horig]
    dsimp only
    rw [htS, htH]
  rw [e1,
    insertBranch_exact g.species_id (pyStrip g.formula) tS tH tr up low unc w
      origin.StateEnergyValue st (some (pyStrip s0)) i hiso hipos]
  rw [insertBranch_exact g.species_id (pyStrip g.formula) tS tH tr up low unc w
      origin.StateEnergyValue
      { st with
          processed := procInc
            (procInit st.processed ⟨tr.SpeciesID, some (pyStrip s0), tS, tH⟩)
            ⟨tr.SpeciesID, some (pyStrip s0), tS, tH⟩
          trs := st.trs ++
            [{ tid := st.nextT
               pf_id := i
               name := make_name (pyStrip g.formula) (some (pyStrip s0)) tS tH
               frequency := tr.FrequencyValue
               einsteinA := tr.TransitionProbabilityA
               uncertainty := unc
               energyLower := branchEnergy (some (pyStrip s0))
                 low.StateEnergyValue origin.StateEnergyValue
               weight := w
               hfs := tH
               upperQN := up.qn_string
               lowerQN := low.qn_string }]
          nextT := st.nextT + 1
          connLast := st.nextT }
      none j hplain hjpos]
  dsimp only [branchEnergy]
  rw [List.append_assoc]
  rfl

def upW4 : RState :=
  { StateEnergyValue := 20, TotalStatisticalWeight := some 4,
    NuclearSpinIsomerName := some "ortho",
    NuclearSpinIsomerLowestEnergy := some "o0", qn_string := "2" }

def lowW4 : RState :=
  { StateEnergyValue := 5, TotalStatisticalWeight := some 2,
    NuclearSpinIsomerName := none, NuclearSpinIsomerLowestEnergy := none,
    qn_string := "1" }

def originW4 : RState :=
  { StateEnergyValue := 10, TotalStatisticalWeight := none,
    NuclearSpinIsomerName := none, NuclearSpinIsomerLowestEnergy := none,
    qn_string := "0" }

def trW4 : RTrans :=
  { SpeciesID := "XCDMS-4", UpperStateRef := "u", LowerStateRef := "l",
    FrequencyValue := 100, FrequencyAccuracy := some 1,
    TransitionProbabilityA := 3, ProcessClass := [] }

def gW4 : GroupInput :=
  { species_id := "XCDMS-4", formula := "H2O",
    states := [("u", upW4), ("l", lowW4), ("o0", originW4)],
    transitions := [trW4], uuid := none }

def stW4 : PassState :=
  { cat := [], trs := [],
    dict := [(⟨"XCDMS-4", some "ortho", none, none⟩, 7),
             (⟨"XCDMS-4", none, none, none⟩, 8)],
    errors := [], processed := [], report := [], connLast := 0,
    nextPf := 9, nextT := 1, ok := true }

def recIsoW4 : TRow :=
  { tid := 1
    pf_id := 7
    name := make_name (pyStrip "H2O") (some (pyStrip "ortho")) none none
    frequency := 100
    einsteinA := 3
    uncertainty := 1
    energyLower := lowW4.StateEnergyValue - originW4.StateEnergyValue
    weight := 4
    hfs := none
    upperQN := "2"
    lowerQN := "1" }

def recPlainW4 : TRow :=
  { recIsoW4 with
      tid := 2
      pf_id := 8
      name := make_name (pyStrip "H2O") none none none
      energyLower := lowW4.StateEnergyValue }

/-- Witness for C4: isomer offset 10 and lower-state energy 5 yield the
two stored records with energies -5 (named `H2O;ortho`) and 5 (named
`H2O`). -/
theorem c4_isomer_double_insert_witness :
    upW4.NuclearSpinIsomerName = some "ortho" ∧ ¬ (pyStrip "ortho" = "") ∧
    (processTransition (fun _ _ => "") gW4 stW4 trW4).trs =
      [recIsoW4, recPlainW4] ∧
    recIsoW4.energyLower = -5 ∧ recIsoW4.name = "H2O;ortho" ∧
    recPlainW4.energyLower = 5 ∧ recPlainW4.name = "H2O" := by
  refine ⟨rfl, by decide, ?_, by norm_num [recIsoW4, lowW4, originW4],
    by decide, by norm_num [recPlainW4, recIsoW4, lowW4], by decide⟩
  have h := c4_isomer_double_insert (fun _ _ => "") gW4 stW4 trW4 upW4
    lowW4 originW4 1 4 "ortho" 7 8 none none (by decide) rfl rfl rfl rfl
    rfl (by decide) rfl rfl rfl (by decide) (by decide) (by decide)
    (by decide)
  rw [h]
  rfl

/-! ## C2 — promotion of the fully-unknown placeholder -/

/-- C2: when the identity tuple `sidx` has no exact match but the
fully-unknown placeholder `(species, nsi, None, None)` is mapped to a
positive row id, that same row (same id) is re-keyed to `sidx` and its
vibrational-state and hyperfine fields are persisted with the newly
revealed values via `update_pf_state`; no duplicate record is created
(the list of row ids is unchanged). -/
theorem c2_placeholder_promoted (groupSpecies : String) (st : PassState)
    (sidx : SIdx) (i : Int)
    (hmiss : dictGet st.dict sidx = none)
    (hph : dictGet st.dict ⟨sidx.species, sidx.nsi, none, none⟩ = some i)
    (hpos : 0 < i) :
    (resolveId groupSpecies st sidx).1 = i ∧
    (resolveId groupSpecies st sidx).2.cat =
      update_pf_state st.cat i sidx.vib sidx.hfs ∧
    dictGet (resolveId groupSpecies st sidx).2.dict sidx = some i ∧
    ((resolveId groupSpecies st sidx).2.cat.map (·.id) =
      st.cat.map (·.id)) ∧
    (∀ r ∈ st.cat, r.id = i →
      { r with vibstate := sidx.vib, hfs := sidx.hfs } ∈
        (resolveId groupSpecies st sidx).2.cat) := by
  have hres : resolveId groupSpecies st sidx =
      (i, { st with
              dict := dictInsert
                (dictErase st.dict ⟨sidx.species, sidx.nsi, none, none⟩)
                sidx i,
              cat := update_pf_state st.cat i sidx.vib sidx.hfs }) := by
    unfold resolveId
    rw [hmiss]
    simp only [hph]
    rw [if_pos hpos]
  refine ⟨by rw [hres], by rw [hres], ?_, ?_, ?_⟩
  · rw [hres]
    exact dictGet_insert_self _ sidx i
  · rw [hres]
    exact ids_update_pf_state st.cat i sidx.vib sidx.hfs
  · intro r hr hid
    rw [hres]
    show _ ∈ update_pf_state st.cat i sidx.vib sidx.hfs
    unfold update_pf_state
    have : { r with vibstate := sidx.vib, hfs := sidx.hfs } =
        (fun r => if r.id = i then
          { r with vibstate := sidx.vib, hfs := sidx.hfs } else r) r := by
      simp [hid]
    rw [this]
    exact List.mem_map_of_mem _ hr

def stC2 : PassState :=
  { cat := [{ id := 1, name := "H2O", species_id := "XCDMS-9",
              nsi := none, vibstate := none, hfs := none,
              status := "Updating", uuid := none, pf := [2],
              checkdate := 0 }],
    trs := [], dict := [(⟨"XCDMS-9", none, none, none⟩, 1)],
    errors := [], processed := [], report := [], connLast := 0,
    nextPf := 2, nextT := 1, ok := true }

def sidxC2 : SIdx := ⟨"XCDMS-9", none, some "v=1", none⟩

/-- Witness for C2: a concrete placeholder record is promoted in place
when a transition reveals the vibrational state `v=1`. -/
theorem c2_placeholder_promoted_witness :
    dictGet stC2.dict sidxC2 = none ∧
    dictGet stC2.dict ⟨sidxC2.species, sidxC2.nsi, none, none⟩ = some 1 ∧
    (0 : Int) < 1 ∧
    ((resolveId "XCDMS-9" stC2 sidxC2).1 = 1 ∧
     (resolveId "XCDMS-9" stC2 sidxC2).2.cat =
       update_pf_state stC2.cat 1 sidxC2.vib sidxC2.hfs ∧
     dictGet (resolveId "XCDMS-9" stC2 sidxC2).2.dict sidxC2 = some 1 ∧
     ((resolveId "XCDMS-9" stC2 sidxC2).2.cat.map (·.id) =
       stC2.cat.map (·.id)) ∧
     (∀ r ∈ stC2.cat, r.id = 1 →
       { r with vibstate := sidxC2.vib, hfs := sidxC2.hfs } ∈
         (resolveId "XCDMS-9" stC2 sidxC2).2.cat)) :=
  ⟨by decide, by decide, by decide,
   c2_placeholder_promoted "XCDMS-9" stC2 sidxC2 1 (by decide) (by decide)
     (by decide)⟩

/-! ## C3 — no partial promotion exists in the resolver -/

def rowC3 : PFRow :=
  { id := 1, name := "H2O", species_id := "XCDMS-3", nsi := none,
    vibstate := some "v=0", hfs := none, status := "New", uuid := none,
    pf := [], checkdate := 0 }

def trC3 : RTrans :=
  { SpeciesID := "XCDMS-3", UpperStateRef := "u", LowerStateRef := "l",
    FrequencyValue := 100, FrequencyAccuracy := some 1,
    TransitionProbabilityA := 3, ProcessClass := [] }

def upC3 : RState :=
  { StateEnergyValue := 9, TotalStatisticalWeight := some 4,
    NuclearSpinIsomerName := none, NuclearSpinIsomerLowestEnergy := none,
    qn_string := "2" }

def lowC3 : RState :=
  { upC3 with StateEnergyValue := 5, qn_string := "1" }

def gC3 : GroupInput :=
  { species_id := "XCDMS-3", formula := "H2O",
    states := [("u", upC3), ("l", lowC3)], transitions := [trC3],
    uuid := some "uu" }

/-- The final pass state of the C3 scenario: the catalogue holds one
record `(XCDMS-3, None, v=0, None)` that has received no transitions
this pass, and the incoming transition reveals the tuple
`(XCDMS-3, None, v=1, None)`, differing in exactly the vibrational
dimension. -/
def finalC3 : PassState :=
  update_species_data (fun _ _ => "v=1") false 7 2 1 [rowC3] [] [gC3]

/-- C3 counterexample: the claim predicts that the unprocessed record
differing from `sidx` in exactly one refined dimension is promoted to
`sidx` (same row, no new record).  On this concrete input the code does
no such search: the existing record keeps `v=0` and a second record is
created instead. -/
theorem c3_counterexample :
    ¬ (finalC3.cat.length = 1 ∧
       ∀ r ∈ finalC3.cat, r.id = 1 → r.vibstate = some "v=1") := by
  decide

/-- C3 amended: the resolver performs no partial promotion.  When the
tuple `sidx` matches neither an existing record nor the fully-unknown
placeholder `(species, nsi, None, None)`, every existing Species Record
is left exactly as it is (no re-keying, whether or not it has received
transitions this pass); at most one fresh record is appended, cloned
via `doublicate_pf_entry_for_hfs` with the target vibstate and hfs. -/
theorem c3_amended_no_partial_promotion (gs : String) (st : PassState)
    (sidx : SIdx)
    (hmiss : dictGet st.dict sidx = none)
    (hph : dictGet st.dict ⟨sidx.species, sidx.nsi, none, none⟩ = none) :
    (∀ r ∈ st.cat, r ∈ (resolveId gs st sidx).2.cat) ∧
    ((resolveId gs st sidx).2.cat = st.cat ∨
     ∃ c : PFRow, c.vibstate = sidx.vib ∧ c.hfs = sidx.hfs ∧
       (resolveId gs st sidx).2.cat = st.cat ++ [c]) := by
  have hres : (resolveId gs st sidx).2.cat = st.cat ∨
      ∃ c : PFRow, c.vibstate = sidx.vib ∧ c.hfs = sidx.hfs ∧
        (resolveId gs st sidx).2.cat = st.cat ++ [c] := by
    unfold resolveId
    rw [hmiss]
    dsimp only
    rw [hph]
    unfold doublicate_pf_entry_for_hfs
    cases hfind : st.cat.find? (fun r =>
        r.species_id = gs ∧ ifnull r.nsi = ifnull sidx.nsi) with
    | none => exact Or.inl rfl
    | some base =>
        exact Or.inr ⟨{ base with
          id := st.nextPf, hfs := sidx.hfs, vibstate := sidx.vib,
          uuid := none }, rfl, rfl, rfl⟩
  refine ⟨?_, hres⟩
  intro r hr
  rcases hres with h | ⟨c, _, _, h⟩
  · rw [h]; exact hr
  · rw [h]; exact List.mem_append_left _ hr

def stC3W : PassState :=
  { cat := [rowC3], trs := [], dict := [(maskedKey rowC3, 1)],
    errors := [], processed := [], report := [], connLast := 0,
    nextPf := 2, nextT := 1, ok := true }

def sidxC3W : SIdx := ⟨"XCDMS-3", none, some "v=1", none⟩

/-- Witness for the amended C3 on a concrete state: the record
differing only in the vibrational dimension stays untouched and a clone
is appended. -/
theorem c3_amended_no_partial_promotion_witness :
    dictGet stC3W.dict sidxC3W = none ∧
    dictGet stC3W.dict ⟨sidxC3W.species, sidxC3W.nsi, none, none⟩ =
      none ∧
    ((∀ r ∈ stC3W.cat,
        r ∈ (resolveId "XCDMS-3" stC3W sidxC3W).2.cat) ∧
     ((resolveId "XCDMS-3" stC3W sidxC3W).2.cat = stC3W.cat ∨
      ∃ c : PFRow, c.vibstate = sidxC3W.vib ∧ c.hfs = sidxC3W.hfs ∧
        (resolveId "XCDMS-3" stC3W sidxC3W).2.cat = stC3W.cat ++ [c])) :=
  ⟨by decide, by decide,
   c3_amended_no_partial_promotion "XCDMS-3" stC3W sidxC3W (by decide)
     (by decide)⟩

/-! ## C8 — partition functions computed from state energies -/

/-- C8 (code bug): in the `calc_part` branch of
`parse_and_update_partitionfunctions`, the assignment
`self.update_partitionfunction(id, temperature, pf_values[id])` at line
2074 sits outside the `try` of lines 2066-2069, so when the computation
fails at the first grid temperature the variable `pf_values` is unbound
and the read raises an uncaught `NameError`: the remaining temperatures
are not processed and the error propagates into `update_species_data`
(line 1208, also unguarded), aborting the synchronisation run instead
of being logged and skipped. -/
theorem c8_calc_failure_aborts :
    parse_and_update_pf_calc (fun _ => .error "calculation failed")
      "XJPL-77" catW =
      .error "NameError: pf_values referenced before assignment" := by
  rfl


/-! ## Row retention: the pass never deletes a Species Record -/

/-- `B` retains (at least by row id) every record of `A`. -/
def keepsIds (A B : List PFRow) : Prop :=
  ∀ r ∈ A, ∃ r2 ∈ B, r2.id = r.id

theorem keepsIds_refl (A : List PFRow) : keepsIds A A :=
  fun r hr => ⟨r, hr, rfl⟩

theorem keepsIds_trans {A B C : List PFRow} (h1 : keepsIds A B)
    (h2 : keepsIds B C) : keepsIds A C := by
  intro r hr
  obtain ⟨r2, hr2, he⟩ := h1 r hr
  obtain ⟨r3, hr3, he2⟩ := h2 r2 hr2
  exact ⟨r3, hr3, he2.trans he⟩

theorem keepsIds_map (f : PFRow → PFRow) (h : ∀ r, (f r).id = r.id)
    (A : List PFRow) : keepsIds A (A.map f) :=
  fun r hr => ⟨f r, List.mem_map_of_mem f hr, h r⟩

theorem keepsIds_append (A l : List PFRow) : keepsIds A (A ++ l) :=
  fun r hr => ⟨r, List.mem_append_left l hr, rfl⟩

theorem set_status_keepsIds (A : List PFRow) (now : Nat) (sid stat : String)
    (db_id : Option Int) : keepsIds A (set_status A now sid stat db_id).1 := by
  unfold set_status
  split
  · cases db_id with
    | some i =>
        exact keepsIds_map _ (fun r => by by_cases h : r.id = i <;> simp [h]) A
    | none =>
        exact keepsIds_map _
          (fun r => by by_cases h : r.species_id = sid <;> simp [h]) A
  · exact keepsIds_refl A

theorem set_uuid_keepsIds (A : List PFRow) (i : Int) (u : OStr) :
    keepsIds A (set_uuid A i u) := by
  unfold set_uuid
  cases u with
  | none => exact keepsIds_refl A
  | some v =>
      exact keepsIds_map _ (fun r => by by_cases h : r.id = i <;> simp [h]) A

theorem update_pf_state_keepsIds (A : List PFRow) (i : Int) (v h2 : OStr) :
    keepsIds A (update_pf_state A i v h2) :=
  keepsIds_map _ (fun r => by by_cases h : r.id = i <;> simp [h]) A

theorem markUpdating_keepsIds (A : List PFRow) (sid : String) :
    keepsIds A (markUpdating A sid) := by
  unfold markUpdating
  refine keepsIds_map _ (fun r => ?_) A
  by_cases h : r.species_id = sid ∧
      (r.status = "New" ∨ r.status = "Update Available" ∨
       r.status = "Update Failed") <;> simp [h]

theorem resolveId_keepsIds (gs : String) (st : PassState) (sidx : SIdx) :
    keepsIds st.cat (resolveId gs st sidx).2.cat := by
  unfold resolveId
  cases h1 : dictGet st.dict sidx with
  | some i => exact keepsIds_refl _
  | none =>
      dsimp only
      cases h2 : dictGet st.dict ⟨sidx.species, sidx.nsi, none, none⟩ with
      | some i =>
          dsimp only
          by_cases hp : 0 < i
          · rw [if_pos hp]
            exact update_pf_state_keepsIds st.cat i sidx.vib sidx.hfs
          · rw [if_neg hp]
            exact keepsIds_refl _
      | none =>
          dsimp only
          unfold doublicate_pf_entry_for_hfs
          cases h3 : st.cat.find? (fun r =>
              r.species_id = gs ∧ ifnull r.nsi = ifnull sidx.nsi) with
          | none => exact keepsIds_refl _
          | some base =>
              dsimp only
              exact keepsIds_append _ _

theorem insertBranch_cat (gs tName : String) (tS tH : OStr) (tr : RTrans)
    (up low : RState) (unc : Rat) (w : Int) (off : Rat) (st : PassState)
    (nsiName : OStr) :
    (insertBranch gs tName tS tH tr up low unc w off st nsiName).cat =
    (resolveId gs
      { st with
          processed := procInit st.processed
            ⟨tr.SpeciesID, nsiName, tS, tH⟩ }
      ⟨tr.SpeciesID, nsiName, tS, tH⟩).2.cat := by
  unfold insertBranch
  dsimp only
  split <;> rfl

theorem insertBranch_keepsIds (gs tName : String) (tS tH : OStr)
    (tr : RTrans) (up low : RState) (unc : Rat) (w : Int) (off : Rat)
    (st : PassState) (nsiName : OStr) :
    keepsIds st.cat
      (insertBranch gs tName tS tH tr up low unc w off st nsiName).cat := by
  rw [insertBranch_cat]
  exact resolveId_keepsIds gs
    { st with
        processed := procInit st.processed
          ⟨tr.SpeciesID, nsiName, tS, tH⟩ }
    ⟨tr.SpeciesID, nsiName, tS, tH⟩

theorem processTransition_keepsIds (vl : RState → RState → String)
    (g : GroupInput) (st : PassState) (tr : RTrans) :
    keepsIds st.cat (processTransition vl g st tr).cat := by
  unfold processTransition
  dsimp only
  split
  · exact keepsIds_refl _
  · split
    · split
      · exact keepsIds_refl _
      · split
        · exact keepsIds_refl _
        · split
          · split
            · exact insertBranch_keepsIds _ _ _ _ _ _ _ _ _ _ _ _
            · split
              · exact keepsIds_refl _
              · exact keepsIds_trans
                  (insertBranch_keepsIds _ _ _ _ _ _ _ _ _ _ _ _)
                  (insertBranch_keepsIds _ _ _ _ _ _ _ _ _ _ _ _)
          · exact insertBranch_keepsIds _ _ _ _ _ _ _ _ _ _ _ _
    · exact keepsIds_refl _



theorem foldl_keepsIds {α : Type} (f : PassState → α → PassState)
    (h : ∀ st a, keepsIds st.cat (f st a).cat) (l : List α) :
    ∀ st : PassState, keepsIds st.cat (l.foldl f st).cat := by
  induction l with
  | nil => exact fun st => keepsIds_refl _
  | cons a t ih =>
      exact fun st => keepsIds_trans (h st a) (ih (f st a))

theorem cleanupErrors_keepsIds (now : Nat) (st : PassState) :
    keepsIds st.cat (cleanupErrors now st).cat := by
  unfold cleanupErrors
  refine foldl_keepsIds _ (fun acc sid => ?_) st.errors st
  exact set_status_keepsIds acc.cat now sid "Update Failed" none

theorem finishProcessed_keepsIds (now : Nat) (uuid : OStr)
    (st : PassState) : keepsIds st.cat (finishProcessed now uuid st).cat := by
  unfold finishProcessed
  refine foldl_keepsIds _ (fun acc p => ?_) st.processed st
  split
  · exact keepsIds_refl _
  · dsimp only
    cases hd : dictGet acc.dict p.1 with
    | none => exact keepsIds_refl _
    | some i =>
        dsimp only
        exact keepsIds_trans (set_uuid_keepsIds acc.cat i uuid)
          (set_status_keepsIds _ now p.1.species "Up-To-Date" (some i))

theorem runGroup_keepsIds (vl : RState → RState → String) (now : Nat)
    (st : PassState) (g : GroupInput) :
    keepsIds st.cat (runGroup vl now st g).cat := by
  unfold runGroup
  refine keepsIds_trans (markUpdating_keepsIds st.cat g.species_id) ?_
  refine keepsIds_trans ?_ (finishProcessed_keepsIds now g.uuid _)
  refine keepsIds_trans ?_ (cleanupErrors_keepsIds now _)
  exact foldl_keepsIds _
    (fun acc tr => processTransition_keepsIds vl g acc tr) g.transitions
    { st with
        cat := markUpdating st.cat g.species_id
        trs := deleteTransOf (markUpdating st.cat g.species_id) st.trs
          g.species_id
        processed := [] }

theorem update_species_data_keepsIds (vl : RState → RState → String)
    (force : Bool) (now : Nat) (nextPf nextT : Int) (cat : List PFRow)
    (trs : List TRow) (groups : List GroupInput) :
    keepsIds cat
      (update_species_data vl force now nextPf nextT cat trs groups).cat := by
  unfold update_species_data
  exact foldl_keepsIds _ (fun st g => runGroup_keepsIds vl now st g) groups
    { cat := cat, trs := trs, dict := buildSpeciesDictId force cat,
      errors := [], processed := [], report := [], connLast := 0,
      nextPf := nextPf, nextT := nextT, ok := true }

/-! ## C9 — no reaping of orphaned `Updating` records -/

def row9a : PFRow :=
  { id := 1, name := "H2O", species_id := "XCDMS-5", nsi := none,
    vibstate := none, hfs := none, status := "New", uuid := none,
    pf := [], checkdate := 0 }

def row9b : PFRow :=
  { row9a with id := 2, nsi := some "ortho", name := "H2O;ortho" }

def tr9 : RTrans :=
  { SpeciesID := "XCDMS-5", UpperStateRef := "u", LowerStateRef := "l",
    FrequencyValue := 100, FrequencyAccuracy := some 1,
    TransitionProbabilityA := 3, ProcessClass := [] }

def g9 : GroupInput :=
  { species_id := "XCDMS-5", formula := "H2O",
    states := [("u", upC3), ("l", lowC3)], transitions := [tr9],
    uuid := some "uu" }

def finalC9 : PassState :=
  update_species_data (fun _ _ => "") false 7 3 1 [row9a, row9b] [] [g9]

/-- C9 counterexample: in this concrete pass, the Species Record with
row id 2 (the ortho sub-state of the processed species) is marked
`Updating` at pass start and receives no transitions; the claim says it
is deleted at pass end, but it is still present in the catalogue, still
in status `Updating`. -/
theorem c9_counterexample :
    ¬ (∀ r ∈ finalC9.cat, r.status = "Updating" →
        ∃ t ∈ finalC9.trs, t.pf_id = r.id) := by
  decide

/-- C9 amended: `update_species_data` never deletes a Species Record:
every row of the initial catalogue is still present (same row id) at
pass end; a record left in `Updating` without transitions is retained,
remaining eligible for a later pass, not reaped. -/
theorem c9_amended_no_deletion (vl : RState → RState → String)
    (force : Bool) (now : Nat) (nextPf nextT : Int) (cat : List PFRow)
    (trs : List TRow) (groups : List GroupInput) (r : PFRow)
    (hr : r ∈ cat) :
    ∃ r2 ∈ (update_species_data vl force now nextPf nextT cat trs
      groups).cat, r2.id = r.id :=
  update_species_data_keepsIds vl force now nextPf nextT cat trs groups r hr

/-- Witness for the amended C9: the orphaned ortho record of the C9
scenario is retained. -/
theorem c9_amended_no_deletion_witness :
    row9b ∈ [row9a, row9b] ∧
    ∃ r2 ∈ finalC9.cat, r2.id = row9b.id :=
  ⟨by decide,
   c9_amended_no_deletion (fun _ _ => "") false 7 3 1 [row9a, row9b] []
     [g9] row9b (by decide)⟩


/-! ## C7 — the negative sentinel excludes records from updates -/


theorem dict_scan_notmem (force : Bool) (t : List PFRow) (k : SIdx)
    (hk : ∀ r ∈ t, maskedKey r ≠ k) :
    ∀ d : SDict,
      dictGet (t.foldl
        (fun d r => dictInsert d (maskedKey r) (scanVal force r)) d) k =
      dictGet d k := by
  induction t with
  | nil => exact fun d => rfl
  | cons x t ih =>
      intro d
      rw [List.foldl_cons]
      rw [ih (fun r hr => hk r (List.mem_cons_of_mem x hr))]
      exact dictGet_insert_ne d (maskedKey x) k (scanVal force x)
        (fun he => hk x (List.mem_cons_self x t) he.symm)

theorem dict_scan_lookup (force : Bool) (t : List PFRow) (r : PFRow)
    (hr : r ∈ t) (hnodup : (t.map maskedKey).Nodup) :
    ∀ d : SDict,
      dictGet (t.foldl
        (fun d r => dictInsert d (maskedKey r) (scanVal force r)) d)
        (maskedKey r) = some (scanVal force r) := by
  induction t with
  | nil => cases hr
  | cons x t ih =>
      intro d
      rw [List.map_cons, List.nodup_cons] at hnodup
      rw [List.foldl_cons]
      rcases List.mem_cons.mp hr with he | ht
      · subst he
        rw [dict_scan_notmem force t (maskedKey r)
          (fun q hq hqe =>
            hnodup.1 (hqe ▸ List.mem_map_of_mem maskedKey hq))]
        exact dictGet_insert_self _ _ _
      · exact ih ht hnodup.2 _

theorem buildDict_lookup (force : Bool) (cat : List PFRow) (r : PFRow)
    (hr : r ∈ cat) (hnodup : (cat.map maskedKey).Nodup) :
    dictGet (buildSpeciesDictId force cat) (maskedKey r) =
      some (scanVal force r) :=
  dict_scan_lookup force cat r hr hnodup []

/-- `resolveId` only touches `cat`, `dict`, `connLast`, `nextPf` and
`ok`: the transition table, error list, processed counters, report and
`nextT` are unchanged. -/
theorem resolveId_frame (gs : String) (st : PassState) (sidx : SIdx) :
    (resolveId gs st sidx).2.trs = st.trs ∧
    (resolveId gs st sidx).2.errors = st.errors ∧
    (resolveId gs st sidx).2.processed = st.processed ∧
    (resolveId gs st sidx).2.report = st.report ∧
    (resolveId gs st sidx).2.nextT = st.nextT := by
  unfold resolveId
  cases h1 : dictGet st.dict sidx with
  | some i => exact ⟨rfl, rfl, rfl, rfl, rfl⟩
  | none =>
      dsimp only
      cases h2 : dictGet st.dict ⟨sidx.species, sidx.nsi, none, none⟩ with
      | some i =>
          dsimp only
          by_cases hp : 0 < i
          · rw [if_pos hp]; exact ⟨rfl, rfl, rfl, rfl, rfl⟩
          · rw [if_neg hp]; exact ⟨rfl, rfl, rfl, rfl, rfl⟩
      | none =>
          dsimp only
          unfold doublicate_pf_entry_for_hfs
          cases h3 : st.cat.find? (fun r =>
              r.species_id = gs ∧ ifnull r.nsi = ifnull sidx.nsi) with
          | none => exact ⟨rfl, rfl, rfl, rfl, rfl⟩
          | some base => exact ⟨rfl, rfl, rfl, rfl, rfl⟩

/-- Every transition in `B` is either an original one or has a
non-negative owner id. -/
def trsOk (trs0 B : List TRow) : Prop :=
  ∀ t ∈ B, t ∈ trs0 ∨ 0 ≤ t.pf_id

theorem trsOk_filter (trs0 B : List TRow) (p : TRow → Bool)
    (h : trsOk trs0 B) : trsOk trs0 (B.filter p) :=
  fun t ht => h t (List.mem_of_mem_filter ht)

theorem insertBranch_trsOk (gs tName : String) (tS tH : OStr)
    (tr : RTrans) (up low : RState) (unc : Rat) (w : Int) (off : Rat)
    (st : PassState) (nsiName : OStr) (trs0 : List TRow)
    (h : trsOk trs0 st.trs) :
    trsOk trs0 (insertBranch gs tName tS tH tr up low unc w off st
      nsiName).trs := by
  unfold insertBranch
  dsimp only
  split
  · rw [(resolveId_frame gs _ _).1]
    exact h
  · next hneg =>
      rw [(resolveId_frame gs _ _).1]
      intro t ht
      rcases List.mem_append.mp ht with h1 | h1
      · exact h t h1
      · right
        have : t.pf_id = (resolveId gs
            { st with
                processed := procInit st.processed
                  ⟨tr.SpeciesID, nsiName, tS, tH⟩ }
            ⟨tr.SpeciesID, nsiName, tS, tH⟩).1 := by
          rcases List.mem_singleton.mp h1 with he
          rw [he]
        rw [this]
        exact le_of_not_lt hneg

theorem processTransition_trsOk (vl : RState → RState → String)
    (g : GroupInput) (st : PassState) (tr : RTrans) (trs0 : List TRow)
    (h : trsOk trs0 st.trs) :
    trsOk trs0 (processTransition vl g st tr).trs := by
  unfold processTransition
  dsimp only
  split
  · exact h
  · split
    · split
      · exact h
      · split
        · exact h
        · split
          · split
            · exact insertBranch_trsOk _ _ _ _ _ _ _ _ _ _ _ _ _ h
            · split
              · exact h
              · exact insertBranch_trsOk _ _ _ _ _ _ _ _ _ _ _ _ _
                  (insertBranch_trsOk _ _ _ _ _ _ _ _ _ _ _ _ _ h)
          · exact insertBranch_trsOk _ _ _ _ _ _ _ _ _ _ _ _ _ h
    · exact h

theorem foldl_trsOk {α : Type} (f : PassState → α → PassState)
    (trs0 : List TRow)
    (h : ∀ st a, trsOk trs0 st.trs → trsOk trs0 (f st a).trs)
    (l : List α) :
    ∀ st : PassState, trsOk trs0 st.trs →
      trsOk trs0 (l.foldl f st).trs := by
  induction l with
  | nil => exact fun st hst => hst
  | cons a t ih => exact fun st hst => ih (f st a) (h st a hst)

theorem cleanupErrors_trsOk (now : Nat) (st : PassState)
    (trs0 : List TRow) (h : trsOk trs0 st.trs) :
    trsOk trs0 (cleanupErrors now st).trs := by
  unfold cleanupErrors
  refine foldl_trsOk _ trs0 (fun acc sid hacc => ?_) st.errors st h
  exact trsOk_filter trs0 acc.trs _ hacc

theorem finishProcessed_trs (now : Nat) (uuid : OStr) (st : PassState) :
    (finishProcessed now uuid st).trs = st.trs := by
  unfold finishProcessed
  have : ∀ (l : List (SIdx × Nat)) (acc : PassState),
      (l.foldl (fun acc p =>
        if p.1.species ∈ acc.errors then acc
        else
          let acc2 := { acc with report := acc.report ++ [p] }
          match dictGet acc2.dict p.1 with
          | none => { acc2 with ok := false }
          | some i =>
              let cat := set_uuid acc2.cat i uuid
              let cat :=
                (set_status cat now p.1.species "Up-To-Date" (some i)).1
              { acc2 with cat := cat }) acc).trs = acc.trs := by
    intro l
    induction l with
    | nil => exact fun acc => rfl
    | cons p t ih =>
        intro acc
        rw [List.foldl_cons, ih]
        split
        · rfl
        · dsimp only
          cases hd : dictGet acc.dict p.1 <;> rfl
  exact this st.processed st

theorem runGroup_trsOk (vl : RState → RState → String) (now : Nat)
    (st : PassState) (g : GroupInput) (trs0 : List TRow)
    (h : trsOk trs0 st.trs) :
    trsOk trs0 (runGroup vl now st g).trs := by
  unfold runGroup
  rw [finishProcessed_trs]
  refine cleanupErrors_trsOk now _ trs0 ?_
  refine foldl_trsOk _ trs0
    (fun acc tr hacc => processTransition_trsOk vl g acc tr trs0 hacc)
    g.transitions _ ?_
  exact trsOk_filter trs0 st.trs _ h

theorem update_species_data_trsOk (vl : RState → RState → String)
    (force : Bool) (now : Nat) (nextPf nextT : Int) (cat : List PFRow)
    (trs : List TRow) (groups : List GroupInput) :
    trsOk trs
      (update_species_data vl force now nextPf nextT cat trs groups).trs := by
  unfold update_species_data
  exact foldl_trsOk _ trs
    (fun st g hst => runGroup_trsOk vl now st g trs hst) groups _
    (fun t ht => Or.inl ht)


theorem scanVal_ineligible (r : PFRow) (hstati : r.status ∈ STATI)
    (hinel : r.status ∉
      ["New", "Update Available", "Update Failed", "Updating"]) :
    scanVal false r = -1 := by
  unfold scanVal
  simp only [STATI, List.mem_cons, List.not_mem_nil, or_false] at hstati
  rcases hstati with h | h | h | h | h | h | h
  · exact absurd (by rw [h]; decide) hinel
  · exact absurd (by rw [h]; decide) hinel
  · rw [h, if_neg (by decide)]
  · rw [h, if_neg (by decide)]
  · rw [h, if_neg (by decide)]
  · exact absurd (by rw [h]; decide) hinel
  · exact absurd (by rw [h]; decide) hinel

/-- C7: in an unforced pass, a Species Record whose status is a valid
status other than New/Update Available/Update Failed/Updating is mapped
by the scan to the sentinel id `-1`, and no Transition Record with a
negative owner id is ever inserted: every transition after the pass is
either an original one or carries a non-negative resolved id. -/
theorem c7_excluded_sentinel (vl : RState → RState → String) (now : Nat)
    (nextPf nextT : Int) (cat : List PFRow) (trs0 : List TRow)
    (groups : List GroupInput) (r : PFRow) (hr : r ∈ cat)
    (hnodup : (cat.map maskedKey).Nodup)
    (hstati : r.status ∈ STATI)
    (hinel : r.status ∉
      ["New", "Update Available", "Update Failed", "Updating"]) :
    dictGet (buildSpeciesDictId false cat) (maskedKey r) = some (-1) ∧
    ∀ t ∈ (update_species_data vl false now nextPf nextT cat trs0
        groups).trs, t ∈ trs0 ∨ 0 ≤ t.pf_id := by
  constructor
  · rw [buildDict_lookup false cat r hr hnodup,
      scanVal_ineligible r hstati hinel]
  · exact update_species_data_trsOk vl false now nextPf nextT cat trs0
      groups

def rowC7 : PFRow :=
  { id := 1, name := "H2O", species_id := "XCDMS-7", nsi := none,
    vibstate := none, hfs := none, status := "Keep", uuid := none,
    pf := [], checkdate := 0 }

def gC7 : GroupInput :=
  { species_id := "XCDMS-7", formula := "H2O",
    states := [("u", upC3), ("l", lowC3)],
    transitions := [{ SpeciesID := "XCDMS-7", UpperStateRef := "u",
                      LowerStateRef := "l", FrequencyValue := 100,
                      FrequencyAccuracy := some 1,
                      TransitionProbabilityA := 3, ProcessClass := [] }],
    uuid := some "uu" }

/-- Witness for C7: a `Keep` record is mapped to `-1` and the pass
inserts nothing for it. -/
theorem c7_excluded_sentinel_witness :
    rowC7 ∈ [rowC7] ∧ ([rowC7].map maskedKey).Nodup ∧
    rowC7.status ∈ STATI ∧
    rowC7.status ∉
      ["New", "Update Available", "Update Failed", "Updating"] ∧
    (dictGet (buildSpeciesDictId false [rowC7]) (maskedKey rowC7) =
        some (-1) ∧
     ∀ t ∈ (update_species_data (fun _ _ => "") false 7 2 1 [rowC7] []
        [gC7]).trs, t ∈ ([] : List TRow) ∨ 0 ≤ t.pf_id) :=
  ⟨by decide, by decide, by decide, by decide,
   c7_excluded_sentinel (fun _ _ => "") 7 2 1 [rowC7] [] [gC7] rowC7
     (by decide) (by decide) (by decide) (by decide)⟩


end Vamdclib

namespace Vamdclib

/-- An optional string field is in masked form (None or non-empty). -/
def maskedOpt (o : OStr) : Prop := maskField o = o

theorem maskedOpt_none : maskedOpt none := rfl

theorem maskedOpt_some {s : String} (h : s.length ≠ 0) :
    maskedOpt (some s) := by
  simp [maskedOpt, maskField, h]

/-- `pc[:3] == "hyp"` forces `pc.strip()` to be non-empty. -/
theorem pyStrip_hyp_ne (pc : String) (h : pyTake pc 3 = "hyp") :
    (pyStrip pc).length ≠ 0 := by
  have hdata : pc.data.take 3 = ['h', 'y', 'p'] := by
    have := congrArg String.data h
    simpa [pyTake] using this
  have hpc : pc.data = 'h' :: 'y' :: 'p' :: pc.data.drop 3 := by
    conv_lhs => rw [← List.take_append_drop 3 pc.data]
    rw [hdata]
    rfl
  have hdw : pc.data.dropWhile Char.isWhitespace =
      'h' :: 'y' :: 'p' :: pc.data.drop 3 := by
    conv_lhs => rw [hpc]
    rw [List.dropWhile_cons_of_neg (by decide)]
  have hmem : 'h' ∈ (pc.data.dropWhile Char.isWhitespace).reverse := by
    rw [hdw]
    simp
  intro hlen
  have hnil : ((pc.data.dropWhile Char.isWhitespace).reverse.dropWhile
      Char.isWhitespace).reverse = [] := by
    have : (pyStrip pc).data.length = 0 := hlen
    simpa [pyStrip] using List.length_eq_zero.mp this
  rw [List.reverse_eq_nil_iff, List.dropWhile_eq_nil_iff] at hnil
  have := hnil 'h' hmem
  simp at this

theorem maskedOpt_pyStrip_hyp (pc : String) (h : pyTake pc 3 = "hyp") :
    maskedOpt (some (pyStrip pc)) :=
  maskedOpt_some (pyStrip_hyp_ne pc h)

theorem hfsOf_masked (pcs : List String) : maskedOpt (hfsOf pcs) := by
  unfold hfsOf
  have : ∀ acc : OStr, maskedOpt acc →
      maskedOpt (pcs.foldl
        (fun acc pc =>
          if pyTake pc 3 = "hyp" then some (pyStrip pc) else acc) acc) := by
    induction pcs with
    | nil => exact fun acc h => h
    | cons pc t ih =>
        intro acc hacc
        rw [List.foldl_cons]
        by_cases hp : pyTake pc 3 = "hyp"
        · rw [if_pos hp]
          exact ih _ (maskedOpt_pyStrip_hyp pc hp)
        · rw [if_neg hp]
          exact ih _ hacc
  exact this none maskedOpt_none

/-- The masked components of an identity tuple. -/
def maskedIdx (sidx : SIdx) : Prop :=
  maskedOpt sidx.nsi ∧ maskedOpt sidx.vib ∧ maskedOpt sidx.hfs

/-- IFNULL-equality with a masked value determines the mask. -/
theorem maskField_of_ifnull {a b : OStr} (h : ifnull a = ifnull b)
    (hb : maskedOpt b) : maskField a = b := by
  cases b with
  | none =>
      cases a with
      | none => rfl
      | some s =>
          have : s = "" := by simpa [ifnull] using h
          simp [maskField, this]
  | some s =>
      have hs : s.length ≠ 0 := by
        intro hlen
        have hdata : s.data = [] := List.length_eq_zero.mp hlen
        have hse : s = "" := by
          apply String.ext
          simpa using hdata
        rw [hse] at hb
        simp [maskedOpt, maskField] at hb
      cases a with
      | none =>
          exfalso
          have : "" = s := by simpa [ifnull] using h
          exact hs (by rw [← this]; rfl)
      | some s2 =>
          have : s2 = s := by simpa [ifnull] using h
          simp [maskField, this, hs]

/-- Consistency between the catalogue, the id dictionary and the rowid
counter, maintained throughout a pass. -/
structure Inv (st : PassState) : Prop where
  nextPfPos : 0 < st.nextPf
  idsPos : ∀ r ∈ st.cat, 0 < r.id
  idsLt : ∀ r ∈ st.cat, r.id < st.nextPf
  idsNodup : (st.cat.map (·.id)).Nodup
  keysNodup : (st.cat.map maskedKey).Nodup
  cover : ∀ r ∈ st.cat, (dictGet st.dict (maskedKey r)).isSome
  dRows : ∀ k i, dictGet st.dict k = some i → 0 < i →
    ∃ r ∈ st.cat, r.id = i ∧ maskedKey r = k
  dLt : ∀ k i, dictGet st.dict k = some i → i < st.nextPf

end Vamdclib

namespace Vamdclib

theorem dictGet_erase_sub {d : SDict} {ph k : SIdx} {j : Int}
    (h : dictGet (dictErase d ph) k = some j) : dictGet d k = some j := by
  by_cases he : k = ph
  · rw [he, dictGet_erase_self] at h
    cases h
  · rwa [dictGet_erase_ne d ph k he] at h

theorem dictGet_reinsert {d : SDict} {ph : SIdx} {i : Int}
    (h : dictGet d ph = some i) (k : SIdx) :
    dictGet (dictInsert (dictErase d ph) ph i) k = dictGet d k := by
  by_cases he : k = ph
  · rw [he, dictGet_insert_self, h]
  · rw [dictGet_insert_ne _ _ _ _ he, dictGet_erase_ne d ph k he]

theorem inv_congr {st st2 : PassState} (hInv : Inv st)
    (hcat : st2.cat = st.cat)
    (hdict : ∀ k, dictGet st2.dict k = dictGet st.dict k)
    (hpf : st2.nextPf = st.nextPf) : Inv st2 := by
  refine ⟨hpf ▸ hInv.nextPfPos, ?_, ?_, ?_, ?_, ?_, ?_, ?_⟩
  · rw [hcat]
    exact hInv.idsPos
  · intro r hr
    rw [hpf]
    exact hInv.idsLt r (hcat ▸ hr)
  · rw [hcat]
    exact hInv.idsNodup
  · rw [hcat]
    exact hInv.keysNodup
  · intro r hr
    rw [hdict]
    exact hInv.cover r (hcat ▸ hr)
  · intro k i hk hi
    rw [hdict] at hk
    obtain ⟨r, hr, hrid, hrkey⟩ := hInv.dRows k i hk hi
    exact ⟨r, hcat ▸ hr, hrid, hrkey⟩
  · intro k i hk
    rw [hpf]
    exact hInv.dLt k i (by rw [← hdict k]; exact hk)

theorem inv_map {st : PassState} (f : PFRow → PFRow)
    (hid : ∀ r, (f r).id = r.id)
    (hkey : ∀ r, maskedKey (f r) = maskedKey r) (hInv : Inv st) :
    Inv { st with cat := st.cat.map f } := by
  have hids : (st.cat.map f).map (·.id) = st.cat.map (·.id) := by
    rw [List.map_map]
    exact List.map_congr_left (fun r _ => hid r)
  have hkeys : (st.cat.map f).map maskedKey = st.cat.map maskedKey := by
    rw [List.map_map]
    exact List.map_congr_left (fun r _ => hkey r)
  refine ⟨hInv.nextPfPos, ?_, ?_, ?_, ?_, ?_, ?_, hInv.dLt⟩
  · intro r2 hr2
    obtain ⟨r, hr, he⟩ := List.mem_map.mp hr2
    rw [← he, hid r]
    exact hInv.idsPos r hr
  · intro r2 hr2
    obtain ⟨r, hr, he⟩ := List.mem_map.mp hr2
    rw [← he, hid r]
    exact hInv.idsLt r hr
  · rw [show ({ st with cat := st.cat.map f } : PassState).cat =
      st.cat.map f from rfl, hids]
    exact hInv.idsNodup
  · rw [show ({ st with cat := st.cat.map f } : PassState).cat =
      st.cat.map f from rfl, hkeys]
    exact hInv.keysNodup
  · intro r2 hr2
    obtain ⟨r, hr, he⟩ := List.mem_map.mp hr2
    rw [← he, hkey r]
    exact hInv.cover r hr
  · intro k i hk hi
    obtain ⟨r, hr, hrid, hrkey⟩ := hInv.dRows k i hk hi
    exact ⟨f r, List.mem_map_of_mem f hr, by rw [hid r, hrid],
      by rw [hkey r, hrkey]⟩

end Vamdclib

namespace Vamdclib

theorem sidx_eta (k : SIdx) : (⟨k.species, k.nsi, k.vib, k.hfs⟩ : SIdx) = k :=
  rfl

theorem inv_promote {st : PassState} {sidx : SIdx} {i : Int}
    (hInv : Inv st) (hmask : maskedIdx sidx)
    (h1 : dictGet st.dict sidx = none)
    (h2 : dictGet st.dict ⟨sidx.species, sidx.nsi, none, none⟩ = some i)
    (hp : 0 < i) :
    Inv { st with
            dict := dictInsert
              (dictErase st.dict ⟨sidx.species, sidx.nsi, none, none⟩)
              sidx i,
            cat := update_pf_state st.cat i sidx.vib sidx.hfs } := by
  set ph : SIdx := ⟨sidx.species, sidx.nsi, none, none⟩ with hph
  obtain ⟨rp, hrp, hrpid, hrpkey⟩ := hInv.dRows ph i h2 hp
  have hInj := List.inj_on_of_nodup_map hInv.idsNodup
  have hKInj := List.inj_on_of_nodup_map hInv.keysNodup
  have hNoSidx : ∀ r ∈ st.cat, maskedKey r ≠ sidx := by
    intro r hr he
    have hc := hInv.cover r hr
    rw [he, h1] at hc
    simp at hc
  have hrpcomp : rp.species_id = sidx.species ∧
      maskField rp.nsi = sidx.nsi :=
    ⟨congrArg SIdx.species hrpkey, congrArg SIdx.nsi hrpkey⟩
  have hkeyrp : maskedKey
      { rp with vibstate := sidx.vib, hfs := sidx.hfs } = sidx := by
    show (⟨rp.species_id, maskField rp.nsi, maskField sidx.vib,
      maskField sidx.hfs⟩ : SIdx) = sidx
    rw [hrpcomp.1, hrpcomp.2, hmask.2.1, hmask.2.2]
  have hpoint : ∀ r ∈ st.cat,
      maskedKey (if r.id = i then
        { r with vibstate := sidx.vib, hfs := sidx.hfs } else r) =
      (if maskedKey r = ph then sidx else maskedKey r) := by
    intro r hr
    by_cases hid : r.id = i
    · have hrrp : r = rp := hInj hr hrp (by rw [hid, hrpid])
      subst hrrp
      rw [if_pos hid, hkeyrp, if_pos hrpkey]
    · have hkne : maskedKey r ≠ ph := by
        intro he
        have hre : r = rp := hKInj hr hrp (he.trans hrpkey.symm)
        exact hid (by rw [hre, hrpid])
      rw [if_neg hid, if_neg hkne]
  have hcatkeys : (update_pf_state st.cat i sidx.vib sidx.hfs).map
      maskedKey =
      (st.cat.map maskedKey).map (fun k => if k = ph then sidx else k) := by
    unfold update_pf_state
    rw [List.map_map, List.map_map]
    refine List.map_congr_left ?_
    intro r hr
    exact hpoint r hr
  refine ⟨hInv.nextPfPos, ?_, ?_, ?_, ?_, ?_, ?_, ?_⟩
  · intro r2 hr2
    obtain ⟨r, hr, he⟩ := List.mem_map.mp hr2
    have hide : r2.id = r.id := by
      rw [← he]
      by_cases hid : r.id = i <;> simp [hid]
    rw [hide]
    exact hInv.idsPos r hr
  · intro r2 hr2
    obtain ⟨r, hr, he⟩ := List.mem_map.mp hr2
    have hide : r2.id = r.id := by
      rw [← he]
      by_cases hid : r.id = i <;> simp [hid]
    rw [hide]
    exact hInv.idsLt r hr
  · show ((update_pf_state st.cat i sidx.vib sidx.hfs).map (·.id)).Nodup
    rw [ids_update_pf_state]
    exact hInv.idsNodup
  · show ((update_pf_state st.cat i sidx.vib sidx.hfs).map
      maskedKey).Nodup
    rw [hcatkeys]
    refine List.Nodup.map_on ?_ hInv.keysNodup
    intro k1 hk1 k2 hk2 he
    by_cases e1 : k1 = ph <;> by_cases e2 : k2 = ph
    · rw [e1, e2]
    · rw [if_pos e1, if_neg e2] at he
      obtain ⟨r, hr, hrk⟩ := List.mem_map.mp hk2
      exact absurd (by rw [hrk, ← he]) (hNoSidx r hr)
    · rw [if_neg e1, if_pos e2] at he
      obtain ⟨r, hr, hrk⟩ := List.mem_map.mp hk1
      exact absurd (by rw [hrk, he]) (hNoSidx r hr)
    · rwa [if_neg e1, if_neg e2] at he
  · intro r2 hr2
    obtain ⟨r, hr, he⟩ := List.mem_map.mp hr2
    have hkr : maskedKey r2 =
        if maskedKey r = ph then sidx else maskedKey r := by
      rw [← he]
      exact hpoint r hr
    by_cases hkp : maskedKey r = ph
    · rw [show (({ st with
          dict := dictInsert (dictErase st.dict ph) sidx i,
          cat := update_pf_state st.cat i sidx.vib sidx.hfs } :
            PassState)).dict =
          dictInsert (dictErase st.dict ph) sidx i from rfl]
      rw [hkr, if_pos hkp, dictGet_insert_self]
      rfl
    · rw [show (({ st with
          dict := dictInsert (dictErase st.dict ph) sidx i,
          cat := update_pf_state st.cat i sidx.vib sidx.hfs } :
            PassState)).dict =
          dictInsert (dictErase st.dict ph) sidx i from rfl]
      rw [hkr, if_neg hkp,
        dictGet_insert_ne _ _ _ _ (hNoSidx r hr),
        dictGet_erase_ne _ _ _ hkp]
      exact hInv.cover r hr
  · intro k j hk hj
    by_cases hks : k = sidx
    · rw [hks, dictGet_insert_self] at hk
      have hji := Option.some.inj hk
      have hidc :
          ({ rp with vibstate := sidx.vib, hfs := sidx.hfs } : PFRow).id =
            j := by
        show rp.id = j
        rw [hrpid, hji]
      refine ⟨{ rp with vibstate := sidx.vib, hfs := sidx.hfs }, ?_, hidc,
        by rw [hkeyrp, hks]⟩
      unfold update_pf_state
      have hmm := List.mem_map_of_mem (fun r => if r.id = i then
          { r with vibstate := sidx.vib, hfs := sidx.hfs } else r) hrp
      dsimp only at hmm
      rw [if_pos hrpid] at hmm
      exact hmm
    · rw [dictGet_insert_ne _ _ _ _ hks] at hk
      have hkp : k ≠ ph := by
        intro he
        rw [he, dictGet_erase_self] at hk
        cases hk
      rw [dictGet_erase_ne _ _ _ hkp] at hk
      obtain ⟨r, hr, hrid, hrkey⟩ := hInv.dRows k j hk hj
      have hrne : r.id ≠ i := by
        intro he
        have hre : r = rp := hInj hr hrp (by rw [he, hrpid])
        exact hkp (by rw [← hrkey, hre, hrpkey])
      refine ⟨r, ?_, hrid, hrkey⟩
      unfold update_pf_state
      have hmm := List.mem_map_of_mem (fun q => if q.id = i then
          { q with vibstate := sidx.vib, hfs := sidx.hfs } else q) hr
      dsimp only at hmm
      rw [if_neg hrne] at hmm
      exact hmm
  · intro k j hk
    by_cases hks : k = sidx
    · rw [hks, dictGet_insert_self] at hk
      have hji := Option.some.inj hk
      rw [← hji]
      exact hInv.dLt ph i h2
    · rw [dictGet_insert_ne _ _ _ _ hks] at hk
      exact hInv.dLt k j (dictGet_erase_sub hk)

end Vamdclib

namespace Vamdclib

theorem inv_clone {st : PassState} {sidx : SIdx} {gs : String}
    {base : PFRow} (hInv : Inv st) (hmask : maskedIdx sidx)
    (hsp : sidx.species = gs)
    (h1 : dictGet st.dict sidx = none)
    (hfind : st.cat.find? (fun r =>
        r.species_id = gs ∧ ifnull r.nsi = ifnull sidx.nsi) = some base) :
    Inv { st with
            cat := st.cat ++ [{ base with
              id := st.nextPf, hfs := sidx.hfs, vibstate := sidx.vib,
              uuid := none }],
            dict := dictInsert st.dict sidx st.nextPf,
            nextPf := st.nextPf + 1,
            connLast := st.nextPf } := by
  have hNoSidx : ∀ r ∈ st.cat, maskedKey r ≠ sidx := by
    intro r hr he
    have hc := hInv.cover r hr
    rw [he, h1] at hc
    simp at hc
  have hbase : base.species_id = gs ∧ ifnull base.nsi = ifnull sidx.nsi := by
    simpa using List.find?_some hfind
  set c : PFRow := { base with
    id := st.nextPf, hfs := sidx.hfs, vibstate := sidx.vib,
    uuid := none } with hc
  have hckey : maskedKey c = sidx := by
    show (⟨base.species_id, maskField base.nsi, maskField sidx.vib,
      maskField sidx.hfs⟩ : SIdx) = sidx
    rw [hbase.1, ← hsp, maskField_of_ifnull hbase.2 hmask.1,
      hmask.2.1, hmask.2.2]
  have hcid : c.id = st.nextPf := rfl
  refine ⟨?_, ?_, ?_, ?_, ?_, ?_, ?_, ?_⟩
  · show 0 < st.nextPf + 1
    exact lt_trans hInv.nextPfPos (lt_add_one _)
  · intro r hr
    rcases List.mem_append.mp hr with h | h
    · exact hInv.idsPos r h
    · rw [List.mem_singleton.mp h, hcid]
      exact hInv.nextPfPos
  · intro r hr
    show r.id < st.nextPf + 1
    rcases List.mem_append.mp hr with h | h
    · exact lt_trans (hInv.idsLt r h) (lt_add_one _)
    · rw [List.mem_singleton.mp h, hcid]
      exact lt_add_one _
  · show ((st.cat ++ [c]).map (·.id)).Nodup
    rw [List.map_append]
    rw [List.nodup_append]
    refine ⟨hInv.idsNodup, List.nodup_singleton _, ?_⟩
    intro x hx
    simp only [List.map_cons, List.map_nil, List.mem_singleton]
    intro he
    obtain ⟨r, hr, hrid⟩ := List.mem_map.mp hx
    have h4 : r.id = st.nextPf := hrid.trans he
    exact absurd h4 (ne_of_lt (hInv.idsLt r hr))
  · show ((st.cat ++ [c]).map maskedKey).Nodup
    rw [List.map_append, List.nodup_append]
    refine ⟨hInv.keysNodup, List.nodup_singleton _, ?_⟩
    intro x hx
    simp only [List.map_cons, List.map_nil, List.mem_singleton]
    intro he
    obtain ⟨r, hr, hrk⟩ := List.mem_map.mp hx
    exact hNoSidx r hr ((hrk.trans he).trans hckey)
  · intro r hr
    rcases List.mem_append.mp hr with h | h
    · show (dictGet (dictInsert st.dict sidx st.nextPf)
        (maskedKey r)).isSome
      rw [dictGet_insert_ne _ _ _ _ (hNoSidx r h)]
      exact hInv.cover r h
    · rw [List.mem_singleton.mp h, hckey]
      show (dictGet (dictInsert st.dict sidx st.nextPf) sidx).isSome
      rw [dictGet_insert_self]
      rfl
  · intro k j hk hj
    by_cases hks : k = sidx
    · rw [hks, dictGet_insert_self] at hk
      have hji := Option.some.inj hk
      refine ⟨c, List.mem_append_right _ (List.mem_singleton_self c),
        by rw [hcid, hji], by rw [hckey, hks]⟩
    · rw [dictGet_insert_ne _ _ _ _ hks] at hk
      obtain ⟨r, hr, hrid, hrkey⟩ := hInv.dRows k j hk hj
      exact ⟨r, List.mem_append_left _ hr, hrid, hrkey⟩
  · intro k j hk
    show j < st.nextPf + 1
    by_cases hks : k = sidx
    · rw [hks, dictGet_insert_self] at hk
      rw [← Option.some.inj hk]
      exact lt_add_one _
    · rw [dictGet_insert_ne _ _ _ _ hks] at hk
      exact lt_trans (hInv.dLt k j hk) (lt_add_one _)

/-- The stale-`lastrowid` path can only be taken with `ok` cleared. -/
theorem resolveId_ok_of (gs : String) (st : PassState) (sidx : SIdx)
    (hok : (resolveId gs st sidx).2.ok = true) : st.ok = true := by
  unfold resolveId at hok
  cases h1 : dictGet st.dict sidx with
  | some i =>
      rw [h1] at hok
      exact hok
  | none =>
      rw [h1] at hok
      dsimp only at hok
      cases h2 : dictGet st.dict ⟨sidx.species, sidx.nsi, none, none⟩ with
      | some i =>
          rw [h2] at hok
          dsimp only at hok
          by_cases hp : 0 < i
          · rwa [if_pos hp] at hok
          · rwa [if_neg hp] at hok
      | none =>
          rw [h2] at hok
          dsimp only at hok
          unfold doublicate_pf_entry_for_hfs at hok
          cases h3 : st.cat.find? (fun r =>
              r.species_id = gs ∧ ifnull r.nsi = ifnull sidx.nsi) with
          | none =>
              rw [h3] at hok
              exact absurd hok (by simp)
          | some base =>
              rw [h3] at hok
              exact hok

theorem inv_resolveId (gs : String) (st : PassState) (sidx : SIdx)
    (hInv : Inv st) (hmask : maskedIdx sidx) (hsp : sidx.species = gs)
    (hok : (resolveId gs st sidx).2.ok = true) :
    Inv (resolveId gs st sidx).2 := by
  unfold resolveId
  cases h1 : dictGet st.dict sidx with
  | some i => exact hInv
  | none =>
      dsimp only
      cases h2 : dictGet st.dict ⟨sidx.species, sidx.nsi, none, none⟩ with
      | some i =>
          dsimp only
          by_cases hp : 0 < i
          · rw [if_pos hp]
            exact inv_promote hInv hmask h1 h2 hp
          · rw [if_neg hp]
            exact inv_congr hInv rfl (fun k => dictGet_reinsert h2 k) rfl
      | none =>
          dsimp only
          unfold doublicate_pf_entry_for_hfs
          cases h3 : st.cat.find? (fun r =>
              r.species_id = gs ∧ ifnull r.nsi = ifnull sidx.nsi) with
          | none =>
              exfalso
              unfold resolveId at hok
              rw [h1] at hok
              dsimp only at hok
              rw [h2] at hok
              dsimp only at hok
              unfold doublicate_pf_entry_for_hfs at hok
              rw [h3] at hok
              exact absurd hok (by simp)
          | some base =>
              dsimp only
              exact inv_clone hInv hmask hsp h1 h3

end Vamdclib

namespace Vamdclib

theorem resolveId_ok_false (gs : String) (st : PassState) (sidx : SIdx)
    (h : st.ok = false) : (resolveId gs st sidx).2.ok = false := by
  unfold resolveId
  cases h1 : dictGet st.dict sidx with
  | some i => exact h
  | none =>
      dsimp only
      cases h2 : dictGet st.dict ⟨sidx.species, sidx.nsi, none, none⟩ with
      | some i =>
          dsimp only
          by_cases hp : 0 < i
          · rw [if_pos hp]; exact h
          · rw [if_neg hp]; exact h
      | none =>
          dsimp only
          unfold doublicate_pf_entry_for_hfs
          cases h3 : st.cat.find? (fun r =>
              r.species_id = gs ∧ ifnull r.nsi = ifnull sidx.nsi) with
          | none => rfl
          | some base => exact h

theorem insertBranch_ok (gs tName : String) (tS tH : OStr) (tr : RTrans)
    (up low : RState) (unc : Rat) (w : Int) (off : Rat) (st : PassState)
    (nsiName : OStr) :
    (insertBranch gs tName tS tH tr up low unc w off st nsiName).ok =
    (resolveId gs
      { st with
          processed := procInit st.processed
            ⟨tr.SpeciesID, nsiName, tS, tH⟩ }
      ⟨tr.SpeciesID, nsiName, tS, tH⟩).2.ok := by
  unfold insertBranch
  dsimp only
  split <;> rfl

theorem insertBranch_dict (gs tName : String) (tS tH : OStr) (tr : RTrans)
    (up low : RState) (unc : Rat) (w : Int) (off : Rat) (st : PassState)
    (nsiName : OStr) :
    (insertBranch gs tName tS tH tr up low unc w off st nsiName).dict =
    (resolveId gs
      { st with
          processed := procInit st.processed
            ⟨tr.SpeciesID, nsiName, tS, tH⟩ }
      ⟨tr.SpeciesID, nsiName, tS, tH⟩).2.dict := by
  unfold insertBranch
  dsimp only
  split <;> rfl

theorem insertBranch_nextPf (gs tName : String) (tS tH : OStr)
    (tr : RTrans) (up low : RState) (unc : Rat) (w : Int) (off : Rat)
    (st : PassState) (nsiName : OStr) :
    (insertBranch gs tName tS tH tr up low unc w off st nsiName).nextPf =
    (resolveId gs
      { st with
          processed := procInit st.processed
            ⟨tr.SpeciesID, nsiName, tS, tH⟩ }
      ⟨tr.SpeciesID, nsiName, tS, tH⟩).2.nextPf := by
  unfold insertBranch
  dsimp only
  split <;> rfl

theorem insertBranch_ok_false (gs tName : String) (tS tH : OStr)
    (tr : RTrans) (up low : RState) (unc : Rat) (w : Int) (off : Rat)
    (st : PassState) (nsiName : OStr) (h : st.ok = false) :
    (insertBranch gs tName tS tH tr up low unc w off st nsiName).ok =
      false := by
  rw [insertBranch_ok]
  exact resolveId_ok_false _ _ _ h

/-- `Inv` transported along a row-map that keeps ids and masked keys. -/
theorem inv_map2 {st st2 : PassState} (f : PFRow → PFRow)
    (hInv : Inv st) (hid : ∀ r, (f r).id = r.id)
    (hkey : ∀ r, maskedKey (f r) = maskedKey r)
    (hcat : st2.cat = st.cat.map f)
    (hdict : ∀ k, dictGet st2.dict k = dictGet st.dict k)
    (hpf : st2.nextPf = st.nextPf) : Inv st2 :=
  inv_congr (inv_map f hid hkey hInv) hcat hdict hpf

theorem inv_set_status {st st2 : PassState} (hInv : Inv st) (now : Nat)
    (sid stat : String) (dbid : Option Int)
    (hcat : st2.cat = (set_status st.cat now sid stat dbid).1)
    (hdict : ∀ k, dictGet st2.dict k = dictGet st.dict k)
    (hpf : st2.nextPf = st.nextPf) : Inv st2 := by
  unfold set_status at hcat
  split at hcat
  · cases dbid with
    | some i =>
        refine inv_map2 _ hInv ?_ ?_ hcat hdict hpf
        · intro r
          by_cases h : r.id = i <;> simp [h]
        · intro r
          by_cases h : r.id = i <;> simp [h, maskedKey]
    | none =>
        refine inv_map2 _ hInv ?_ ?_ hcat hdict hpf
        · intro r
          by_cases h : r.species_id = sid <;> simp [h]
        · intro r
          by_cases h : r.species_id = sid <;> simp [h, maskedKey]
  · exact inv_congr hInv hcat hdict hpf

theorem inv_set_uuid {st st2 : PassState} (hInv : Inv st) (i : Int)
    (u : OStr) (hcat : st2.cat = set_uuid st.cat i u)
    (hdict : ∀ k, dictGet st2.dict k = dictGet st.dict k)
    (hpf : st2.nextPf = st.nextPf) : Inv st2 := by
  unfold set_uuid at hcat
  cases u with
  | none => exact inv_congr hInv hcat hdict hpf
  | some v =>
      refine inv_map2 _ hInv ?_ ?_ hcat hdict hpf
      · intro r
        by_cases h : r.id = i <;> simp [h]
      · intro r
        by_cases h : r.id = i <;> simp [h, maskedKey]

theorem inv_markUpdating {st st2 : PassState} (hInv : Inv st)
    (sid : String) (hcat : st2.cat = markUpdating st.cat sid)
    (hdict : ∀ k, dictGet st2.dict k = dictGet st.dict k)
    (hpf : st2.nextPf = st.nextPf) : Inv st2 := by
  unfold markUpdating at hcat
  refine inv_map2 _ hInv ?_ ?_ hcat hdict hpf
  · intro r
    by_cases h : r.species_id = sid ∧
        (r.status = "New" ∨ r.status = "Update Available" ∨
         r.status = "Update Failed") <;> simp [h]
  · intro r
    by_cases h : r.species_id = sid ∧
        (r.status = "New" ∨ r.status = "Update Available" ∨
         r.status = "Update Failed") <;> simp [h, maskedKey]

end Vamdclib

namespace Vamdclib

theorem length_ne_of_ne_empty {s : String} (h : s ≠ "") :
    s.length ≠ 0 := by
  intro hlen
  have hdata : s.data = [] := List.length_eq_zero.mp hlen
  exact h (String.ext (by simpa using hdata))

theorem inv_insertBranch (gs tName : String) (tS tH : OStr) (tr : RTrans)
    (up low : RState) (unc : Rat) (w : Int) (off : Rat) (st : PassState)
    (nsiName : OStr) (hInv : Inv st)
    (hmask : maskedIdx ⟨tr.SpeciesID, nsiName, tS, tH⟩)
    (hsp : tr.SpeciesID = gs)
    (hok : (insertBranch gs tName tS tH tr up low unc w off st
      nsiName).ok = true) :
    Inv (insertBranch gs tName tS tH tr up low unc w off st nsiName) := by
  have hInv2 : Inv { st with
      processed := procInit st.processed
        ⟨tr.SpeciesID, nsiName, tS, tH⟩ } :=
    inv_congr hInv rfl (fun k => rfl) rfl
  have hokr : (resolveId gs
      { st with
          processed := procInit st.processed
            ⟨tr.SpeciesID, nsiName, tS, tH⟩ }
      ⟨tr.SpeciesID, nsiName, tS, tH⟩).2.ok = true := by
    rw [← insertBranch_ok gs tName tS tH tr up low unc w off st nsiName]
    exact hok
  have hres := inv_resolveId gs
    { st with
        processed := procInit st.processed
          ⟨tr.SpeciesID, nsiName, tS, tH⟩ }
    ⟨tr.SpeciesID, nsiName, tS, tH⟩ hInv2 hmask hsp hokr
  exact inv_congr hres
    (insertBranch_cat gs tName tS tH tr up low unc w off st nsiName)
    (fun k => by
      rw [insertBranch_dict gs tName tS tH tr up low unc w off st nsiName])
    (insertBranch_nextPf gs tName tS tH tr up low unc w off st nsiName)

theorem processTransition_ok_false (vl : RState → RState → String)
    (g : GroupInput) (st : PassState) (tr : RTrans) (h : st.ok = false) :
    (processTransition vl g st tr).ok = false := by
  unfold processTransition
  dsimp only
  split
  · exact h
  · split
    · split
      · exact h
      · split
        · exact h
        · split
          · split
            · exact insertBranch_ok_false _ _ _ _ _ _ _ _ _ _ _ _ h
            · split
              · exact h
              · exact insertBranch_ok_false _ _ _ _ _ _ _ _ _ _ _ _
                  (insertBranch_ok_false _ _ _ _ _ _ _ _ _ _ _ _ h)
          · exact insertBranch_ok_false _ _ _ _ _ _ _ _ _ _ _ _ h
    · exact h

theorem inv_processTransition (vl : RState → RState → String)
    (g : GroupInput) (st : PassState) (tr : RTrans) (hInv : Inv st)
    (htr : tr.SpeciesID = g.species_id)
    (hok : (processTransition vl g st tr).ok = true) :
    Inv (processTransition vl g st tr) := by
  have hInvE : Inv { st with errors := st.errors ++ [tr.SpeciesID] } :=
    inv_congr hInv rfl (fun k => rfl) rfl
  unfold processTransition at hok ⊢
  dsimp only at hok ⊢
  by_cases hser : tr.SpeciesID ∈ st.errors
  · rw [if_pos hser]
    exact hInv
  · rw [if_neg hser] at hok ⊢
    cases hup : lookupState g.states tr.UpperStateRef with
    | none =>
        cases hlow : lookupState g.states tr.LowerStateRef with
        | none => exact hInvE
        | some low => exact hInvE
    | some up =>
        rw [hup] at hok
        cases hlow : lookupState g.states tr.LowerStateRef with
        | none => exact hInvE
        | some low =>
            rw [hlow] at hok
            dsimp only at hok ⊢
            have htS : maskedOpt
                (if (vl up low).length = 0 then none
                 else some (vl up low)) := by
              by_cases hc : (vl up low).length = 0
              · rw [if_pos hc]
                exact maskedOpt_none
              · rw [if_neg hc]
                exact maskedOpt_some hc
            cases hacc : tr.FrequencyAccuracy with
            | none => exact hInvE
            | some unc =>
                rw [hacc] at hok
                dsimp only at hok ⊢
                cases hw : up.TotalStatisticalWeight with
                | none => exact hInvE
                | some w =>
                    rw [hw] at hok
                    dsimp only at hok ⊢
                    cases hnsi : up.NuclearSpinIsomerName.map pyStrip with
                    | none =>
                        rw [hnsi] at hok
                        dsimp only at hok
                        exact inv_insertBranch _ _ _ _ _ _ _ _ _ _ _ _ hInv
                          ⟨maskedOpt_none, htS,
                            hfsOf_masked tr.ProcessClass⟩ htr hok
                    | some s =>
                        rw [hnsi] at hok
                        dsimp only at hok ⊢
                        by_cases hse : s = ""
                        · rw [if_pos hse] at hok ⊢
                          exact inv_insertBranch _ _ _ _ _ _ _ _ _ _ _ _
                            hInv ⟨maskedOpt_none, htS,
                              hfsOf_masked tr.ProcessClass⟩ htr hok
                        · rw [if_neg hse] at hok ⊢
                          cases horig :
                              up.NuclearSpinIsomerLowestEnergy.bind
                                (lookupState g.states) with
                          | none => exact hInvE
                          | some origin =>
                              rw [horig] at hok
                              dsimp only at hok ⊢
                              have hok1 : (insertBranch g.species_id
                                  (pyStrip g.formula)
                                  (if (vl up low).length = 0 then none
                                   else some (vl up low))
                                  (hfsOf tr.ProcessClass) tr up low unc w
                                  origin.StateEnergyValue st
                                  (some s)).ok = true := by
                                cases hb : (insertBranch g.species_id
                                    (pyStrip g.formula)
                                    (if (vl up low).length = 0 then none
                                     else some (vl up low))
                                    (hfsOf tr.ProcessClass) tr up low unc
                                    w origin.StateEnergyValue st
                                    (some s)).ok with
                                | false =>
                                    exfalso
                                    rw [insertBranch_ok_false _ _ _ _ _ _
                                      _ _ _ _ _ _ hb] at hok
                                    cases hok
                                | true => rfl
                              have hInv1 := inv_insertBranch _ _ _ _ _ _
                                _ _ _ _ _ _ hInv
                                ⟨maskedOpt_some (length_ne_of_ne_empty hse),
                                  htS, hfsOf_masked tr.ProcessClass⟩ htr
                                hok1
                              exact inv_insertBranch _ _ _ _ _ _ _ _ _ _
                                _ _ hInv1 ⟨maskedOpt_none, htS,
                                  hfsOf_masked tr.ProcessClass⟩ htr hok

end Vamdclib

namespace Vamdclib

theorem fold_trans_ok_false (vl : RState → RState → String)
    (g : GroupInput) (l : List RTrans) :
    ∀ st : PassState, st.ok = false →
      (l.foldl (processTransition vl g) st).ok = false := by
  induction l with
  | nil => exact fun st h => h
  | cons tr t ih =>
      exact fun st h => ih _ (processTransition_ok_false vl g st tr h)

theorem fold_trans_inv (vl : RState → RState → String) (g : GroupInput)
    (l : List RTrans) (hl : ∀ tr ∈ l, tr.SpeciesID = g.species_id) :
    ∀ st : PassState, Inv st →
      (l.foldl (processTransition vl g) st).ok = true →
      Inv (l.foldl (processTransition vl g) st) := by
  induction l with
  | nil => exact fun st h _ => h
  | cons tr t ih =>
      intro st hInv hok
      rw [List.foldl_cons] at hok ⊢
      have hok1 : (processTransition vl g st tr).ok = true := by
        cases hb : (processTransition vl g st tr).ok with
        | false =>
            exfalso
            rw [fold_trans_ok_false vl g t _ hb] at hok
            cases hok
        | true => rfl
      exact ih (fun tr2 h2 => hl tr2 (List.mem_cons_of_mem tr h2)) _
        (inv_processTransition vl g st tr hInv
          (hl tr (List.mem_cons_self tr t)) hok1) hok

theorem cleanupErrors_ok (now : Nat) (st : PassState) :
    (cleanupErrors now st).ok = st.ok := by
  unfold cleanupErrors
  have : ∀ (l : List String) (acc : PassState),
      (l.foldl (fun acc sid =>
        { acc with
            trs := deleteTransOf acc.cat acc.trs sid
            cat := (set_status acc.cat now sid "Update Failed" none).1 })
        acc).ok = acc.ok := by
    intro l
    induction l with
    | nil => exact fun acc => rfl
    | cons sid t ih => exact fun acc => by rw [List.foldl_cons, ih]
  exact this st.errors st

theorem inv_cleanupErrors (now : Nat) (st : PassState) (hInv : Inv st) :
    Inv (cleanupErrors now st) := by
  unfold cleanupErrors
  have : ∀ (l : List String) (acc : PassState), Inv acc →
      Inv (l.foldl (fun acc sid =>
        { acc with
            trs := deleteTransOf acc.cat acc.trs sid
            cat := (set_status acc.cat now sid "Update Failed" none).1 })
        acc) := by
    intro l
    induction l with
    | nil => exact fun acc h => h
    | cons sid t ih =>
        intro acc hacc
        rw [List.foldl_cons]
        refine ih _ ?_
        exact inv_set_status hacc now sid "Update Failed" none rfl
          (fun k => rfl) rfl
  exact this st.errors st hInv

theorem finishProcessed_ok_false (now : Nat) (uuid : OStr)
    (st : PassState) (h : st.ok = false) :
    (finishProcessed now uuid st).ok = false := by
  unfold finishProcessed
  have : ∀ (l : List (SIdx × Nat)) (acc : PassState), acc.ok = false →
      (l.foldl (fun acc p =>
        if p.1.species ∈ acc.errors then acc
        else
          let acc2 := { acc with report := acc.report ++ [p] }
          match dictGet acc2.dict p.1 with
          | none => { acc2 with ok := false }
          | some i =>
              let cat := set_uuid acc2.cat i uuid
              let cat :=
                (set_status cat now p.1.species "Up-To-Date" (some i)).1
              { acc2 with cat := cat }) acc).ok = false := by
    intro l
    induction l with
    | nil => exact fun acc h2 => h2
    | cons p t ih =>
        intro acc h2
        rw [List.foldl_cons]
        refine ih _ ?_
        split
        · exact h2
        · dsimp only
          cases hd : dictGet acc.dict p.1 with
          | none => rfl
          | some i => exact h2
  exact this st.processed st h

theorem inv_finishProcessed (now : Nat) (uuid : OStr) (st : PassState)
    (hInv : Inv st) : Inv (finishProcessed now uuid st) := by
  unfold finishProcessed
  have : ∀ (l : List (SIdx × Nat)) (acc : PassState), Inv acc →
      Inv (l.foldl (fun acc p =>
        if p.1.species ∈ acc.errors then acc
        else
          let acc2 := { acc with report := acc.report ++ [p] }
          match dictGet acc2.dict p.1 with
          | none => { acc2 with ok := false }
          | some i =>
              let cat := set_uuid acc2.cat i uuid
              let cat :=
                (set_status cat now p.1.species "Up-To-Date" (some i)).1
              { acc2 with cat := cat }) acc) := by
    intro l
    induction l with
    | nil => exact fun acc h => h
    | cons p t ih =>
        intro acc hacc
        rw [List.foldl_cons]
        refine ih _ ?_
        split
        · exact hacc
        · dsimp only
          cases hd : dictGet acc.dict p.1 with
          | none => exact inv_congr hacc rfl (fun k => rfl) rfl
          | some i =>
              have hmid : Inv { acc with
                  report := acc.report ++ [p],
                  cat := set_uuid acc.cat i uuid } :=
                inv_set_uuid hacc i uuid rfl (fun k => rfl) rfl
              exact inv_set_status hmid now p.1.species "Up-To-Date"
                (some i) rfl (fun k => rfl) rfl
  exact this st.processed st hInv

theorem runGroup_ok_false (vl : RState → RState → String) (now : Nat)
    (st : PassState) (g : GroupInput) (h : st.ok = false) :
    (runGroup vl now st g).ok = false := by
  unfold runGroup
  refine finishProcessed_ok_false now g.uuid _ ?_
  rw [cleanupErrors_ok]
  exact fold_trans_ok_false vl g g.transitions _ h

theorem inv_runGroup (vl : RState → RState → String) (now : Nat)
    (st : PassState) (g : GroupInput) (hInv : Inv st)
    (hg : ∀ tr ∈ g.transitions, tr.SpeciesID = g.species_id)
    (hok : (runGroup vl now st g).ok = true) :
    Inv (runGroup vl now st g) := by
  unfold runGroup at hok ⊢
  have hInv1 : Inv { st with
      cat := markUpdating st.cat g.species_id,
      trs := deleteTransOf (markUpdating st.cat g.species_id) st.trs
        g.species_id,
      processed := [] } :=
    inv_markUpdating hInv g.species_id rfl (fun k => rfl) rfl
  have hokf : (g.transitions.foldl (processTransition vl g)
      { st with
        cat := markUpdating st.cat g.species_id,
        trs := deleteTransOf (markUpdating st.cat g.species_id) st.trs
          g.species_id,
        processed := [] }).ok = true := by
    cases hb : (g.transitions.foldl (processTransition vl g)
        { st with
          cat := markUpdating st.cat g.species_id,
          trs := deleteTransOf (markUpdating st.cat g.species_id) st.trs
            g.species_id,
          processed := [] }).ok with
    | false =>
        exfalso
        have h1 : (cleanupErrors now (g.transitions.foldl
            (processTransition vl g)
            { st with
              cat := markUpdating st.cat g.species_id,
              trs := deleteTransOf (markUpdating st.cat g.species_id)
                st.trs g.species_id,
              processed := [] })).ok = false := by
          rw [cleanupErrors_ok]
          exact hb
        rw [finishProcessed_ok_false now g.uuid _ h1] at hok
        cases hok
    | true => rfl
  have hInv2 := fold_trans_inv vl g g.transitions hg _ hInv1 hokf
  exact inv_finishProcessed now g.uuid _ (inv_cleanupErrors now _ hInv2)

end Vamdclib

namespace Vamdclib

theorem dict_scan_mem (force : Bool) (t : List PFRow) (k : SIdx) (i : Int) :
    ∀ d : SDict,
      dictGet (t.foldl
        (fun d r => dictInsert d (maskedKey r) (scanVal force r)) d) k =
        some i →
      (∃ r ∈ t, maskedKey r = k ∧ scanVal force r = i) ∨
        dictGet d k = some i := by
  induction t with
  | nil => exact fun d h => Or.inr h
  | cons x t ih =>
      intro d h
      rw [List.foldl_cons] at h
      rcases ih _ h with h2 | h2
      · obtain ⟨r, hr, hrk, hrv⟩ := h2
        exact Or.inl ⟨r, List.mem_cons_of_mem x hr, hrk, hrv⟩
      · by_cases hk : k = maskedKey x
        · rw [hk, dictGet_insert_self] at h2
          exact Or.inl ⟨x, List.mem_cons_self x t, hk.symm,
            Eq.symm (Option.some.inj h2).symm⟩
        · rw [dictGet_insert_ne _ _ _ _ hk] at h2
          exact Or.inr h2

theorem buildDict_mem (force : Bool) (cat : List PFRow) (k : SIdx)
    (i : Int) (h : dictGet (buildSpeciesDictId force cat) k = some i) :
    ∃ r ∈ cat, maskedKey r = k ∧ scanVal force r = i := by
  rcases dict_scan_mem force cat k i [] h with h2 | h2
  · exact h2
  · cases h2

theorem scanVal_id_or (force : Bool) (r : PFRow) :
    scanVal force r = r.id ∨ scanVal force r = -1 := by
  unfold scanVal
  split
  · exact Or.inl rfl
  · exact Or.inr rfl

theorem inv_initial (force : Bool) (nextPf nextT : Int)
    (cat : List PFRow) (trs : List TRow)
    (hPf : 0 < nextPf)
    (hPos : ∀ r ∈ cat, 0 < r.id)
    (hLt : ∀ r ∈ cat, r.id < nextPf)
    (hIds : (cat.map (·.id)).Nodup)
    (hKeys : (cat.map maskedKey).Nodup) :
    Inv { cat := cat, trs := trs, dict := buildSpeciesDictId force cat,
          errors := [], processed := [], report := [], connLast := 0,
          nextPf := nextPf, nextT := nextT, ok := true } := by
  refine ⟨hPf, hPos, hLt, hIds, hKeys, ?_, ?_, ?_⟩
  · intro r hr
    show (dictGet (buildSpeciesDictId force cat) (maskedKey r)).isSome
    rw [buildDict_lookup force cat r hr hKeys]
    rfl
  · intro k i hk hi
    obtain ⟨r, hr, hrk, hrv⟩ := buildDict_mem force cat k i hk
    rcases scanVal_id_or force r with hv | hv
    · exact ⟨r, hr, by rw [← hrv, hv], hrk⟩
    · rw [hv] at hrv
      rw [← hrv] at hi
      cases hi
  · intro k i hk
    show i < nextPf
    obtain ⟨r, hr, hrk, hrv⟩ := buildDict_mem force cat k i hk
    rcases scanVal_id_or force r with hv | hv
    · rw [← hrv, hv]
      exact hLt r hr
    · rw [← hrv, hv]
      exact lt_trans (by norm_num) hPf

theorem fold_groups_ok_false (vl : RState → RState → String) (now : Nat)
    (groups : List GroupInput) :
    ∀ st : PassState, st.ok = false →
      (groups.foldl (runGroup vl now) st).ok = false := by
  induction groups with
  | nil => exact fun st h => h
  | cons g t ih =>
      exact fun st h => ih _ (runGroup_ok_false vl now st g h)

theorem fold_groups_inv (vl : RState → RState → String) (now : Nat)
    (groups : List GroupInput)
    (hSpec : ∀ g ∈ groups, ∀ tr ∈ g.transitions,
      tr.SpeciesID = g.species_id) :
    ∀ st : PassState, Inv st →
      (groups.foldl (runGroup vl now) st).ok = true →
      Inv (groups.foldl (runGroup vl now) st) := by
  induction groups with
  | nil => exact fun st h _ => h
  | cons g t ih =>
      intro st hInv hok
      rw [List.foldl_cons] at hok ⊢
      have hok1 : (runGroup vl now st g).ok = true := by
        cases hb : (runGroup vl now st g).ok with
        | false =>
            exfalso
            rw [fold_groups_ok_false vl now t _ hb] at hok
            cases hok
        | true => rfl
      exact ih (fun g2 h2 => hSpec g2 (List.mem_cons_of_mem g h2)) _
        (inv_runGroup vl now st g hInv
          (hSpec g (List.mem_cons_self g t)) hok1) hok

/-- C6 amended: provided every transition of each fetched result belongs
to the species group being processed, a pass preserves identity-key
uniqueness: if no two Species Records share a masked identity key
before the pass, none do after it (on runs without resolver anomalies,
`ok = true`). -/
theorem c6_amended_key_uniqueness (vl : RState → RState → String)
    (force : Bool) (now : Nat) (nextPf nextT : Int) (cat : List PFRow)
    (trs : List TRow) (groups : List GroupInput)
    (hPf : 0 < nextPf)
    (hPos : ∀ r ∈ cat, 0 < r.id)
    (hLt : ∀ r ∈ cat, r.id < nextPf)
    (hIds : (cat.map (·.id)).Nodup)
    (hKeys : (cat.map maskedKey).Nodup)
    (hSpec : ∀ g ∈ groups, ∀ tr ∈ g.transitions,
      tr.SpeciesID = g.species_id)
    (hok : (update_species_data vl force now nextPf nextT cat trs
      groups).ok = true) :
    (((update_species_data vl force now nextPf nextT cat trs
      groups).cat.map maskedKey).Nodup) := by
  have hInv0 := inv_initial force nextPf nextT cat trs hPf hPos hLt
    hIds hKeys
  unfold update_species_data at hok ⊢
  exact (fold_groups_inv vl now groups hSpec _ hInv0 hok).keysNodup

end Vamdclib

namespace Vamdclib

/-- C6 counterexample input: the upper state of the offending
transition. -/
def upC6 : RState :=
  { StateEnergyValue := 0, TotalStatisticalWeight := some 4,
    NuclearSpinIsomerName := none, NuclearSpinIsomerLowestEnergy := none,
    qn_string := "J=1" }

/-- C6 counterexample input: the lower state. -/
def lowC6 : RState :=
  { StateEnergyValue := 5, TotalStatisticalWeight := some 2,
    NuclearSpinIsomerName := none, NuclearSpinIsomerLowestEnergy := none,
    qn_string := "J=0" }

/-- C6 counterexample input: a transition of a *different* species
(`S2`) contained in the result fetched for species `S` — the
multi-species documents the code itself mentions at lines 998-1001. -/
def trC6 : RTrans :=
  { SpeciesID := "S2", UpperStateRef := "u", LowerStateRef := "l",
    FrequencyValue := 100, FrequencyAccuracy := some 1,
    TransitionProbabilityA := 2, ProcessClass := [] }

/-- C6 counterexample input: the one catalogue row, already carrying
the vibrational tag `v=1`. -/
def rowC6 : PFRow :=
  { id := 1, name := "H2O", species_id := "S", nsi := none,
    vibstate := some "v=1", hfs := none, status := "New", uuid := none,
    pf := [10], checkdate := 0 }

/-- C6 counterexample input: the fetched group for species `S`. -/
def gC6 : GroupInput :=
  { species_id := "S", formula := "H2O",
    states := [("u", upC6), ("l", lowC6)],
    transitions := [trC6], uuid := some "u6" }

/-- C6 counterexample: the label function tags the transition `v=1`. -/
def vlC6 : RState → RState → String := fun _ _ => "v=1"

/-- C6 counterexample: the resulting pass. -/
def finalC6 : PassState :=
  update_species_data vlC6 false 7 2 1 [rowC6] [] [gC6]

end Vamdclib

namespace Vamdclib

/-- C6: counterexample.  The catalogue starts with pairwise distinct
masked identity keys and the pass raises no anomaly, yet afterwards two
Species Records share the identity key
`(S, none, v=1, none)`: the resolver, asked for `(S2, none, v=1,
none)` by the foreign transition `trC6`, finds neither it nor its
placeholder and clones the `S` row — `doublicate_pf_entry_for_hfs` is
called with the *group's* species id (line 1131) and copies the base
row's `PF_SpeciesID` — producing a second active row with the `S`
row's exact key.  The spec's uniqueness sentence fails. -/
theorem c6_counterexample :
    (([rowC6].map maskedKey).Nodup ∧ finalC6.ok = true) ∧
      ¬ ((finalC6.cat.map maskedKey).Nodup) := by
  decide

/-- Witness inputs for the amended C6 statement: a single-row, single
self-owned-group pass. -/
def vlW6 : RState → RState → String := fun _ _ => ""

/-- Witness input: catalogue row for species `S`. -/
def rowW6 : PFRow :=
  { id := 1, name := "H2O", species_id := "S", nsi := none,
    vibstate := none, hfs := none, status := "New", uuid := none,
    pf := [], checkdate := 0 }

/-- Witness input: a transition of the group's own species. -/
def trW6 : RTrans :=
  { SpeciesID := "S", UpperStateRef := "u", LowerStateRef := "l",
    FrequencyValue := 100, FrequencyAccuracy := some 1,
    TransitionProbabilityA := 2, ProcessClass := [] }

/-- Witness input: the fetched group. -/
def gW6 : GroupInput :=
  { species_id := "S", formula := "H2O",
    states := [("u", upC6), ("l", lowC6)],
    transitions := [trW6], uuid := some "u" }

/-- C6 amended, witnessed at a concrete one-group pass whose fetch
contains only the group's own species. -/
theorem c6_amended_key_uniqueness_witness :
    (((update_species_data vlW6 false 0 2 1 [rowW6] [] [gW6]).cat.map
      maskedKey).Nodup) :=
  c6_amended_key_uniqueness vlW6 false 0 2 1 [rowW6] [] [gW6]
    (by decide) (by decide) (by decide) (by decide) (by decide)
    (by decide) (by decide)

end Vamdclib

namespace Vamdclib

/-- The four catalogue statuses (exact spellings) under which a row
takes part in an update: eligible for the scan loop (lines 902-918) and
matched by the `Updating` transition of lines 972-977. -/
def canonStatus (s : String) : Prop :=
  s = "New" ∨ s = "Update Available" ∨ s = "Update Failed" ∨
    s = "Updating"

instance (s : String) : Decidable (canonStatus s) := by
  unfold canonStatus
  exact inferInstance

theorem scanVal_canon (force : Bool) (r : PFRow)
    (h : canonStatus r.status) : scanVal force r = r.id := by
  unfold scanVal
  rcases h with h | h | h | h <;> rw [h] <;>
    exact if_pos (by
      simp only [Bool.or_eq_true, decide_eq_true_eq]
      exact Or.inr (by decide))

/-- The state `update_species_data` starts from (lines 815-919). -/
def initPass (force : Bool) (nextPf nextT : Int) (cat : List PFRow)
    (trs : List TRow) : PassState :=
  { cat := cat, trs := trs, dict := buildSpeciesDictId force cat,
    errors := [], processed := [], report := [], connLast := 0,
    nextPf := nextPf, nextT := nextT, ok := true }

theorem update_species_data_eq (vl : RState → RState → String)
    (force : Bool) (now : Nat) (nextPf nextT : Int) (cat : List PFRow)
    (trs : List TRow) (groups : List GroupInput) :
    update_species_data vl force now nextPf nextT cat trs groups =
      groups.foldl (runGroup vl now)
        (initPass force nextPf nextT cat trs) := rfl

theorem insertBranch_errors (gs tName : String) (tS tH : OStr)
    (tr : RTrans) (up low : RState) (unc : Rat) (w : Int) (off : Rat)
    (st : PassState) (nsiName : OStr) :
    (insertBranch gs tName tS tH tr up low unc w off st
      nsiName).errors = st.errors := by
  unfold insertBranch
  dsimp only
  split
  · exact (resolveId_frame gs _ _).2.1
  · exact (resolveId_frame gs _ _).2.1

theorem processTransition_errors_sub (vl : RState → RState → String)
    (g : GroupInput) (st : PassState) (tr : RTrans) :
    (processTransition vl g st tr).errors = st.errors ∨
      (processTransition vl g st tr).errors =
        st.errors ++ [tr.SpeciesID] := by
  unfold processTransition
  dsimp only
  split
  · exact Or.inl rfl
  · split
    · split
      · exact Or.inr rfl
      · split
        · exact Or.inr rfl
        · split
          · split
            · exact Or.inl (insertBranch_errors _ _ _ _ _ _ _ _ _ _ _ _)
            · split
              · exact Or.inr rfl
              · exact Or.inl (by
                  rw [insertBranch_errors _ _ _ _ _ _ _ _ _ _ _ _,
                    insertBranch_errors _ _ _ _ _ _ _ _ _ _ _ _])
          · exact Or.inl (insertBranch_errors _ _ _ _ _ _ _ _ _ _ _ _)
    · exact Or.inr rfl

theorem processTransition_errors_mono (vl : RState → RState → String)
    (g : GroupInput) (st : PassState) (tr : RTrans) (e : String)
    (h : e ∈ st.errors) : e ∈ (processTransition vl g st tr).errors := by
  rcases processTransition_errors_sub vl g st tr with h2 | h2 <;> rw [h2]
  · exact h
  · exact List.mem_append_left _ h

theorem fold_trans_errors_sub (vl : RState → RState → String)
    (g : GroupInput) (l : List RTrans)
    (hl : ∀ tr ∈ l, tr.SpeciesID = g.species_id) :
    ∀ st : PassState, ∀ e ∈ (l.foldl (processTransition vl g) st).errors,
      e ∈ st.errors ∨ e = g.species_id := by
  induction l with
  | nil => exact fun st e he => Or.inl he
  | cons tr t ih =>
      intro st e he
      rw [List.foldl_cons] at he
      rcases ih (fun tr2 h2 => hl tr2 (List.mem_cons_of_mem tr h2)) _ e
          he with h2 | h2
      · rcases processTransition_errors_sub vl g st tr with h3 | h3 <;>
          rw [h3] at h2
        · exact Or.inl h2
        · rcases List.mem_append.mp h2 with h4 | h4
          · exact Or.inl h4
          · refine Or.inr ?_
            rw [← hl tr (List.mem_cons_self tr t)]
            simpa using h4
      · exact Or.inr h2

theorem fold_trans_errors_mono (vl : RState → RState → String)
    (g : GroupInput) (l : List RTrans) :
    ∀ st : PassState, ∀ e ∈ st.errors,
      e ∈ (l.foldl (processTransition vl g) st).errors := by
  induction l with
  | nil => exact fun st e he => he
  | cons tr t ih =>
      intro st e he
      rw [List.foldl_cons]
      exact ih _ e (processTransition_errors_mono vl g st tr e he)

theorem processTransition_fail_mem (vl : RState → RState → String)
    (g : GroupInput) (st : PassState) (tr : RTrans)
    (hf : transFails g.states tr = true) :
    tr.SpeciesID ∈ (processTransition vl g st tr).errors := by
  by_cases hser : tr.SpeciesID ∈ st.errors
  · exact processTransition_errors_mono vl g st tr _ hser
  · unfold transFails at hf
    unfold processTransition
    dsimp only
    rw [if_neg hser]
    cases hup : lookupState g.states tr.UpperStateRef with
    | none =>
        rw [hup] at hf
        cases hlow : lookupState g.states tr.LowerStateRef <;>
          exact List.mem_append_right _ (List.mem_singleton.mpr rfl)
    | some up =>
        rw [hup] at hf
        cases hlow : lookupState g.states tr.LowerStateRef with
        | none => exact List.mem_append_right _ (List.mem_singleton.mpr rfl)
        | some low =>
            rw [hlow] at hf
            dsimp only at hf ⊢
            cases hacc : tr.FrequencyAccuracy with
            | none =>
                exact List.mem_append_right _ (List.mem_singleton.mpr rfl)
            | some unc =>
                rw [hacc] at hf
                dsimp only at hf ⊢
                cases hw : up.TotalStatisticalWeight with
                | none =>
                    exact List.mem_append_right _
                      (List.mem_singleton.mpr rfl)
                | some w =>
                    rw [hw] at hf
                    dsimp only at hf ⊢
                    simp only [Option.isNone_some, Bool.false_or] at hf
                    cases hn : up.NuclearSpinIsomerName.map pyStrip with
                    | none =>
                        rw [hn] at hf
                        cases hf
                    | some s =>
                        rw [hn] at hf
                        dsimp only at hf ⊢
                        by_cases hs : s = ""
                        · rw [if_pos hs] at hf
                          cases hf
                        · rw [if_neg hs] at hf
                          rw [if_neg hs]
                          cases ho : up.NuclearSpinIsomerLowestEnergy.bind
                              (lookupState g.states) with
                          | none =>
                              exact List.mem_append_right _
                                (List.mem_singleton.mpr rfl)
                          | some origin =>
                              rw [ho] at hf
                              cases hf

end Vamdclib

namespace Vamdclib

theorem processTransition_nofail_errors (vl : RState → RState → String)
    (g : GroupInput) (st : PassState) (tr : RTrans)
    (hf : transFails g.states tr = false) :
    (processTransition vl g st tr).errors = st.errors := by
  unfold transFails at hf
  unfold processTransition
  dsimp only
  by_cases hser : tr.SpeciesID ∈ st.errors
  · rw [if_pos hser]
  · rw [if_neg hser]
    cases hup : lookupState g.states tr.UpperStateRef with
    | none =>
        rw [hup] at hf
        cases hlow : lookupState g.states tr.LowerStateRef <;>
          rw [hlow] at hf <;> dsimp only at hf <;> cases hf
    | some up =>
        rw [hup] at hf
        cases hlow : lookupState g.states tr.LowerStateRef with
        | none =>
            rw [hlow] at hf
            dsimp only at hf
            cases hf
        | some low =>
            rw [hlow] at hf
            dsimp only at hf ⊢
            cases hacc : tr.FrequencyAccuracy with
            | none =>
                rw [hacc] at hf
                cases hf
            | some unc =>
                rw [hacc] at hf
                dsimp only at hf ⊢
                cases hw : up.TotalStatisticalWeight with
                | none =>
                    rw [hw] at hf
                    cases hf
                | some w =>
                    rw [hw] at hf
                    dsimp only at hf ⊢
                    simp only [Option.isNone_some, Bool.false_or] at hf
                    cases hn : up.NuclearSpinIsomerName.map pyStrip with
                    | none =>
                        exact insertBranch_errors _ _ _ _ _ _ _ _ _ _ _ _
                    | some s =>
                        rw [hn] at hf
                        dsimp only at hf ⊢
                        by_cases hs : s = ""
                        · rw [if_pos hs]
                          exact insertBranch_errors _ _ _ _ _ _ _ _ _ _ _ _
                        · rw [if_neg hs] at hf
                          rw [if_neg hs]
                          cases ho : up.NuclearSpinIsomerLowestEnergy.bind
                              (lookupState g.states) with
                          | none =>
                              rw [ho] at hf
                              cases hf
                          | some origin =>
                              rw [insertBranch_errors _ _ _ _ _ _ _ _ _ _
                                _ _, insertBranch_errors _ _ _ _ _ _ _ _
                                _ _ _ _]

theorem fold_trans_nofail_errors (vl : RState → RState → String)
    (g : GroupInput) (l : List RTrans)
    (hl : ∀ tr ∈ l, transFails g.states tr = false) :
    ∀ st : PassState,
      (l.foldl (processTransition vl g) st).errors = st.errors := by
  induction l with
  | nil => exact fun st => rfl
  | cons tr t ih =>
      intro st
      rw [List.foldl_cons,
        ih (fun tr2 h2 => hl tr2 (List.mem_cons_of_mem tr h2)),
        processTransition_nofail_errors vl g st tr
          (hl tr (List.mem_cons_self tr t))]

theorem fold_trans_fail_mem (vl : RState → RState → String)
    (g : GroupInput) (l : List RTrans)
    (hl : ∀ tr ∈ l, tr.SpeciesID = g.species_id) (tr0 : RTrans)
    (h0 : tr0 ∈ l) (hf : transFails g.states tr0 = true) :
    ∀ st : PassState,
      g.species_id ∈ (l.foldl (processTransition vl g) st).errors := by
  induction l with
  | nil => cases h0
  | cons tr t ih =>
      intro st
      rw [List.foldl_cons]
      rcases List.mem_cons.mp h0 with rfl | h1
      · refine fold_trans_errors_mono vl g t _ _ ?_
        rw [← hl _ (List.mem_cons_self _ _)]
        exact processTransition_fail_mem vl g st _ hf
      · exact ih (fun tr2 h2 => hl tr2 (List.mem_cons_of_mem tr h2)) h1 _

/-- `cleanupErrors` changes only the catalogue and the transitions. -/
theorem cleanupErrors_frame (now : Nat) (st : PassState) :
    (cleanupErrors now st).errors = st.errors ∧
    (cleanupErrors now st).dict = st.dict ∧
    (cleanupErrors now st).processed = st.processed ∧
    (cleanupErrors now st).nextPf = st.nextPf ∧
    (cleanupErrors now st).nextT = st.nextT := by
  unfold cleanupErrors
  have : ∀ (l : List String) (acc : PassState),
      (l.foldl (fun acc sid =>
        { acc with
            trs := deleteTransOf acc.cat acc.trs sid
            cat := (set_status acc.cat now sid "Update Failed" none).1 })
        acc).errors = acc.errors ∧
      (l.foldl (fun acc sid =>
        { acc with
            trs := deleteTransOf acc.cat acc.trs sid
            cat := (set_status acc.cat now sid "Update Failed" none).1 })
        acc).dict = acc.dict ∧
      (l.foldl (fun acc sid =>
        { acc with
            trs := deleteTransOf acc.cat acc.trs sid
            cat := (set_status acc.cat now sid "Update Failed" none).1 })
        acc).processed = acc.processed ∧
      (l.foldl (fun acc sid =>
        { acc with
            trs := deleteTransOf acc.cat acc.trs sid
            cat := (set_status acc.cat now sid "Update Failed" none).1 })
        acc).nextPf = acc.nextPf ∧
      (l.foldl (fun acc sid =>
        { acc with
            trs := deleteTransOf acc.cat acc.trs sid
            cat := (set_status acc.cat now sid "Update Failed" none).1 })
        acc).nextT = acc.nextT := by
    intro l
    induction l with
    | nil => exact fun acc => ⟨rfl, rfl, rfl, rfl, rfl⟩
    | cons sid t ih =>
        intro acc
        rw [List.foldl_cons]
        exact ih _
  exact this st.errors st

theorem foldl_const {α β γ : Type} (f : β → α → β) (proj : β → γ)
    (h : ∀ acc a, proj (f acc a) = proj acc) (l : List α) :
    ∀ acc, proj (l.foldl f acc) = proj acc := by
  induction l with
  | nil => exact fun acc => rfl
  | cons a t ih =>
      intro acc
      rw [List.foldl_cons, ih (f acc a), h acc a]

/-- `finishProcessed` changes only the catalogue, the report and the
`ok` flag. -/
theorem finishProcessed_frame (now : Nat) (uuid : OStr)
    (st : PassState) :
    (finishProcessed now uuid st).errors = st.errors ∧
    (finishProcessed now uuid st).dict = st.dict ∧
    (finishProcessed now uuid st).processed = st.processed ∧
    (finishProcessed now uuid st).nextPf = st.nextPf ∧
    (finishProcessed now uuid st).nextT = st.nextT := by
  unfold finishProcessed
  refine ⟨foldl_const _ (fun b : PassState => b.errors) ?_ _ _,
    foldl_const _ (fun b : PassState => b.dict) ?_ _ _,
    foldl_const _ (fun b : PassState => b.processed) ?_ _ _,
    foldl_const _ (fun b : PassState => b.nextPf) ?_ _ _,
    foldl_const _ (fun b : PassState => b.nextT) ?_ _ _⟩ <;>
    (intro acc p
     split
     · rfl
     · dsimp only
       cases hd : dictGet acc.dict p.1 <;> rfl)

theorem runGroup_errors_sub (vl : RState → RState → String) (now : Nat)
    (st : PassState) (g : GroupInput)
    (hg : ∀ tr ∈ g.transitions, tr.SpeciesID = g.species_id) :
    ∀ e ∈ (runGroup vl now st g).errors,
      e ∈ st.errors ∨ e = g.species_id := by
  intro e he
  unfold runGroup at he
  rw [(finishProcessed_frame now g.uuid _).1,
    (cleanupErrors_frame now _).1] at he
  exact fold_trans_errors_sub vl g g.transitions hg
    { st with
        cat := markUpdating st.cat g.species_id
        trs := deleteTransOf (markUpdating st.cat g.species_id) st.trs
          g.species_id
        processed := [] } e he

theorem runGroup_errors_mono (vl : RState → RState → String) (now : Nat)
    (st : PassState) (g : GroupInput) (e : String) (he : e ∈ st.errors) :
    e ∈ (runGroup vl now st g).errors := by
  unfold runGroup
  rw [(finishProcessed_frame now g.uuid _).1,
    (cleanupErrors_frame now _).1]
  exact fold_trans_errors_mono vl g g.transitions _ e he

theorem runGroup_nofail_errors (vl : RState → RState → String)
    (now : Nat) (st : PassState) (g : GroupInput)
    (hl : ∀ tr ∈ g.transitions, transFails g.states tr = false) :
    (runGroup vl now st g).errors = st.errors := by
  unfold runGroup
  rw [(finishProcessed_frame now g.uuid _).1,
    (cleanupErrors_frame now _).1]
  exact fold_trans_nofail_errors vl g g.transitions hl _

theorem runGroup_fail_mem (vl : RState → RState → String) (now : Nat)
    (st : PassState) (g : GroupInput)
    (hg : ∀ tr ∈ g.transitions, tr.SpeciesID = g.species_id)
    (tr0 : RTrans) (h0 : tr0 ∈ g.transitions)
    (hf : transFails g.states tr0 = true) :
    g.species_id ∈ (runGroup vl now st g).errors := by
  unfold runGroup
  rw [(finishProcessed_frame now g.uuid _).1,
    (cleanupErrors_frame now _).1]
  exact fold_trans_fail_mem vl g g.transitions hg tr0 h0 hf _

theorem fold_groups_errors_sub (vl : RState → RState → String)
    (now : Nat) (l : List GroupInput)
    (hl : ∀ g ∈ l, ∀ tr ∈ g.transitions, tr.SpeciesID = g.species_id) :
    ∀ st : PassState, ∀ e ∈ (l.foldl (runGroup vl now) st).errors,
      e ∈ st.errors ∨ e ∈ l.map (·.species_id) := by
  induction l with
  | nil => exact fun st e he => Or.inl he
  | cons g t ih =>
      intro st e he
      rw [List.foldl_cons] at he
      rcases ih (fun g2 h2 => hl g2 (List.mem_cons_of_mem g h2)) _ e he
          with h2 | h2
      · rcases runGroup_errors_sub vl now st g
            (hl g (List.mem_cons_self g t)) e h2 with h3 | h3
        · exact Or.inl h3
        · exact Or.inr (by rw [List.map_cons, h3]; exact
            List.mem_cons_self _ _)
      · exact Or.inr (List.mem_cons_of_mem _ h2)

end Vamdclib

namespace Vamdclib

/-- Every identity tuple in `transitions_processed` belongs to this
species. -/
def processedSpecies (s : String) (st : PassState) : Prop :=
  ∀ p ∈ st.processed, p.1.species = s

theorem procInit_sub (l : List (SIdx × Nat)) (k : SIdx) :
    ∀ p ∈ procInit l k, p ∈ l ∨ p.1 = k := by
  intro p hp
  unfold procInit at hp
  split at hp
  · exact Or.inl hp
  · rcases List.mem_append.mp hp with h | h
    · exact Or.inl h
    · right
      rw [List.mem_singleton.mp h]

theorem procInc_keys (l : List (SIdx × Nat)) (k : SIdx) :
    ∀ p ∈ procInc l k, ∃ q ∈ l, p.1 = q.1 := by
  intro p hp
  unfold procInc at hp
  obtain ⟨q, hq, he⟩ := List.mem_map.mp hp
  refine ⟨q, hq, ?_⟩
  rw [← he]
  split <;> rfl

theorem insertBranch_processedSpecies (gs tName : String) (tS tH : OStr)
    (tr : RTrans) (up low : RState) (unc : Rat) (w : Int) (off : Rat)
    (st : PassState) (nsiName : OStr) (s : String)
    (hst : processedSpecies s st) (htr : tr.SpeciesID = s) :
    processedSpecies s
      (insertBranch gs tName tS tH tr up low unc w off st nsiName) := by
  have hinit : ∀ p ∈ procInit st.processed
      ⟨tr.SpeciesID, nsiName, tS, tH⟩, p.1.species = s := by
    intro p hp
    rcases procInit_sub st.processed _ p hp with h | h
    · exact hst p h
    · rw [h]
      exact htr
  unfold insertBranch
  dsimp only
  have hres : (resolveId gs
      { st with
          processed := procInit st.processed
            ⟨tr.SpeciesID, nsiName, tS, tH⟩ }
      ⟨tr.SpeciesID, nsiName, tS, tH⟩).2.processed =
      procInit st.processed ⟨tr.SpeciesID, nsiName, tS, tH⟩ :=
    (resolveId_frame gs _ _).2.2.1
  split
  · intro p hp
    rw [hres] at hp
    exact hinit p hp
  · intro p hp
    dsimp only at hp
    rw [hres] at hp
    obtain ⟨q, hq, he⟩ := procInc_keys _ _ p hp
    rw [he]
    exact hinit q hq

theorem processTransition_processedSpecies (vl : RState → RState → String)
    (g : GroupInput) (st : PassState) (tr : RTrans) (s : String)
    (hst : processedSpecies s st) (htr : tr.SpeciesID = s) :
    processedSpecies s (processTransition vl g st tr) := by
  unfold processTransition
  dsimp only
  split
  · exact hst
  · split
    · split
      · exact hst
      · split
        · exact hst
        · split
          · split
            · exact insertBranch_processedSpecies _ _ _ _ _ _ _ _ _ _ _
                _ s hst htr
            · split
              · exact hst
              · exact insertBranch_processedSpecies _ _ _ _ _ _ _ _ _ _
                  _ _ s (insertBranch_processedSpecies _ _ _ _ _ _ _ _
                    _ _ _ _ s hst htr) htr
          · exact insertBranch_processedSpecies _ _ _ _ _ _ _ _ _ _ _ _
              s hst htr
    · exact hst

theorem fold_trans_processedSpecies (vl : RState → RState → String)
    (g : GroupInput) (l : List RTrans) (s : String)
    (hl : ∀ tr ∈ l, tr.SpeciesID = s) :
    ∀ st : PassState, processedSpecies s st →
      processedSpecies s (l.foldl (processTransition vl g) st) := by
  induction l with
  | nil => exact fun st h => h
  | cons tr t ih =>
      intro st hst
      rw [List.foldl_cons]
      exact ih (fun tr2 h2 => hl tr2 (List.mem_cons_of_mem tr h2)) _
        (processTransition_processedSpecies vl g st tr s hst
          (hl tr (List.mem_cons_self tr t)))

theorem runGroup_processedSpecies (vl : RState → RState → String)
    (now : Nat) (st : PassState) (g : GroupInput)
    (hg : ∀ tr ∈ g.transitions, tr.SpeciesID = g.species_id) :
    processedSpecies g.species_id (runGroup vl now st g) := by
  unfold runGroup
  intro p hp
  rw [(finishProcessed_frame now g.uuid _).2.2.1,
    (cleanupErrors_frame now _).2.2.1] at hp
  exact fold_trans_processedSpecies vl g g.transitions g.species_id hg
    { st with
        cat := markUpdating st.cat g.species_id
        trs := deleteTransOf (markUpdating st.cat g.species_id) st.trs
          g.species_id
        processed := [] } (fun q hq => absurd hq (List.not_mem_nil q))
    p hp

/-- All dictionary values are positive: no `-1` sentinel and no stale
row id is ever stored while this holds. -/
def DPos (st : PassState) : Prop :=
  ∀ k i, dictGet st.dict k = some i → 0 < i

theorem dictGet_insert_sub (d : SDict) (k : SIdx) (v : Int) (k2 : SIdx)
    (i : Int) (h : dictGet (dictInsert d k v) k2 = some i) :
    i = v ∨ dictGet d k2 = some i := by
  by_cases he : k2 = k
  · rw [he, dictGet_insert_self] at h
    exact Or.inl (Option.some.inj h).symm
  · rw [dictGet_insert_ne _ _ _ _ he] at h
    exact Or.inr h

theorem dpos_resolveId (gs : String) (st : PassState) (sidx : SIdx)
    (hInv : Inv st) (hd : DPos st)
    (hok : (resolveId gs st sidx).2.ok = true) :
    DPos (resolveId gs st sidx).2 := by
  unfold resolveId
  cases h1 : dictGet st.dict sidx with
  | some i => exact hd
  | none =>
      dsimp only
      cases h2 : dictGet st.dict ⟨sidx.species, sidx.nsi, none, none⟩ with
      | some i =>
          dsimp only
          have hipos : 0 < i := hd _ _ h2
          rw [if_pos hipos]
          intro k j hk
          rcases dictGet_insert_sub _ _ _ _ _ hk with h | h
          · rw [h]
            exact hipos
          · exact hd _ _ (dictGet_erase_sub h)
      | none =>
          dsimp only
          unfold doublicate_pf_entry_for_hfs
          cases h3 : st.cat.find? (fun r =>
              r.species_id = gs ∧ ifnull r.nsi = ifnull sidx.nsi) with
          | none =>
              unfold resolveId at hok
              rw [h1] at hok
              dsimp only at hok
              rw [h2] at hok
              dsimp only at hok
              unfold doublicate_pf_entry_for_hfs at hok
              rw [h3] at hok
              cases hok
          | some base =>
              dsimp only
              intro k j hk
              rcases dictGet_insert_sub _ _ _ _ _ hk with h | h
              · rw [h]
                exact hInv.nextPfPos
              · exact hd _ _ h

end Vamdclib

namespace Vamdclib

theorem dpos_insertBranch (gs tName : String) (tS tH : OStr)
    (tr : RTrans) (up low : RState) (unc : Rat) (w : Int) (off : Rat)
    (st : PassState) (nsiName : OStr) (hInv : Inv st) (hd : DPos st)
    (hok : (insertBranch gs tName tS tH tr up low unc w off st
      nsiName).ok = true) :
    DPos (insertBranch gs tName tS tH tr up low unc w off st nsiName) := by
  have hInv2 : Inv { st with
      processed := procInit st.processed
        ⟨tr.SpeciesID, nsiName, tS, tH⟩ } :=
    inv_congr hInv rfl (fun k => rfl) rfl
  have hokr : (resolveId gs
      { st with
          processed := procInit st.processed
            ⟨tr.SpeciesID, nsiName, tS, tH⟩ }
      ⟨tr.SpeciesID, nsiName, tS, tH⟩).2.ok = true := by
    rw [← insertBranch_ok gs tName tS tH tr up low unc w off st nsiName]
    exact hok
  have hres := dpos_resolveId gs
    { st with
        processed := procInit st.processed
          ⟨tr.SpeciesID, nsiName, tS, tH⟩ }
    ⟨tr.SpeciesID, nsiName, tS, tH⟩ hInv2 hd hokr
  intro k i hk
  rw [insertBranch_dict gs tName tS tH tr up low unc w off st nsiName]
    at hk
  exact hres k i hk

theorem dpos_processTransition (vl : RState → RState → String)
    (g : GroupInput) (st : PassState) (tr : RTrans) (hInv : Inv st)
    (hd : DPos st) (htr : tr.SpeciesID = g.species_id)
    (hok : (processTransition vl g st tr).ok = true) :
    DPos (processTransition vl g st tr) := by
  unfold processTransition at hok ⊢
  dsimp only at hok ⊢
  by_cases hser : tr.SpeciesID ∈ st.errors
  · rw [if_pos hser]
    exact hd
  · rw [if_neg hser] at hok ⊢
    cases hup : lookupState g.states tr.UpperStateRef with
    | none =>
        cases hlow : lookupState g.states tr.LowerStateRef with
        | none => exact hd
        | some low => exact hd
    | some up =>
        rw [hup] at hok
        cases hlow : lookupState g.states tr.LowerStateRef with
        | none => exact hd
        | some low =>
            rw [hlow] at hok
            dsimp only at hok ⊢
            have htS : maskedOpt
                (if (vl up low).length = 0 then none
                 else some (vl up low)) := by
              by_cases hc : (vl up low).length = 0
              · rw [if_pos hc]
                exact maskedOpt_none
              · rw [if_neg hc]
                exact maskedOpt_some hc
            cases hacc : tr.FrequencyAccuracy with
            | none => exact hd
            | some unc =>
                rw [hacc] at hok
                dsimp only at hok ⊢
                cases hw : up.TotalStatisticalWeight with
                | none => exact hd
                | some w =>
                    rw [hw] at hok
                    dsimp only at hok ⊢
                    cases hnsi : up.NuclearSpinIsomerName.map pyStrip with
                    | none =>
                        rw [hnsi] at hok
                        dsimp only at hok
                        exact dpos_insertBranch _ _ _ _ _ _ _ _ _ _ _ _
                          hInv hd hok
                    | some s =>
                        rw [hnsi] at hok
                        dsimp only at hok ⊢
                        by_cases hse : s = ""
                        · rw [if_pos hse] at hok ⊢
                          exact dpos_insertBranch _ _ _ _ _ _ _ _ _ _ _
                            _ hInv hd hok
                        · rw [if_neg hse] at hok ⊢
                          cases horig :
                              up.NuclearSpinIsomerLowestEnergy.bind
                                (lookupState g.states) with
                          | none => exact hd
                          | some origin =>
                              rw [horig] at hok
                              dsimp only at hok ⊢
                              have hok1 : (insertBranch g.species_id
                                  (pyStrip g.formula)
                                  (if (vl up low).length = 0 then none
                                   else some (vl up low))
                                  (hfsOf tr.ProcessClass) tr up low unc w
                                  origin.StateEnergyValue st
                                  (some s)).ok = true := by
                                cases hb : (insertBranch g.species_id
                                    (pyStrip g.formula)
                                    (if (vl up low).length = 0 then none
                                     else some (vl up low))
                                    (hfsOf tr.ProcessClass) tr up low unc
                                    w origin.StateEnergyValue st
                                    (some s)).ok with
                                | false =>
                                    exfalso
                                    rw [insertBranch_ok_false _ _ _ _ _ _
                                      _ _ _ _ _ _ hb] at hok
                                    cases hok
                                | true => rfl
                              have hInv1 := inv_insertBranch _ _ _ _ _ _
                                _ _ _ _ _ _ hInv
                                ⟨maskedOpt_some (length_ne_of_ne_empty hse),
                                  htS, hfsOf_masked tr.ProcessClass⟩ htr
                                hok1
                              have hd1 := dpos_insertBranch _ _ _ _ _ _
                                _ _ _ _ _ _ hInv hd hok1
                              exact dpos_insertBranch _ _ _ _ _ _ _ _ _
                                _ _ _ hInv1 hd1 hok

theorem fold_trans_dpos (vl : RState → RState → String) (g : GroupInput)
    (l : List RTrans) (hl : ∀ tr ∈ l, tr.SpeciesID = g.species_id) :
    ∀ st : PassState, Inv st → DPos st →
      (l.foldl (processTransition vl g) st).ok = true →
      DPos (l.foldl (processTransition vl g) st) := by
  induction l with
  | nil => exact fun st _ hd _ => hd
  | cons tr t ih =>
      intro st hInv hd hok
      rw [List.foldl_cons] at hok ⊢
      have hok1 : (processTransition vl g st tr).ok = true := by
        cases hb : (processTransition vl g st tr).ok with
        | false =>
            exfalso
            rw [fold_trans_ok_false vl g t _ hb] at hok
            cases hok
        | true => rfl
      exact ih (fun tr2 h2 => hl tr2 (List.mem_cons_of_mem tr h2)) _
        (inv_processTransition vl g st tr hInv
          (hl tr (List.mem_cons_self tr t)) hok1)
        (dpos_processTransition vl g st tr hInv hd
          (hl tr (List.mem_cons_self tr t)) hok1) hok

theorem runGroup_dpos (vl : RState → RState → String) (now : Nat)
    (st : PassState) (g : GroupInput) (hInv : Inv st) (hd : DPos st)
    (hg : ∀ tr ∈ g.transitions, tr.SpeciesID = g.species_id)
    (hok : (runGroup vl now st g).ok = true) :
    DPos (runGroup vl now st g) := by
  unfold runGroup at hok ⊢
  have hInv1 : Inv { st with
      cat := markUpdating st.cat g.species_id,
      trs := deleteTransOf (markUpdating st.cat g.species_id) st.trs
        g.species_id,
      processed := [] } :=
    inv_markUpdating hInv g.species_id rfl (fun k => rfl) rfl
  have hokf : (g.transitions.foldl (processTransition vl g)
      { st with
        cat := markUpdating st.cat g.species_id,
        trs := deleteTransOf (markUpdating st.cat g.species_id) st.trs
          g.species_id,
        processed := [] }).ok = true := by
    cases hb : (g.transitions.foldl (processTransition vl g)
        { st with
          cat := markUpdating st.cat g.species_id,
          trs := deleteTransOf (markUpdating st.cat g.species_id) st.trs
            g.species_id,
          processed := [] }).ok with
    | false =>
        exfalso
        have h1 : (cleanupErrors now (g.transitions.foldl
            (processTransition vl g)
            { st with
              cat := markUpdating st.cat g.species_id,
              trs := deleteTransOf (markUpdating st.cat g.species_id)
                st.trs g.species_id,
              processed := [] })).ok = false := by
          rw [cleanupErrors_ok]
          exact hb
        rw [finishProcessed_ok_false now g.uuid _ h1] at hok
        cases hok
    | true => rfl
  have hd2 := fold_trans_dpos vl g g.transitions hg _ hInv1 hd hokf
  intro k i hk
  rw [(finishProcessed_frame now g.uuid _).2.1,
    (cleanupErrors_frame now _).2.1] at hk
  exact hd2 k i hk

theorem fold_groups_invdpos (vl : RState → RState → String) (now : Nat)
    (l : List GroupInput)
    (hl : ∀ g ∈ l, ∀ tr ∈ g.transitions, tr.SpeciesID = g.species_id) :
    ∀ st : PassState, Inv st → DPos st →
      (l.foldl (runGroup vl now) st).ok = true →
      Inv (l.foldl (runGroup vl now) st) ∧
        DPos (l.foldl (runGroup vl now) st) := by
  induction l with
  | nil => exact fun st hInv hd _ => ⟨hInv, hd⟩
  | cons g t ih =>
      intro st hInv hd hok
      rw [List.foldl_cons] at hok ⊢
      have hok1 : (runGroup vl now st g).ok = true := by
        cases hb : (runGroup vl now st g).ok with
        | false =>
            exfalso
            rw [fold_groups_ok_false vl now t _ hb] at hok
            cases hok
        | true => rfl
      exact ih (fun g2 h2 => hl g2 (List.mem_cons_of_mem g h2)) _
        (inv_runGroup vl now st g hInv (hl g (List.mem_cons_self g t))
          hok1)
        (runGroup_dpos vl now st g hInv hd
          (hl g (List.mem_cons_self g t)) hok1) hok

theorem dpos_initial (force : Bool) (nextPf nextT : Int)
    (cat : List PFRow) (trs : List TRow)
    (hPos : ∀ r ∈ cat, 0 < r.id)
    (hElig : ∀ r ∈ cat, canonStatus r.status) :
    DPos (initPass force nextPf nextT cat trs) := by
  intro k i hk
  obtain ⟨r, hr, _, hrv⟩ := buildDict_mem force cat k i hk
  rw [← hrv, scanVal_canon force r (hElig r hr)]
  exact hPos r hr

end Vamdclib

namespace Vamdclib

/-- The rows of species `s` pass through an operation unchanged (in
both directions), and every transition owned by a row of `s` is kept. -/
def fixesSpecies (s : String) (st st2 : PassState) : Prop :=
  (∀ r ∈ st.cat, r.species_id = s → r ∈ st2.cat) ∧
  (∀ r ∈ st2.cat, r.species_id = s → r ∈ st.cat) ∧
  (∀ t ∈ st.trs, (∃ r ∈ st.cat, r.species_id = s ∧ r.id = t.pf_id) →
    t ∈ st2.trs)

theorem rows_id_inj {cat : List PFRow}
    (hnd : (cat.map (·.id)).Nodup) {r r2 : PFRow} (hr : r ∈ cat)
    (hr2 : r2 ∈ cat) (h : r.id = r2.id) : r = r2 :=
  List.inj_on_of_nodup_map hnd hr hr2 h

theorem fixes_of_eq {s : String} {st st2 : PassState}
    (hcat : st2.cat = st.cat) (htrs : st2.trs = st.trs) :
    fixesSpecies s st st2 := by
  refine ⟨?_, ?_, ?_⟩
  · intro r hr _
    rw [hcat]
    exact hr
  · intro r hr _
    rw [hcat] at hr
    exact hr
  · intro t ht _
    rw [htrs]
    exact ht

theorem fixes_trans {s : String} {st st2 st3 : PassState}
    (h1 : fixesSpecies s st st2) (h2 : fixesSpecies s st2 st3) :
    fixesSpecies s st st3 := by
  obtain ⟨f1, b1, t1⟩ := h1
  obtain ⟨f2, b2, t2⟩ := h2
  refine ⟨?_, ?_, ?_⟩
  · exact fun r hr hs => f2 r (f1 r hr hs) hs
  · exact fun r hr hs => b1 r (b2 r hr hs) hs
  · intro t ht ⟨r, hr, hs, hid⟩
    exact t2 t (t1 t ht ⟨r, hr, hs, hid⟩) ⟨r, f1 r hr hs, hs, hid⟩

theorem fixes_map {s : String} {st : PassState} (f : PFRow → PFRow)
    (hfix : ∀ r ∈ st.cat, r.species_id = s → f r = r)
    (hsp : ∀ r, (f r).species_id = r.species_id)
    {st2 : PassState} (hcat : st2.cat = st.cat.map f)
    (htrs : ∀ t ∈ st.trs, t ∈ st2.trs) :
    fixesSpecies s st st2 := by
  refine ⟨?_, ?_, ?_⟩
  · intro r hr hs
    rw [hcat, ← hfix r hr hs]
    exact List.mem_map_of_mem f hr
  · intro r2 hr2 hs
    rw [hcat] at hr2
    obtain ⟨r, hr, he⟩ := List.mem_map.mp hr2
    have hrs : r.species_id = s := by
      rw [← hs, ← he]
      exact (hsp r).symm
    rw [← he, hfix r hr hrs]
    exact hr
  · exact fun t ht _ => htrs t ht

theorem fixes_append {s : String} {st : PassState} {row : PFRow}
    (hrow : row.species_id ≠ s) {st2 : PassState}
    (hcat : st2.cat = st.cat ++ [row]) (htrs : ∀ t ∈ st.trs, t ∈ st2.trs) :
    fixesSpecies s st st2 := by
  refine ⟨?_, ?_, ?_⟩
  · intro r hr _
    rw [hcat]
    exact List.mem_append_left _ hr
  · intro r hr hs
    rw [hcat] at hr
    rcases List.mem_append.mp hr with h | h
    · exact h
    · exact absurd (List.mem_singleton.mp h ▸ hs) hrow
  · exact fun t ht _ => htrs t ht

theorem fixes_delete {s sid : String} {st : PassState}
    (hnd : (st.cat.map (·.id)).Nodup) (hne : sid ≠ s) {st2 : PassState}
    (hcat : st2.cat = st.cat)
    (htrs : st2.trs = deleteTransOf st.cat st.trs sid) :
    fixesSpecies s st st2 := by
  refine ⟨?_, ?_, ?_⟩
  · intro r hr _
    rw [hcat]
    exact hr
  · intro r hr _
    rw [hcat] at hr
    exact hr
  · intro t ht ⟨r, hr, hs, hid⟩
    rw [htrs]
    unfold deleteTransOf
    refine List.mem_filter.mpr ⟨ht, ?_⟩
    simp only [decide_eq_true_eq, Decidable.not_not]
    intro hmem
    unfold updatingIds at hmem
    obtain ⟨r2, hr2m, hr2e⟩ := List.mem_map.mp hmem
    have hr2cat := (List.mem_filter.mp hr2m).1
    have hr2p := (List.mem_filter.mp hr2m).2
    simp only [decide_eq_true_eq] at hr2p
    have : r2 = r := rows_id_inj hnd hr2cat hr (by rw [hr2e, ← hid])
    rw [this] at hr2p
    exact hne (hr2p.1.symm.trans hs)

theorem resolveId_fix (gs : String) (st : PassState) (sidx : SIdx)
    (s : String) (hInv : Inv st) (hsp : sidx.species = gs)
    (hne : gs ≠ s) : fixesSpecies s st (resolveId gs st sidx).2 := by
  unfold resolveId
  cases h1 : dictGet st.dict sidx with
  | some i => exact fixes_of_eq rfl rfl
  | none =>
      dsimp only
      cases h2 : dictGet st.dict ⟨sidx.species, sidx.nsi, none, none⟩ with
      | some i =>
          dsimp only
          by_cases hp : 0 < i
          · rw [if_pos hp]
            obtain ⟨r2, hr2, hr2id, hr2key⟩ := hInv.dRows _ i h2 hp
            refine fixes_map (fun r =>
              if r.id = i then
                { r with
                    vibstate := sidx.vib
                    hfs := sidx.hfs }
              else r) ?_ ?_ rfl (fun t ht => ht)
            · intro r hr hs
              dsimp only
              rw [if_neg]
              intro hrid
              have : r = r2 := rows_id_inj hInv.idsNodup hr hr2
                (by rw [hrid, hr2id])
              rw [this] at hs
              apply hne
              rw [← hsp]
              have : r2.species_id = sidx.species := by
                rw [show sidx.species =
                  (⟨sidx.species, sidx.nsi, none, none⟩ : SIdx).species
                  from rfl, ← hr2key]
                rfl
              rw [← this, hs]
            · intro r
              dsimp only
              split <;> rfl
          · rw [if_neg hp]
            exact fixes_of_eq rfl rfl
      | none =>
          dsimp only
          unfold doublicate_pf_entry_for_hfs
          cases h3 : st.cat.find? (fun r =>
              r.species_id = gs ∧ ifnull r.nsi = ifnull sidx.nsi) with
          | none => exact fixes_of_eq rfl rfl
          | some base =>
              dsimp only
              have hbase := List.find?_some h3
              simp only [decide_eq_true_eq] at hbase
              refine fixes_append ?_ rfl (fun t ht => ht)
              show base.species_id ≠ s
              rw [hbase.1]
              exact hne

end Vamdclib

namespace Vamdclib

theorem fixes_sup {s : String} {st st2 : PassState}
    (hcat : st2.cat = st.cat) (htrs : ∀ t ∈ st.trs, t ∈ st2.trs) :
    fixesSpecies s st st2 := by
  refine ⟨?_, ?_, ?_⟩
  · intro r hr _
    rw [hcat]
    exact hr
  · intro r hr _
    rw [hcat] at hr
    exact hr
  · exact fun t ht _ => htrs t ht

theorem insertBranch_fix (gs tName : String) (tS tH : OStr) (tr : RTrans)
    (up low : RState) (unc : Rat) (w : Int) (off : Rat) (st : PassState)
    (nsiName : OStr) (s : String) (hInv : Inv st)
    (htr : tr.SpeciesID = gs) (hne : gs ≠ s) :
    fixesSpecies s st
      (insertBranch gs tName tS tH tr up low unc w off st nsiName) := by
  have hInv1 : Inv { st with
      processed := procInit st.processed
        ⟨tr.SpeciesID, nsiName, tS, tH⟩ } :=
    inv_congr hInv rfl (fun k => rfl) rfl
  have hfix1 : fixesSpecies s st
      (resolveId gs
        { st with
            processed := procInit st.processed
              ⟨tr.SpeciesID, nsiName, tS, tH⟩ }
        ⟨tr.SpeciesID, nsiName, tS, tH⟩).2 :=
    fixes_trans (fixes_of_eq rfl rfl)
      (resolveId_fix gs _ _ s hInv1 htr hne)
  unfold insertBranch
  dsimp only
  split
  · exact hfix1
  · exact fixes_trans hfix1
      (fixes_sup rfl (fun t ht => List.mem_append_left _ ht))

theorem processTransition_fix (vl : RState → RState → String)
    (g : GroupInput) (st : PassState) (tr : RTrans) (s : String)
    (hInv : Inv st) (htr : tr.SpeciesID = g.species_id)
    (hne : g.species_id ≠ s)
    (hok : (processTransition vl g st tr).ok = true) :
    fixesSpecies s st (processTransition vl g st tr) := by
  unfold processTransition at hok ⊢
  dsimp only at hok ⊢
  by_cases hser : tr.SpeciesID ∈ st.errors
  · rw [if_pos hser]
    exact fixes_of_eq rfl rfl
  · rw [if_neg hser] at hok ⊢
    cases hup : lookupState g.states tr.UpperStateRef with
    | none =>
        cases hlow : lookupState g.states tr.LowerStateRef with
        | none => exact fixes_of_eq rfl rfl
        | some low => exact fixes_of_eq rfl rfl
    | some up =>
        rw [hup] at hok
        cases hlow : lookupState g.states tr.LowerStateRef with
        | none => exact fixes_of_eq rfl rfl
        | some low =>
            rw [hlow] at hok
            dsimp only at hok ⊢
            have htS : maskedOpt
                (if (vl up low).length = 0 then none
                 else some (vl up low)) := by
              by_cases hc : (vl up low).length = 0
              · rw [if_pos hc]
                exact maskedOpt_none
              · rw [if_neg hc]
                exact maskedOpt_some hc
            cases hacc : tr.FrequencyAccuracy with
            | none => exact fixes_of_eq rfl rfl
            | some unc =>
                rw [hacc] at hok
                dsimp only at hok ⊢
                cases hw : up.TotalStatisticalWeight with
                | none => exact fixes_of_eq rfl rfl
                | some w =>
                    rw [hw] at hok
                    dsimp only at hok ⊢
                    cases hnsi : up.NuclearSpinIsomerName.map pyStrip with
                    | none =>
                        exact insertBranch_fix _ _ _ _ _ _ _ _ _ _ _ _ s
                          hInv htr hne
                    | some s2 =>
                        rw [hnsi] at hok
                        dsimp only at hok ⊢
                        by_cases hse : s2 = ""
                        · rw [if_pos hse]
                          exact insertBranch_fix _ _ _ _ _ _ _ _ _ _ _ _
                            s hInv htr hne
                        · rw [if_neg hse] at hok ⊢
                          cases horig :
                              up.NuclearSpinIsomerLowestEnergy.bind
                                (lookupState g.states) with
                          | none => exact fixes_of_eq rfl rfl
                          | some origin =>
                              rw [horig] at hok
                              dsimp only at hok ⊢
                              have hok1 : (insertBranch g.species_id
                                  (pyStrip g.formula)
                                  (if (vl up low).length = 0 then none
                                   else some (vl up low))
                                  (hfsOf tr.ProcessClass) tr up low unc w
                                  origin.StateEnergyValue st
                                  (some s2)).ok = true := by
                                cases hb : (insertBranch g.species_id
                                    (pyStrip g.formula)
                                    (if (vl up low).length = 0 then none
                                     else some (vl up low))
                                    (hfsOf tr.ProcessClass) tr up low unc
                                    w origin.StateEnergyValue st
                                    (some s2)).ok with
                                | false =>
                                    exfalso
                                    rw [insertBranch_ok_false _ _ _ _ _ _
                                      _ _ _ _ _ _ hb] at hok
                                    cases hok
                                | true => rfl
                              have hInv1 := inv_insertBranch _ _ _ _ _ _
                                _ _ _ _ _ _ hInv
                                ⟨maskedOpt_some (length_ne_of_ne_empty hse),
                                  htS, hfsOf_masked tr.ProcessClass⟩ htr
                                hok1
                              exact fixes_trans
                                (insertBranch_fix _ _ _ _ _ _ _ _ _ _ _ _
                                  s hInv htr hne)
                                (insertBranch_fix _ _ _ _ _ _ _ _ _ _ _ _
                                  s hInv1 htr hne)

theorem fold_trans_fix (vl : RState → RState → String) (g : GroupInput)
    (l : List RTrans) (s : String)
    (hl : ∀ tr ∈ l, tr.SpeciesID = g.species_id)
    (hne : g.species_id ≠ s) :
    ∀ st : PassState, Inv st →
      (l.foldl (processTransition vl g) st).ok = true →
      fixesSpecies s st (l.foldl (processTransition vl g) st) := by
  induction l with
  | nil => exact fun st _ _ => fixes_of_eq rfl rfl
  | cons tr t ih =>
      intro st hInv hok
      rw [List.foldl_cons] at hok ⊢
      have hok1 : (processTransition vl g st tr).ok = true := by
        cases hb : (processTransition vl g st tr).ok with
        | false =>
            exfalso
            rw [fold_trans_ok_false vl g t _ hb] at hok
            cases hok
        | true => rfl
      exact fixes_trans
        (processTransition_fix vl g st tr s hInv
          (hl tr (List.mem_cons_self tr t)) hne hok1)
        (ih (fun tr2 h2 => hl tr2 (List.mem_cons_of_mem tr h2)) _
          (inv_processTransition vl g st tr hInv
            (hl tr (List.mem_cons_self tr t)) hok1) hok)

end Vamdclib

namespace Vamdclib

theorem set_status_none_map (cat : List PFRow) (now : Nat)
    (sid status : String) (hst : status ∈ STATI) :
    (set_status cat now sid status none).1 =
      cat.map (fun r =>
        if r.species_id = sid then
          { r with status := status, checkdate := now } else r) := by
  unfold set_status
  rw [if_pos hst]

theorem set_status_some_map (cat : List PFRow) (now : Nat)
    (sid status : String) (i : Int) (hst : status ∈ STATI) :
    (set_status cat now sid status (some i)).1 =
      cat.map (fun r =>
        if r.id = i then
          { r with status := status, checkdate := now } else r) := by
  unfold set_status
  rw [if_pos hst]

theorem maskedKey_species (r : PFRow) :
    (maskedKey r).species = r.species_id := rfl

/-- No row of a foreign species can carry the id stored in the
dictionary under a key of this species. -/
theorem dict_row_id_ne {acc : PassState} (hacc : Inv acc) {k : SIdx}
    {i : Int} (hd : dictGet acc.dict k = some i) {s : String}
    (hks : k.species ≠ s) :
    ∀ r ∈ acc.cat, r.species_id = s → r.id ≠ i := by
  intro r hr hs hri
  by_cases hp : 0 < i
  · obtain ⟨rr, hrr, hrrid, hrrkey⟩ := hacc.dRows k i hd hp
    have hre : r = rr := rows_id_inj hacc.idsNodup hr hrr
      (by rw [hri, hrrid])
    apply hks
    rw [← hrrkey, maskedKey_species, ← hre, hs]
  · have := hacc.idsPos r hr
    rw [hri] at this
    exact hp this

theorem fixes_set_uuid {s : String} {acc : PassState} (i : Int)
    (uuid : OStr) (hrow : ∀ r ∈ acc.cat, r.species_id = s → r.id ≠ i)
    {st2 : PassState} (hcat : st2.cat = set_uuid acc.cat i uuid)
    (htrs : ∀ t ∈ acc.trs, t ∈ st2.trs) : fixesSpecies s acc st2 := by
  cases uuid with
  | none => exact fixes_sup (by rw [hcat]; rfl) htrs
  | some u =>
      refine fixes_map (fun r =>
        if r.id = i then { r with uuid := some u } else r) ?_ ?_
        (by rw [hcat]; rfl) htrs
      · intro r hr hs
        dsimp only
        rw [if_neg (hrow r hr hs)]
      · intro r
        dsimp only
        split <;> rfl

theorem fixes_set_status_some {s : String} {acc : PassState}
    (now : Nat) (sid status : String) (i : Int) (hst : status ∈ STATI)
    (hrow : ∀ r ∈ acc.cat, r.species_id = s → r.id ≠ i)
    {st2 : PassState}
    (hcat : st2.cat = (set_status acc.cat now sid status (some i)).1)
    (htrs : ∀ t ∈ acc.trs, t ∈ st2.trs) : fixesSpecies s acc st2 := by
  refine fixes_map (fun r =>
    if r.id = i then { r with status := status, checkdate := now }
    else r) ?_ ?_ (by rw [hcat, set_status_some_map _ _ _ _ _ hst])
    htrs
  · intro r hr hs
    dsimp only
    rw [if_neg (hrow r hr hs)]
  · intro r
    dsimp only
    split <;> rfl

theorem fixes_set_status_none {s : String} {acc : PassState}
    (now : Nat) (sid status : String) (hst : status ∈ STATI)
    (hne : sid ≠ s) {st2 : PassState}
    (hcat : st2.cat = (set_status acc.cat now sid status none).1)
    (htrs : ∀ t ∈ acc.trs, t ∈ st2.trs) : fixesSpecies s acc st2 := by
  refine fixes_map (fun r =>
    if r.species_id = sid then
      { r with status := status, checkdate := now }
    else r) ?_ ?_ (by rw [hcat, set_status_none_map _ _ _ _ hst]) htrs
  · intro r hr hs
    dsimp only
    rw [if_neg]
    rw [hs]
    exact fun h => hne h.symm
  · intro r
    dsimp only
    split <;> rfl

theorem cleanup_fold_fix (now : Nat) (s : String) :
    ∀ (l : List String) (acc : PassState), Inv acc → (∀ e ∈ l, e ≠ s) →
      fixesSpecies s acc (l.foldl (fun acc sid =>
        { acc with
            trs := deleteTransOf acc.cat acc.trs sid
            cat := (set_status acc.cat now sid "Update Failed" none).1 })
        acc) := by
  intro l
  induction l with
  | nil => exact fun acc _ _ => fixes_of_eq rfl rfl
  | cons sid t ih =>
      intro acc hacc hl
      rw [List.foldl_cons]
      have hne : sid ≠ s := hl sid (List.mem_cons_self sid t)
      have hstep1 : fixesSpecies s acc
          { acc with trs := deleteTransOf acc.cat acc.trs sid } :=
        fixes_delete hacc.idsNodup hne rfl rfl
      have hstep2 : fixesSpecies s
          { acc with trs := deleteTransOf acc.cat acc.trs sid }
          { acc with
              trs := deleteTransOf acc.cat acc.trs sid
              cat := (set_status acc.cat now sid "Update Failed"
                none).1 } :=
        fixes_set_status_none now sid "Update Failed" (by decide) hne
          rfl (fun t2 ht2 => ht2)
      refine fixes_trans (fixes_trans hstep1 hstep2) (ih _ ?_
        (fun e he => hl e (List.mem_cons_of_mem sid he)))
      exact inv_set_status hacc now sid "Update Failed" none rfl
        (fun k => rfl) rfl

theorem cleanupErrors_fix (now : Nat) (s : String) (st : PassState)
    (hInv : Inv st) (hl : ∀ e ∈ st.errors, e ≠ s) :
    fixesSpecies s st (cleanupErrors now st) := by
  unfold cleanupErrors
  exact cleanup_fold_fix now s st.errors st hInv hl

theorem finish_fold_fix (now : Nat) (uuid : OStr) (s gsp : String)
    (hne : gsp ≠ s) :
    ∀ (l : List (SIdx × Nat)) (acc : PassState), Inv acc →
      (∀ p ∈ l, p.1.species = gsp) →
      fixesSpecies s acc (l.foldl (fun acc p =>
        if p.1.species ∈ acc.errors then acc
        else
          let acc2 := { acc with report := acc.report ++ [p] }
          match dictGet acc2.dict p.1 with
          | none => { acc2 with ok := false }
          | some i =>
              let cat := set_uuid acc2.cat i uuid
              let cat :=
                (set_status cat now p.1.species "Up-To-Date" (some i)).1
              { acc2 with cat := cat }) acc) := by
  intro l
  induction l with
  | nil => exact fun acc _ _ => fixes_of_eq rfl rfl
  | cons p t ih =>
      intro acc hacc hl
      have hps : p.1.species = gsp := hl p (List.mem_cons_self p t)
      have htl : ∀ q ∈ t, q.1.species = gsp :=
        fun q hq => hl q (List.mem_cons_of_mem p hq)
      rw [List.foldl_cons]
      dsimp only
      by_cases hmem : p.1.species ∈ acc.errors
      · rw [if_pos hmem]
        exact ih acc hacc htl
      · rw [if_neg hmem]
        cases hd : dictGet acc.dict p.1 with
        | none =>
            dsimp only
            have hInvN : Inv { acc with
                report := acc.report ++ [p]
                ok := false } :=
              inv_congr hacc rfl (fun k => rfl) rfl
            have hfixN : fixesSpecies s acc { acc with
                report := acc.report ++ [p]
                ok := false } := fixes_of_eq rfl rfl
            exact fixes_trans hfixN (ih _ hInvN htl)
        | some i =>
            dsimp only
            have hks : p.1.species ≠ s := by
              rw [hps]
              exact hne
            have hrow := dict_row_id_ne hacc hd hks
            have hfix1 : fixesSpecies s acc
                { acc with
                    report := acc.report ++ [p]
                    cat := set_uuid acc.cat i uuid } :=
              fixes_set_uuid i uuid hrow rfl (fun t2 ht2 => ht2)
            have hInv1 : Inv { acc with
                report := acc.report ++ [p]
                cat := set_uuid acc.cat i uuid } :=
              inv_set_uuid hacc i uuid rfl (fun k => rfl) rfl
            have hd1 : dictGet ({ acc with
                report := acc.report ++ [p]
                cat := set_uuid acc.cat i uuid } : PassState).dict p.1 =
                some i := hd
            have hrow1 := dict_row_id_ne hInv1 hd1 hks
            have hfix2 : fixesSpecies s
                { acc with
                    report := acc.report ++ [p]
                    cat := set_uuid acc.cat i uuid }
                { acc with
                    report := acc.report ++ [p]
                    cat := (set_status (set_uuid acc.cat i uuid) now
                      p.1.species "Up-To-Date" (some i)).1 } :=
              fixes_set_status_some now p.1.species "Up-To-Date" i
                (by decide) hrow1 rfl (fun t2 ht2 => ht2)
            have hInv2 : Inv { acc with
                report := acc.report ++ [p]
                cat := (set_status (set_uuid acc.cat i uuid) now
                  p.1.species "Up-To-Date" (some i)).1 } :=
              inv_set_status hInv1 now p.1.species "Up-To-Date" (some i)
                rfl (fun k => rfl) rfl
            exact fixes_trans (fixes_trans hfix1 hfix2) (ih _ hInv2 htl)

theorem finishProcessed_fix (now : Nat) (uuid : OStr) (s gsp : String)
    (hne : gsp ≠ s) (st : PassState) (hInv : Inv st)
    (hl : ∀ p ∈ st.processed, p.1.species = gsp) :
    fixesSpecies s st (finishProcessed now uuid st) := by
  unfold finishProcessed
  exact finish_fold_fix now uuid s gsp hne st.processed st hInv hl

end Vamdclib

namespace Vamdclib

theorem runGroup_fix (vl : RState → RState → String) (now : Nat)
    (st : PassState) (g : GroupInput) (s : String) (hInv : Inv st)
    (hg : ∀ tr ∈ g.transitions, tr.SpeciesID = g.species_id)
    (hne : g.species_id ≠ s) (hserr : s ∉ st.errors)
    (hok : (runGroup vl now st g).ok = true) :
    fixesSpecies s st (runGroup vl now st g) := by
  unfold runGroup at hok ⊢
  have hfixA : fixesSpecies s st
      { st with
          cat := markUpdating st.cat g.species_id,
          processed := ([] : List (SIdx × Nat)) } := by
    refine fixes_map (fun r =>
      if r.species_id = g.species_id ∧
         (r.status = "New" ∨ r.status = "Update Available" ∨
          r.status = "Update Failed") then
        { r with status := "Updating" } else r) ?_ ?_ rfl
      (fun t ht => ht)
    · intro r hr hs
      dsimp only
      rw [if_neg]
      intro hcond
      exact hne (hcond.1.symm.trans hs)
    · intro r
      dsimp only
      split <;> rfl
  have hInvA : Inv { st with
      cat := markUpdating st.cat g.species_id,
      processed := ([] : List (SIdx × Nat)) } :=
    inv_markUpdating hInv g.species_id rfl (fun k => rfl) rfl
  have hfixB : fixesSpecies s
      { st with
          cat := markUpdating st.cat g.species_id,
          processed := ([] : List (SIdx × Nat)) }
      { st with
          cat := markUpdating st.cat g.species_id,
          trs := deleteTransOf (markUpdating st.cat g.species_id) st.trs
            g.species_id,
          processed := [] } :=
    fixes_delete hInvA.idsNodup hne rfl rfl
  have hInv1 : Inv { st with
      cat := markUpdating st.cat g.species_id,
      trs := deleteTransOf (markUpdating st.cat g.species_id) st.trs
        g.species_id,
      processed := [] } :=
    inv_markUpdating hInv g.species_id rfl (fun k => rfl) rfl
  have hokf : (g.transitions.foldl (processTransition vl g)
      { st with
        cat := markUpdating st.cat g.species_id,
        trs := deleteTransOf (markUpdating st.cat g.species_id) st.trs
          g.species_id,
        processed := [] }).ok = true := by
    cases hb : (g.transitions.foldl (processTransition vl g)
        { st with
          cat := markUpdating st.cat g.species_id,
          trs := deleteTransOf (markUpdating st.cat g.species_id) st.trs
            g.species_id,
          processed := [] }).ok with
    | false =>
        exfalso
        have h1 : (cleanupErrors now (g.transitions.foldl
            (processTransition vl g)
            { st with
              cat := markUpdating st.cat g.species_id,
              trs := deleteTransOf (markUpdating st.cat g.species_id)
                st.trs g.species_id,
              processed := [] })).ok = false := by
          rw [cleanupErrors_ok]
          exact hb
        rw [finishProcessed_ok_false now g.uuid _ h1] at hok
        cases hok
    | true => rfl
  have hfix2 := fold_trans_fix vl g g.transitions s hg hne _ hInv1 hokf
  have hInv2 := fold_trans_inv vl g g.transitions hg _ hInv1 hokf
  have herrs : ∀ e ∈ (g.transitions.foldl (processTransition vl g)
      { st with
        cat := markUpdating st.cat g.species_id,
        trs := deleteTransOf (markUpdating st.cat g.species_id) st.trs
          g.species_id,
        processed := [] }).errors, e ≠ s := by
    intro e he
    rcases fold_trans_errors_sub vl g g.transitions hg _ e he with h | h
    · intro hes
      exact hserr (hes ▸ h)
    · rw [h]
      exact hne
  have hfix3 := cleanupErrors_fix now s _ hInv2 herrs
  have hInv3 := inv_cleanupErrors now _ hInv2
  have hl3 : ∀ p ∈ (cleanupErrors now (g.transitions.foldl
      (processTransition vl g)
      { st with
        cat := markUpdating st.cat g.species_id,
        trs := deleteTransOf (markUpdating st.cat g.species_id) st.trs
          g.species_id,
        processed := [] })).processed, p.1.species = g.species_id := by
    intro p hp
    rw [(cleanupErrors_frame now _).2.2.1] at hp
    exact fold_trans_processedSpecies vl g g.transitions g.species_id hg
      { st with
          cat := markUpdating st.cat g.species_id
          trs := deleteTransOf (markUpdating st.cat g.species_id) st.trs
            g.species_id
          processed := [] }
      (fun q hq => absurd hq (List.not_mem_nil q)) p hp
  have hfix4 := finishProcessed_fix now g.uuid s g.species_id hne _
    hInv3 hl3
  exact fixes_trans (fixes_trans (fixes_trans hfixA hfixB) hfix2)
    (fixes_trans hfix3 hfix4)

theorem fold_groups_fix (vl : RState → RState → String) (now : Nat)
    (l : List GroupInput) (s : String)
    (hl : ∀ g ∈ l, ∀ tr ∈ g.transitions, tr.SpeciesID = g.species_id)
    (hlne : ∀ g ∈ l, g.species_id ≠ s) :
    ∀ st : PassState, Inv st → s ∉ st.errors →
      (l.foldl (runGroup vl now) st).ok = true →
      fixesSpecies s st (l.foldl (runGroup vl now) st) := by
  induction l with
  | nil => exact fun st _ _ _ => fixes_of_eq rfl rfl
  | cons g t ih =>
      intro st hInv hserr hok
      rw [List.foldl_cons] at hok ⊢
      have hok1 : (runGroup vl now st g).ok = true := by
        cases hb : (runGroup vl now st g).ok with
        | false =>
            exfalso
            rw [fold_groups_ok_false vl now t _ hb] at hok
            cases hok
        | true => rfl
      have hgs := hl g (List.mem_cons_self g t)
      have hserr2 : s ∉ (runGroup vl now st g).errors := by
        intro hmem
        rcases runGroup_errors_sub vl now st g hgs s hmem with h | h
        · exact hserr h
        · exact hlne g (List.mem_cons_self g t) h.symm
      exact fixes_trans
        (runGroup_fix vl now st g s hInv hgs
          (hlne g (List.mem_cons_self g t)) hserr hok1)
        (ih (fun g2 h2 => hl g2 (List.mem_cons_of_mem g h2))
          (fun g2 h2 => hlne g2 (List.mem_cons_of_mem g h2)) _
          (inv_runGroup vl now st g hInv hgs hok1) hserr2 hok)

end Vamdclib

namespace Vamdclib

/-- Every row of this species is currently in status `Updating`. -/
def allUpd (s : String) (st : PassState) : Prop :=
  ∀ r ∈ st.cat, r.species_id = s → r.status = "Updating"

/-- The end state of a failed species: every row `Update Failed` and no
transition owned by any of its rows. -/
def quiet (s : String) (st : PassState) : Prop :=
  (∀ r ∈ st.cat, r.species_id = s → r.status = "Update Failed") ∧
  (∀ t ∈ st.trs, ∀ r ∈ st.cat, r.species_id = s → t.pf_id ≠ r.id)

theorem markUpdating_allUpd (cat : List PFRow) (s : String)
    (hcanon : ∀ r ∈ cat, r.species_id = s → canonStatus r.status) :
    ∀ r ∈ markUpdating cat s, r.species_id = s → r.status = "Updating" := by
  intro r2 hr2 hs
  unfold markUpdating at hr2
  obtain ⟨r, hr, he⟩ := List.mem_map.mp hr2
  have hsp : r.species_id = s := by
    rw [← hs, ← he]
    split <;> rfl
  rcases hcanon r hr hsp with h | h | h | h
  · rw [← he, if_pos ⟨hsp, Or.inl h⟩]
  · rw [← he, if_pos ⟨hsp, Or.inr (Or.inl h)⟩]
  · rw [← he, if_pos ⟨hsp, Or.inr (Or.inr h)⟩]
  · rw [← he, if_neg]
    · exact h
    · intro hcond
      rcases hcond.2 with h2 | h2 | h2 <;> rw [h] at h2 <;>
        exact absurd h2 (by decide)

theorem allUpd_map {s : String} {st : PassState} (f : PFRow → PFRow)
    (hsp : ∀ r, (f r).species_id = r.species_id)
    (hstat : ∀ r ∈ st.cat, r.species_id = s → (f r).status = r.status)
    {st2 : PassState} (hcat : st2.cat = st.cat.map f)
    (h : allUpd s st) : allUpd s st2 := by
  intro r2 hr2 hs
  rw [hcat] at hr2
  obtain ⟨r, hr, he⟩ := List.mem_map.mp hr2
  have hrs : r.species_id = s := by
    rw [← hs, ← he]
    exact (hsp r).symm
  rw [← he, hstat r hr hrs]
  exact h r hr hrs

theorem resolveId_allUpd (gs : String) (st : PassState) (sidx : SIdx)
    (h : allUpd gs st) : allUpd gs (resolveId gs st sidx).2 := by
  unfold resolveId
  cases h1 : dictGet st.dict sidx with
  | some i => exact h
  | none =>
      dsimp only
      cases h2 : dictGet st.dict ⟨sidx.species, sidx.nsi, none, none⟩ with
      | some i =>
          dsimp only
          by_cases hp : 0 < i
          · rw [if_pos hp]
            refine allUpd_map (fun r =>
              if r.id = i then
                { r with
                    vibstate := sidx.vib
                    hfs := sidx.hfs }
              else r) ?_ ?_ rfl h
            · intro r
              dsimp only
              split <;> rfl
            · intro r hr hrs
              dsimp only
              split <;> rfl
          · rw [if_neg hp]
            exact h
      | none =>
          dsimp only
          unfold doublicate_pf_entry_for_hfs
          cases h3 : st.cat.find? (fun r =>
              r.species_id = gs ∧ ifnull r.nsi = ifnull sidx.nsi) with
          | none => exact h
          | some base =>
              dsimp only
              intro r2 hr2 hs
              rcases List.mem_append.mp hr2 with hm | hm
              · exact h r2 hm hs
              · have hbase := List.find?_some h3
                simp only [decide_eq_true_eq] at hbase
                have hbm := List.mem_of_find?_eq_some h3
                rw [List.mem_singleton.mp hm]
                exact h base hbm hbase.1

theorem insertBranch_allUpd (gs tName : String) (tS tH : OStr)
    (tr : RTrans) (up low : RState) (unc : Rat) (w : Int) (off : Rat)
    (st : PassState) (nsiName : OStr)
    (h : allUpd gs st) :
    allUpd gs (insertBranch gs tName tS tH tr up low unc w off st
      nsiName) := by
  intro r hr hs
  rw [insertBranch_cat gs tName tS tH tr up low unc w off st nsiName]
    at hr
  exact resolveId_allUpd gs
    { st with
        processed := procInit st.processed
          ⟨tr.SpeciesID, nsiName, tS, tH⟩ }
    ⟨tr.SpeciesID, nsiName, tS, tH⟩ h r hr hs

theorem processTransition_allUpd (vl : RState → RState → String)
    (g : GroupInput) (st : PassState) (tr : RTrans)
    (h : allUpd g.species_id st) :
    allUpd g.species_id (processTransition vl g st tr) := by
  unfold processTransition
  dsimp only
  split
  · exact h
  · split
    · split
      · exact h
      · split
        · exact h
        · split
          · split
            · exact insertBranch_allUpd _ _ _ _ _ _ _ _ _ _ _ _ h
            · split
              · exact h
              · exact insertBranch_allUpd _ _ _ _ _ _ _ _ _ _ _ _
                  (insertBranch_allUpd _ _ _ _ _ _ _ _ _ _ _ _ h)
          · exact insertBranch_allUpd _ _ _ _ _ _ _ _ _ _ _ _ h
    · exact h

theorem fold_trans_allUpd (vl : RState → RState → String)
    (g : GroupInput) (l : List RTrans) :
    ∀ st : PassState, allUpd g.species_id st →
      allUpd g.species_id (l.foldl (processTransition vl g) st) := by
  induction l with
  | nil => exact fun st h => h
  | cons tr t ih =>
      intro st h
      rw [List.foldl_cons]
      exact ih _ (processTransition_allUpd vl g st tr h)

end Vamdclib

namespace Vamdclib

theorem quiet_map_fix {s : String} {st : PassState} (f : PFRow → PFRow)
    (hid : ∀ r, (f r).id = r.id)
    (hsp : ∀ r, (f r).species_id = r.species_id)
    (hstat : ∀ r ∈ st.cat, r.species_id = s → (f r).status = r.status)
    {st2 : PassState} (hcat : st2.cat = st.cat.map f)
    (htrs : ∀ t ∈ st2.trs, t ∈ st.trs) (hq : quiet s st) :
    quiet s st2 := by
  obtain ⟨h1, h2⟩ := hq
  constructor
  · intro r2 hr2 hs
    rw [hcat] at hr2
    obtain ⟨r, hr, he⟩ := List.mem_map.mp hr2
    have hrs : r.species_id = s := by
      rw [← hs, ← he]
      exact (hsp r).symm
    rw [← he, hstat r hr hrs]
    exact h1 r hr hrs
  · intro t ht r2 hr2 hs
    rw [hcat] at hr2
    obtain ⟨r, hr, he⟩ := List.mem_map.mp hr2
    have hrs : r.species_id = s := by
      rw [← hs, ← he]
      exact (hsp r).symm
    rw [← he, hid r]
    exact h2 t (htrs t ht) r hr hrs

theorem quiet_append {s : String} {st : PassState} {row : PFRow}
    (hrow : row.species_id ≠ s) {st2 : PassState}
    (hcat : st2.cat = st.cat ++ [row]) (htrs : st2.trs = st.trs)
    (hq : quiet s st) : quiet s st2 := by
  obtain ⟨h1, h2⟩ := hq
  constructor
  · intro r hr hs
    rw [hcat] at hr
    rcases List.mem_append.mp hr with h | h
    · exact h1 r h hs
    · exact absurd (List.mem_singleton.mp h ▸ hs) hrow
  · intro t ht r hr hs
    rw [htrs] at ht
    rw [hcat] at hr
    rcases List.mem_append.mp hr with h | h
    · exact h2 t ht r h hs
    · exact absurd (List.mem_singleton.mp h ▸ hs) hrow

theorem quiet_of_eq {s : String} {st st2 : PassState}
    (hcat : st2.cat = st.cat) (htrs : st2.trs = st.trs)
    (hq : quiet s st) : quiet s st2 := by
  obtain ⟨h1, h2⟩ := hq
  constructor
  · intro r hr hs
    rw [hcat] at hr
    exact h1 r hr hs
  · intro t ht r hr hs
    rw [htrs] at ht
    rw [hcat] at hr
    exact h2 t ht r hr hs

/-- One pass of the error-cleanup loop keeps a species quiet, whichever
species it treats. -/
theorem cleanup_step_quiet {s : String} (now : Nat) (sid : String)
    {acc : PassState} (hq : quiet s acc) :
    quiet s
      { acc with
          trs := deleteTransOf acc.cat acc.trs sid
          cat := (set_status acc.cat now sid "Update Failed" none).1 } := by
  obtain ⟨h1, h2⟩ := hq
  rw [set_status_none_map _ _ _ _ (by decide)]
  constructor
  · intro r2 hr2 hs
    obtain ⟨r, hr, he⟩ := List.mem_map.mp hr2
    have hrs : r.species_id = s := by
      rw [← hs, ← he]
      split <;> rfl
    by_cases hc : r.species_id = sid
    · rw [← he, if_pos hc]
    · rw [← he, if_neg hc]
      exact h1 r hr hrs
  · intro t ht r2 hr2 hs
    obtain ⟨r, hr, he⟩ := List.mem_map.mp hr2
    have hrs : r.species_id = s := by
      rw [← hs, ← he]
      split <;> rfl
    have hid : r2.id = r.id := by
      rw [← he]
      split <;> rfl
    rw [hid]
    have ht2 : t ∈ acc.trs := by
      unfold deleteTransOf at ht
      exact (List.mem_filter.mp ht).1
    exact h2 t ht2 r hr hrs

/-- The cleanup pass for the species itself: from all-`Updating` to
quiet. -/
theorem cleanup_step_est {s : String} (now : Nat) {acc : PassState}
    (hall : allUpd s acc) :
    quiet s
      { acc with
          trs := deleteTransOf acc.cat acc.trs s
          cat := (set_status acc.cat now s "Update Failed" none).1 } := by
  rw [set_status_none_map _ _ _ _ (by decide)]
  constructor
  · intro r2 hr2 hs
    obtain ⟨r, hr, he⟩ := List.mem_map.mp hr2
    have hrs : r.species_id = s := by
      rw [← hs, ← he]
      split <;> rfl
    rw [← he, if_pos hrs]
  · intro t ht r2 hr2 hs
    obtain ⟨r, hr, he⟩ := List.mem_map.mp hr2
    have hrs : r.species_id = s := by
      rw [← hs, ← he]
      split <;> rfl
    have hid : r2.id = r.id := by
      rw [← he]
      split <;> rfl
    rw [hid]
    have hmem := List.mem_filter.mp ht
    have hnot := hmem.2
    simp only [decide_eq_true_eq, Decidable.not_not] at hnot
    intro hpe
    apply hnot
    unfold updatingIds
    refine List.mem_map.mpr ⟨r, ?_, hpe.symm ▸ rfl⟩
    refine List.mem_filter.mpr ⟨hr, ?_⟩
    simp only [decide_eq_true_eq]
    exact ⟨hrs, hall r hr hrs⟩

theorem cleanup_step_allUpd {s : String} (now : Nat) (sid : String)
    (hne : sid ≠ s) {acc : PassState} (hall : allUpd s acc) :
    allUpd s
      { acc with
          trs := deleteTransOf acc.cat acc.trs sid
          cat := (set_status acc.cat now sid "Update Failed" none).1 } := by
  rw [set_status_none_map _ _ _ _ (by decide)]
  refine allUpd_map _ ?_ ?_ rfl hall
  · intro r
    split <;> rfl
  · intro r hr hrs
    rw [if_neg (fun hcon => hne (hcon.symm.trans hrs))]

theorem cleanup_fold_quiet (now : Nat) (s : String) :
    ∀ (l : List String) (acc : PassState),
      ((allUpd s acc ∧ s ∈ l) ∨ quiet s acc) →
      quiet s (l.foldl (fun acc sid =>
        { acc with
            trs := deleteTransOf acc.cat acc.trs sid
            cat := (set_status acc.cat now sid "Update Failed" none).1 })
        acc) := by
  intro l
  induction l with
  | nil =>
      intro acc h
      rcases h with ⟨_, hmem⟩ | hq
      · exact absurd hmem (List.not_mem_nil s)
      · exact hq
  | cons sid t ih =>
      intro acc h
      rw [List.foldl_cons]
      rcases h with ⟨hall, hmem⟩ | hq
      · by_cases hse : sid = s
        · refine ih _ (Or.inr ?_)
          rw [hse]
          exact cleanup_step_est now hall
        · rcases List.mem_cons.mp hmem with h1 | h1
          · exact absurd h1.symm hse
          · exact ih _ (Or.inl ⟨cleanup_step_allUpd now sid hse hall, h1⟩)
      · exact ih _ (Or.inr (cleanup_step_quiet now sid hq))

theorem cleanupErrors_quiet_est (now : Nat) (s : String)
    (st : PassState) (hmem : s ∈ st.errors) (hall : allUpd s st) :
    quiet s (cleanupErrors now st) := by
  unfold cleanupErrors
  exact cleanup_fold_quiet now s st.errors st (Or.inl ⟨hall, hmem⟩)

theorem cleanupErrors_quiet_pres (now : Nat) (s : String)
    (st : PassState) (hq : quiet s st) :
    quiet s (cleanupErrors now st) := by
  unfold cleanupErrors
  exact cleanup_fold_quiet now s st.errors st (Or.inr hq)

theorem finishProcessed_skip (now : Nat) (uuid : OStr) (st : PassState)
    (h : ∀ p ∈ st.processed, p.1.species ∈ st.errors) :
    finishProcessed now uuid st = st := by
  unfold finishProcessed
  have : ∀ (l : List (SIdx × Nat)) (acc : PassState),
      (∀ p ∈ l, p.1.species ∈ acc.errors) →
      (l.foldl (fun acc p =>
        if p.1.species ∈ acc.errors then acc
        else
          let acc2 := { acc with report := acc.report ++ [p] }
          match dictGet acc2.dict p.1 with
          | none => { acc2 with ok := false }
          | some i =>
              let cat := set_uuid acc2.cat i uuid
              let cat :=
                (set_status cat now p.1.species "Up-To-Date" (some i)).1
              { acc2 with cat := cat }) acc) = acc := by
    intro l
    induction l with
    | nil => exact fun acc _ => rfl
    | cons p t ih =>
        intro acc hl
        rw [List.foldl_cons]
        have hstep : (if p.1.species ∈ acc.errors then acc
            else
              let acc2 := { acc with report := acc.report ++ [p] }
              match dictGet acc2.dict p.1 with
              | none => { acc2 with ok := false }
              | some i =>
                  let cat := set_uuid acc2.cat i uuid
                  let cat :=
                    (set_status cat now p.1.species "Up-To-Date"
                      (some i)).1
                  { acc2 with cat := cat }) = acc := by
          rw [if_pos (hl p (List.mem_cons_self p t))]
        rw [hstep]
        exact ih acc (fun q hq => hl q (List.mem_cons_of_mem p hq))
  exact this st.processed st h

end Vamdclib

namespace Vamdclib

theorem resolveId_quiet (gs : String) (st : PassState) (sidx : SIdx)
    (s : String) (hne : gs ≠ s) (hq : quiet s st) :
    quiet s (resolveId gs st sidx).2 := by
  unfold resolveId
  cases h1 : dictGet st.dict sidx with
  | some i => exact hq
  | none =>
      dsimp only
      cases h2 : dictGet st.dict ⟨sidx.species, sidx.nsi, none, none⟩ with
      | some i =>
          dsimp only
          by_cases hp : 0 < i
          · rw [if_pos hp]
            refine quiet_map_fix (fun r =>
              if r.id = i then
                { r with
                    vibstate := sidx.vib
                    hfs := sidx.hfs }
              else r) ?_ ?_ ?_ rfl (fun t ht => ht) hq
            · intro r
              dsimp only
              split <;> rfl
            · intro r
              dsimp only
              split <;> rfl
            · intro r hr hrs
              dsimp only
              split <;> rfl
          · rw [if_neg hp]
            exact hq
      | none =>
          dsimp only
          unfold doublicate_pf_entry_for_hfs
          cases h3 : st.cat.find? (fun r =>
              r.species_id = gs ∧ ifnull r.nsi = ifnull sidx.nsi) with
          | none => exact hq
          | some base =>
              dsimp only
              have hbase := List.find?_some h3
              simp only [decide_eq_true_eq] at hbase
              refine quiet_append ?_ rfl rfl hq
              show base.species_id ≠ s
              rw [hbase.1]
              exact hne

theorem resolveId_dict_self (gs : String) (st : PassState) (sidx : SIdx)
    (hok : (resolveId gs st sidx).2.ok = true)
    (hpos : 0 < (resolveId gs st sidx).1) :
    dictGet (resolveId gs st sidx).2.dict sidx =
      some (resolveId gs st sidx).1 := by
  unfold resolveId at hok hpos ⊢
  cases h1 : dictGet st.dict sidx with
  | some i => exact h1
  | none =>
      rw [h1] at hok hpos
      dsimp only at hok hpos ⊢
      cases h2 : dictGet st.dict ⟨sidx.species, sidx.nsi, none, none⟩ with
      | some i =>
          rw [h2] at hok hpos
          dsimp only at hok hpos ⊢
          by_cases hp : 0 < i
          · rw [if_pos hp] at hpos ⊢
            exact dictGet_insert_self _ _ _
          · rw [if_neg hp] at hpos
            exact absurd hpos hp
      | none =>
          rw [h2] at hok hpos
          dsimp only at hok hpos ⊢
          unfold doublicate_pf_entry_for_hfs at hok hpos ⊢
          cases h3 : st.cat.find? (fun r =>
              r.species_id = gs ∧ ifnull r.nsi = ifnull sidx.nsi) with
          | none =>
              rw [h3] at hok
              cases hok
          | some base =>
              exact dictGet_insert_self _ _ _

theorem insertBranch_quiet (gs tName : String) (tS tH : OStr)
    (tr : RTrans) (up low : RState) (unc : Rat) (w : Int) (off : Rat)
    (st : PassState) (nsiName : OStr) (s : String) (hInv : Inv st)
    (hmask : maskedIdx ⟨tr.SpeciesID, nsiName, tS, tH⟩)
    (hsp : tr.SpeciesID = gs) (hne : gs ≠ s) (hq : quiet s st)
    (hok : (insertBranch gs tName tS tH tr up low unc w off st
      nsiName).ok = true) :
    quiet s
      (insertBranch gs tName tS tH tr up low unc w off st nsiName) := by
  have hInv1 : Inv { st with
      processed := procInit st.processed
        ⟨tr.SpeciesID, nsiName, tS, tH⟩ } :=
    inv_congr hInv rfl (fun k => rfl) rfl
  have hokr : (resolveId gs
      { st with
          processed := procInit st.processed
            ⟨tr.SpeciesID, nsiName, tS, tH⟩ }
      ⟨tr.SpeciesID, nsiName, tS, tH⟩).2.ok = true := by
    rw [← insertBranch_ok gs tName tS tH tr up low unc w off st nsiName]
    exact hok
  have hInvR := inv_resolveId gs
    { st with
        processed := procInit st.processed
          ⟨tr.SpeciesID, nsiName, tS, tH⟩ }
    ⟨tr.SpeciesID, nsiName, tS, tH⟩ hInv1 hmask hsp hokr
  have hqR : quiet s (resolveId gs
      { st with
          processed := procInit st.processed
            ⟨tr.SpeciesID, nsiName, tS, tH⟩ }
      ⟨tr.SpeciesID, nsiName, tS, tH⟩).2 :=
    resolveId_quiet gs _ _ s hne (quiet_of_eq rfl rfl hq)
  unfold insertBranch
  dsimp only
  split
  · exact hqR
  · rename_i hnneg
    obtain ⟨hq1, hq2⟩ := hqR
    constructor
    · exact hq1
    · intro t ht r hr hs
      rcases List.mem_append.mp ht with hto | htn
      · exact hq2 t hto r hr hs
      · rw [List.mem_singleton.mp htn]
        show (resolveId gs _ _).1 ≠ r.id
        by_cases hdb : 0 < (resolveId gs
            { st with
                processed := procInit st.processed
                  ⟨tr.SpeciesID, nsiName, tS, tH⟩ }
            ⟨tr.SpeciesID, nsiName, tS, tH⟩).1
        · have hd := resolveId_dict_self gs _ _ hokr hdb
          have := dict_row_id_ne hInvR hd
            (show (⟨tr.SpeciesID, nsiName, tS, tH⟩ : SIdx).species ≠ s
             from hsp ▸ hne) r hr hs
          exact fun he => this he.symm
        · have h0 : (resolveId gs
              { st with
                  processed := procInit st.processed
                    ⟨tr.SpeciesID, nsiName, tS, tH⟩ }
              ⟨tr.SpeciesID, nsiName, tS, tH⟩).1 = 0 := by
            omega
          rw [h0]
          have := hInvR.idsPos r hr
          omega

theorem processTransition_quiet (vl : RState → RState → String)
    (g : GroupInput) (st : PassState) (tr : RTrans) (s : String)
    (hInv : Inv st) (htr : tr.SpeciesID = g.species_id)
    (hne : g.species_id ≠ s) (hq : quiet s st)
    (hok : (processTransition vl g st tr).ok = true) :
    quiet s (processTransition vl g st tr) := by
  unfold processTransition at hok ⊢
  dsimp only at hok ⊢
  by_cases hser : tr.SpeciesID ∈ st.errors
  · rw [if_pos hser]
    exact hq
  · rw [if_neg hser] at hok ⊢
    cases hup : lookupState g.states tr.UpperStateRef with
    | none =>
        cases hlow : lookupState g.states tr.LowerStateRef with
        | none => exact quiet_of_eq rfl rfl hq
        | some low => exact quiet_of_eq rfl rfl hq
    | some up =>
        rw [hup] at hok
        cases hlow : lookupState g.states tr.LowerStateRef with
        | none => exact quiet_of_eq rfl rfl hq
        | some low =>
            rw [hlow] at hok
            dsimp only at hok ⊢
            have htS : maskedOpt
                (if (vl up low).length = 0 then none
                 else some (vl up low)) := by
              by_cases hc : (vl up low).length = 0
              · rw [if_pos hc]
                exact maskedOpt_none
              · rw [if_neg hc]
                exact maskedOpt_some hc
            cases hacc : tr.FrequencyAccuracy with
            | none => exact quiet_of_eq rfl rfl hq
            | some unc =>
                rw [hacc] at hok
                dsimp only at hok ⊢
                cases hw : up.TotalStatisticalWeight with
                | none => exact quiet_of_eq rfl rfl hq
                | some w =>
                    rw [hw] at hok
                    dsimp only at hok ⊢
                    cases hnsi : up.NuclearSpinIsomerName.map pyStrip with
                    | none =>
                        rw [hnsi] at hok
                        dsimp only at hok
                        exact insertBranch_quiet _ _ _ _ _ _ _ _ _ _ _ _
                          s hInv ⟨maskedOpt_none, htS,
                            hfsOf_masked tr.ProcessClass⟩ htr hne hq hok
                    | some s2 =>
                        rw [hnsi] at hok
                        dsimp only at hok ⊢
                        by_cases hse : s2 = ""
                        · rw [if_pos hse] at hok ⊢
                          exact insertBranch_quiet _ _ _ _ _ _ _ _ _ _ _
                            _ s hInv ⟨maskedOpt_none, htS,
                              hfsOf_masked tr.ProcessClass⟩ htr hne hq
                            hok
                        · rw [if_neg hse] at hok ⊢
                          cases horig :
                              up.NuclearSpinIsomerLowestEnergy.bind
                                (lookupState g.states) with
                          | none => exact quiet_of_eq rfl rfl hq
                          | some origin =>
                              rw [horig] at hok
                              dsimp only at hok ⊢
                              have hok1 : (insertBranch g.species_id
                                  (pyStrip g.formula)
                                  (if (vl up low).length = 0 then none
                                   else some (vl up low))
                                  (hfsOf tr.ProcessClass) tr up low unc w
                                  origin.StateEnergyValue st
                                  (some s2)).ok = true := by
                                cases hb : (insertBranch g.species_id
                                    (pyStrip g.formula)
                                    (if (vl up low).length = 0 then none
                                     else some (vl up low))
                                    (hfsOf tr.ProcessClass) tr up low unc
                                    w origin.StateEnergyValue st
                                    (some s2)).ok with
                                | false =>
                                    exfalso
                                    rw [insertBranch_ok_false _ _ _ _ _ _
                                      _ _ _ _ _ _ hb] at hok
                                    cases hok
                                | true => rfl
                              have hInv1 := inv_insertBranch _ _ _ _ _ _
                                _ _ _ _ _ _ hInv
                                ⟨maskedOpt_some (length_ne_of_ne_empty hse),
                                  htS, hfsOf_masked tr.ProcessClass⟩ htr
                                hok1
                              have hq1 := insertBranch_quiet _ _ _ _ _ _
                                _ _ _ _ _ _ s hInv
                                ⟨maskedOpt_some (length_ne_of_ne_empty hse),
                                  htS, hfsOf_masked tr.ProcessClass⟩ htr
                                hne hq hok1
                              exact insertBranch_quiet _ _ _ _ _ _ _ _ _
                                _ _ _ s hInv1 ⟨maskedOpt_none, htS,
                                  hfsOf_masked tr.ProcessClass⟩ htr hne
                                hq1 hok

theorem fold_trans_quiet (vl : RState → RState → String) (g : GroupInput)
    (l : List RTrans) (s : String)
    (hl : ∀ tr ∈ l, tr.SpeciesID = g.species_id)
    (hne : g.species_id ≠ s) :
    ∀ st : PassState, Inv st → quiet s st →
      (l.foldl (processTransition vl g) st).ok = true →
      quiet s (l.foldl (processTransition vl g) st) := by
  induction l with
  | nil => exact fun st _ hq _ => hq
  | cons tr t ih =>
      intro st hInv hq hok
      rw [List.foldl_cons] at hok ⊢
      have hok1 : (processTransition vl g st tr).ok = true := by
        cases hb : (processTransition vl g st tr).ok with
        | false =>
            exfalso
            rw [fold_trans_ok_false vl g t _ hb] at hok
            cases hok
        | true => rfl
      exact ih (fun tr2 h2 => hl tr2 (List.mem_cons_of_mem tr h2)) _
        (inv_processTransition vl g st tr hInv
          (hl tr (List.mem_cons_self tr t)) hok1)
        (processTransition_quiet vl g st tr s hInv
          (hl tr (List.mem_cons_self tr t)) hne hq hok1) hok

end Vamdclib

namespace Vamdclib

theorem finish_fold_quiet (now : Nat) (uuid : OStr) (s : String) :
    ∀ (l : List (SIdx × Nat)) (acc : PassState), Inv acc →
      s ∈ acc.errors → quiet s acc →
      quiet s (l.foldl (fun acc p =>
        if p.1.species ∈ acc.errors then acc
        else
          let acc2 := { acc with report := acc.report ++ [p] }
          match dictGet acc2.dict p.1 with
          | none => { acc2 with ok := false }
          | some i =>
              let cat := set_uuid acc2.cat i uuid
              let cat :=
                (set_status cat now p.1.species "Up-To-Date" (some i)).1
              { acc2 with cat := cat }) acc) := by
  intro l
  induction l with
  | nil => exact fun acc _ _ hq => hq
  | cons p t ih =>
      intro acc hacc hmem hq
      rw [List.foldl_cons]
      dsimp only
      by_cases hpm : p.1.species ∈ acc.errors
      · rw [if_pos hpm]
        exact ih acc hacc hmem hq
      · rw [if_neg hpm]
        cases hd : dictGet acc.dict p.1 with
        | none =>
            dsimp only
            refine ih _ (inv_congr hacc rfl (fun k => rfl) rfl) hmem
              (quiet_of_eq rfl rfl hq)
        | some i =>
            dsimp only
            have hks : p.1.species ≠ s := fun he => hpm (he ▸ hmem)
            have hrow := dict_row_id_ne hacc hd hks
            have hInv1 : Inv { acc with
                report := acc.report ++ [p]
                cat := set_uuid acc.cat i uuid } :=
              inv_set_uuid hacc i uuid rfl (fun k => rfl) rfl
            have hq1 : quiet s { acc with
                report := acc.report ++ [p]
                cat := set_uuid acc.cat i uuid } := by
              cases huu : uuid with
              | none => exact quiet_of_eq rfl rfl hq
              | some u =>
                  refine quiet_map_fix (fun r =>
                    if r.id = i then { r with uuid := some u } else r)
                    ?_ ?_ ?_ rfl (fun t2 ht2 => ht2) hq
                  · intro r
                    dsimp only
                    split <;> rfl
                  · intro r
                    dsimp only
                    split <;> rfl
                  · intro r hr hrs
                    dsimp only
                    split <;> rfl
            have hd1 : dictGet ({ acc with
                report := acc.report ++ [p]
                cat := set_uuid acc.cat i uuid } : PassState).dict p.1 =
                some i := hd
            have hrow1 := dict_row_id_ne hInv1 hd1 hks
            have hq2 : quiet s { acc with
                report := acc.report ++ [p]
                cat := (set_status (set_uuid acc.cat i uuid) now
                  p.1.species "Up-To-Date" (some i)).1 } := by
              refine quiet_map_fix (fun r =>
                if r.id = i then
                  { r with status := "Up-To-Date", checkdate := now }
                else r) ?_ ?_ ?_ ?_ ?_ hq1
              · intro r
                dsimp only
                split <;> rfl
              · intro r
                dsimp only
                split <;> rfl
              · intro r hr hrs
                dsimp only
                rw [if_neg (hrow1 r hr hrs)]
              · rw [set_status_some_map _ _ _ _ _ (by decide)]
              · exact fun t2 ht2 => ht2
            have hInv2 : Inv { acc with
                report := acc.report ++ [p]
                cat := (set_status (set_uuid acc.cat i uuid) now
                  p.1.species "Up-To-Date" (some i)).1 } :=
              inv_set_status hInv1 now p.1.species "Up-To-Date" (some i)
                rfl (fun k => rfl) rfl
            exact ih _ hInv2 hmem hq2

theorem finishProcessed_quiet (now : Nat) (uuid : OStr) (s : String)
    (st : PassState) (hInv : Inv st) (hmem : s ∈ st.errors)
    (hq : quiet s st) : quiet s (finishProcessed now uuid st) := by
  unfold finishProcessed
  exact finish_fold_quiet now uuid s st.processed st hInv hmem hq

/-- A group with a failing transition ends quiet: every row of the
species `Update Failed`, no transition owned by any of its rows, and
the species in the error list. -/
theorem runGroup_failed (vl : RState → RState → String) (now : Nat)
    (st : PassState) (g : GroupInput)
    (hg : ∀ tr ∈ g.transitions, tr.SpeciesID = g.species_id)
    (hcanon : ∀ r ∈ st.cat, r.species_id = g.species_id →
      canonStatus r.status)
    (tr0 : RTrans) (h0 : tr0 ∈ g.transitions)
    (hf : transFails g.states tr0 = true) :
    quiet g.species_id (runGroup vl now st g) ∧
      g.species_id ∈ (runGroup vl now st g).errors := by
  constructor
  · unfold runGroup
    have hall1 : allUpd g.species_id
        { st with
            cat := markUpdating st.cat g.species_id,
            trs := deleteTransOf (markUpdating st.cat g.species_id)
              st.trs g.species_id,
            processed := [] } :=
      fun r hr hs => markUpdating_allUpd st.cat g.species_id hcanon r hr
        hs
    have hall2 := fold_trans_allUpd vl g g.transitions _ hall1
    have hmem2 := fold_trans_fail_mem vl g g.transitions hg tr0 h0 hf
      { st with
          cat := markUpdating st.cat g.species_id,
          trs := deleteTransOf (markUpdating st.cat g.species_id) st.trs
            g.species_id,
          processed := [] }
    have hq3 := cleanupErrors_quiet_est now g.species_id _ hmem2 hall2
    have hmem3 : g.species_id ∈ (cleanupErrors now
        (g.transitions.foldl (processTransition vl g)
          { st with
              cat := markUpdating st.cat g.species_id,
              trs := deleteTransOf (markUpdating st.cat g.species_id)
                st.trs g.species_id,
              processed := [] })).errors := by
      rw [(cleanupErrors_frame now _).1]
      exact hmem2
    have hps : ∀ p ∈ (cleanupErrors now
        (g.transitions.foldl (processTransition vl g)
          { st with
              cat := markUpdating st.cat g.species_id,
              trs := deleteTransOf (markUpdating st.cat g.species_id)
                st.trs g.species_id,
              processed := [] })).processed,
        p.1.species ∈ (cleanupErrors now
          (g.transitions.foldl (processTransition vl g)
            { st with
                cat := markUpdating st.cat g.species_id,
                trs := deleteTransOf (markUpdating st.cat g.species_id)
                  st.trs g.species_id,
                processed := [] })).errors := by
      intro p hp
      rw [(cleanupErrors_frame now _).2.2.1] at hp
      have := fold_trans_processedSpecies vl g g.transitions
        g.species_id hg
        { st with
            cat := markUpdating st.cat g.species_id
            trs := deleteTransOf (markUpdating st.cat g.species_id)
              st.trs g.species_id
            processed := [] }
        (fun q hq => absurd hq (List.not_mem_nil q)) p hp
      rw [this]
      exact hmem3
    rw [finishProcessed_skip now g.uuid _ hps]
    exact hq3
  · exact runGroup_fail_mem vl now st g hg tr0 h0 hf

/-- A later group leaves a quiet failed species quiet. -/
theorem runGroup_quiet (vl : RState → RState → String) (now : Nat)
    (st : PassState) (g : GroupInput) (s : String) (hInv : Inv st)
    (hg : ∀ tr ∈ g.transitions, tr.SpeciesID = g.species_id)
    (hne : g.species_id ≠ s) (hmem : s ∈ st.errors) (hq : quiet s st)
    (hok : (runGroup vl now st g).ok = true) :
    quiet s (runGroup vl now st g) := by
  unfold runGroup at hok ⊢
  have hq1 : quiet s
      { st with
          cat := markUpdating st.cat g.species_id,
          trs := deleteTransOf (markUpdating st.cat g.species_id) st.trs
            g.species_id,
          processed := [] } := by
    refine quiet_map_fix (fun r =>
      if r.species_id = g.species_id ∧
         (r.status = "New" ∨ r.status = "Update Available" ∨
          r.status = "Update Failed") then
        { r with status := "Updating" } else r) ?_ ?_ ?_ rfl
      (fun t2 ht2 => (List.mem_filter.mp ht2).1) hq
    · intro r
      dsimp only
      split <;> rfl
    · intro r
      dsimp only
      split <;> rfl
    · intro r hr hrs
      dsimp only
      rw [if_neg (fun hcon => hne (hcon.1.symm.trans hrs))]
  have hInv1 : Inv { st with
      cat := markUpdating st.cat g.species_id,
      trs := deleteTransOf (markUpdating st.cat g.species_id) st.trs
        g.species_id,
      processed := [] } :=
    inv_markUpdating hInv g.species_id rfl (fun k => rfl) rfl
  have hokf : (g.transitions.foldl (processTransition vl g)
      { st with
        cat := markUpdating st.cat g.species_id,
        trs := deleteTransOf (markUpdating st.cat g.species_id) st.trs
          g.species_id,
        processed := [] }).ok = true := by
    cases hb : (g.transitions.foldl (processTransition vl g)
        { st with
          cat := markUpdating st.cat g.species_id,
          trs := deleteTransOf (markUpdating st.cat g.species_id) st.trs
            g.species_id,
          processed := [] }).ok with
    | false =>
        exfalso
        have h1 : (cleanupErrors now (g.transitions.foldl
            (processTransition vl g)
            { st with
              cat := markUpdating st.cat g.species_id,
              trs := deleteTransOf (markUpdating st.cat g.species_id)
                st.trs g.species_id,
              processed := [] })).ok = false := by
          rw [cleanupErrors_ok]
          exact hb
        rw [finishProcessed_ok_false now g.uuid _ h1] at hok
        cases hok
    | true => rfl
  have hq2 := fold_trans_quiet vl g g.transitions s hg hne _ hInv1 hq1
    hokf
  have hInv2 := fold_trans_inv vl g g.transitions hg _ hInv1 hokf
  have hmem2 := fold_trans_errors_mono vl g g.transitions
    { st with
        cat := markUpdating st.cat g.species_id
        trs := deleteTransOf (markUpdating st.cat g.species_id) st.trs
          g.species_id
        processed := [] } s hmem
  have hq3 := cleanupErrors_quiet_pres now s _ hq2
  have hInv3 := inv_cleanupErrors now _ hInv2
  have hmem3 : s ∈ (cleanupErrors now (g.transitions.foldl
      (processTransition vl g)
      { st with
        cat := markUpdating st.cat g.species_id,
        trs := deleteTransOf (markUpdating st.cat g.species_id) st.trs
          g.species_id,
        processed := [] })).errors := by
    rw [(cleanupErrors_frame now _).1]
    exact hmem2
  exact finishProcessed_quiet now g.uuid s _ hInv3 hmem3 hq3

theorem fold_groups_quiet (vl : RState → RState → String) (now : Nat)
    (l : List GroupInput) (s : String)
    (hl : ∀ g ∈ l, ∀ tr ∈ g.transitions, tr.SpeciesID = g.species_id)
    (hlne : ∀ g ∈ l, g.species_id ≠ s) :
    ∀ st : PassState, Inv st → s ∈ st.errors → quiet s st →
      (l.foldl (runGroup vl now) st).ok = true →
      quiet s (l.foldl (runGroup vl now) st) := by
  induction l with
  | nil => exact fun st _ _ hq _ => hq
  | cons g t ih =>
      intro st hInv hmem hq hok
      rw [List.foldl_cons] at hok ⊢
      have hok1 : (runGroup vl now st g).ok = true := by
        cases hb : (runGroup vl now st g).ok with
        | false =>
            exfalso
            rw [fold_groups_ok_false vl now t _ hb] at hok
            cases hok
        | true => rfl
      have hgs := hl g (List.mem_cons_self g t)
      exact ih (fun g2 h2 => hl g2 (List.mem_cons_of_mem g h2))
        (fun g2 h2 => hlne g2 (List.mem_cons_of_mem g h2)) _
        (inv_runGroup vl now st g hInv hgs hok1)
        (runGroup_errors_mono vl now st g s hmem)
        (runGroup_quiet vl now st g s hInv hgs
          (hlne g (List.mem_cons_self g t)) hmem hq hok1) hok

end Vamdclib

namespace Vamdclib

/-- A Species Record carrying the query UUID and status `Up-To-Date`. -/
def stamped (i : Int) (sp : String) (uuid : OStr)
    (cat : List PFRow) : Prop :=
  ∃ r ∈ cat, r.id = i ∧ r.species_id = sp ∧ r.uuid = uuid ∧
    r.status = "Up-To-Date"

theorem finish_fold_ok_false (now : Nat) (uuid : OStr) :
    ∀ (l : List (SIdx × Nat)) (acc : PassState), acc.ok = false →
      (l.foldl (fun acc p =>
        if p.1.species ∈ acc.errors then acc
        else
          let acc2 := { acc with report := acc.report ++ [p] }
          match dictGet acc2.dict p.1 with
          | none => { acc2 with ok := false }
          | some i =>
              let cat := set_uuid acc2.cat i uuid
              let cat :=
                (set_status cat now p.1.species "Up-To-Date" (some i)).1
              { acc2 with cat := cat }) acc).ok = false := by
  intro l
  induction l with
  | nil => exact fun acc h => h
  | cons p t ih =>
      intro acc h
      rw [List.foldl_cons]
      refine ih _ ?_
      dsimp only
      split
      · exact h
      · cases hd : dictGet acc.dict p.1 with
        | none => rfl
        | some i => exact h

theorem stamped_map {i : Int} {sp : String} {uuid : OStr}
    {cat : List PFRow} (f : PFRow → PFRow)
    (hid : ∀ r, (f r).id = r.id)
    (hsp : ∀ r, (f r).species_id = r.species_id)
    (huuid : ∀ r, r.uuid = uuid → (f r).uuid = uuid)
    (hstat : ∀ r, r.status = "Up-To-Date" →
      (f r).status = "Up-To-Date")
    (h : stamped i sp uuid cat) : stamped i sp uuid (cat.map f) := by
  obtain ⟨r, hr, h1, h2, h3, h4⟩ := h
  exact ⟨f r, List.mem_map_of_mem f hr, by rw [hid r, h1],
    by rw [hsp r, h2], huuid r h3, hstat r h4⟩

theorem stamped_set_uuid {i : Int} {sp : String} {u : String}
    {cat : List PFRow} (j : Int) (h : stamped i sp (some u) cat) :
    stamped i sp (some u) (set_uuid cat j (some u)) := by
  refine stamped_map _ ?_ ?_ ?_ ?_ h
  · intro r
    try dsimp only
    split <;> rfl
  · intro r
    try dsimp only
    split <;> rfl
  · intro r hr
    try dsimp only
    split
    · rfl
    · exact hr
  · intro r hr
    try dsimp only
    split <;> exact hr

theorem stamped_set_status_utd {i : Int} {sp : String} {uuid : OStr}
    {cat : List PFRow} (now : Nat) (sid : String) (j : Int)
    (h : stamped i sp uuid cat) :
    stamped i sp uuid
      ((set_status cat now sid "Up-To-Date" (some j)).1) := by
  rw [set_status_some_map _ _ _ _ _ (by decide)]
  refine stamped_map _ ?_ ?_ ?_ ?_ h
  · intro r
    try dsimp only
    split <;> rfl
  · intro r
    try dsimp only
    split <;> rfl
  · intro r hr
    try dsimp only
    split <;> exact hr
  · intro r hr
    try dsimp only
    split
    · rfl
    · exact hr

theorem finish_fold_stamp (now : Nat) (u : String) (i : Int)
    (sp : String) :
    ∀ (l : List (SIdx × Nat)) (acc : PassState),
      stamped i sp (some u) acc.cat →
      stamped i sp (some u) ((l.foldl (fun acc p =>
        if p.1.species ∈ acc.errors then acc
        else
          let acc2 := { acc with report := acc.report ++ [p] }
          match dictGet acc2.dict p.1 with
          | none => { acc2 with ok := false }
          | some j =>
              let cat := set_uuid acc2.cat j (some u)
              let cat :=
                (set_status cat now p.1.species "Up-To-Date" (some j)).1
              { acc2 with cat := cat }) acc).cat) := by
  intro l
  induction l with
  | nil => exact fun acc h => h
  | cons p t ih =>
      intro acc h
      rw [List.foldl_cons]
      refine ih _ ?_
      dsimp only
      split
      · exact h
      · cases hd : dictGet acc.dict p.1 with
        | none => exact h
        | some j =>
            try dsimp only
            exact stamped_set_status_utd now p.1.species j
              (stamped_set_uuid j h)

/-- The dictionary always points at a row of the key's species. -/
def rowFor (st : PassState) : Prop :=
  ∀ k j, dictGet st.dict k = some j → 0 < j →
    ∃ r ∈ st.cat, r.id = j ∧ r.species_id = k.species

theorem rowFor_of_inv {st : PassState} (hInv : Inv st) : rowFor st := by
  intro k j hk hj
  obtain ⟨r, hr, h1, h2⟩ := hInv.dRows k j hk hj
  exact ⟨r, hr, h1, by rw [← maskedKey_species r, h2]⟩

theorem finish_fold_post (now : Nat) (u : String) :
    ∀ (l : List (SIdx × Nat)) (acc : PassState), rowFor acc →
      (l.foldl (fun acc p =>
        if p.1.species ∈ acc.errors then acc
        else
          let acc2 := { acc with report := acc.report ++ [p] }
          match dictGet acc2.dict p.1 with
          | none => { acc2 with ok := false }
          | some j =>
              let cat := set_uuid acc2.cat j (some u)
              let cat :=
                (set_status cat now p.1.species "Up-To-Date" (some j)).1
              { acc2 with cat := cat }) acc).ok = true →
      ∀ p ∈ l, p.1.species ∉ acc.errors →
      ∃ i, dictGet acc.dict p.1 = some i ∧
        (0 < i → stamped i p.1.species (some u) ((l.foldl (fun acc p =>
          if p.1.species ∈ acc.errors then acc
          else
            let acc2 := { acc with report := acc.report ++ [p] }
            match dictGet acc2.dict p.1 with
            | none => { acc2 with ok := false }
            | some j =>
                let cat := set_uuid acc2.cat j (some u)
                let cat :=
                  (set_status cat now p.1.species "Up-To-Date"
                    (some j)).1
                { acc2 with cat := cat }) acc).cat)) := by
  intro l
  induction l with
  | nil => exact fun acc _ _ p hp => absurd hp (List.not_mem_nil p)
  | cons p0 t ih =>
      intro acc hrow hok p hp hpe
      rw [List.foldl_cons] at hok ⊢
      dsimp only at hok ⊢
      by_cases hm : p0.1.species ∈ acc.errors
      · rw [if_pos hm] at hok ⊢
        rcases List.mem_cons.mp hp with rfl | hpt
        · exact absurd hm hpe
        · exact ih acc hrow hok p hpt hpe
      · rw [if_neg hm] at hok ⊢
        cases hd : dictGet acc.dict p0.1 with
        | none =>
            exfalso
            rw [hd] at hok
            dsimp only at hok
            rw [finish_fold_ok_false now (some u) t _ rfl] at hok
            cases hok
        | some i0 =>
            rw [hd] at hok
            try dsimp only at hok
            try dsimp only
            rcases List.mem_cons.mp hp with rfl | hpt
            · refine ⟨i0, hd, fun hpos => ?_⟩
              obtain ⟨r, hr, h1, h2⟩ := hrow p.1 i0 hd hpos
              refine finish_fold_stamp now u i0 p.1.species t _ ?_
              show stamped i0 p.1.species (some u)
                ((set_status (set_uuid acc.cat i0 (some u)) now
                  p.1.species "Up-To-Date" (some i0)).1)
              rw [set_status_some_map _ _ _ _ _ (by decide)]
              have hm1 := List.mem_map_of_mem
                (fun r => if r.id = i0 then { r with uuid := some u }
                  else r) hr
              dsimp only at hm1
              rw [if_pos h1] at hm1
              have hm2 := List.mem_map_of_mem
                (fun r => if r.id = i0 then
                  { r with status := "Up-To-Date", checkdate := now }
                else r) hm1
              dsimp only at hm2
              rw [if_pos (show ({ r with uuid := some u } : PFRow).id =
                i0 from h1)] at hm2
              refine ⟨{ r with
                  uuid := some u
                  status := "Up-To-Date"
                  checkdate := now }, ?_, h1, h2, rfl, rfl⟩
              exact hm2
            · have hrow2 : rowFor { acc with
                  report := acc.report ++ [p0]
                  cat := (set_status (set_uuid acc.cat i0 (some u)) now
                    p0.1.species "Up-To-Date" (some i0)).1 } := by
                intro k j hk hj
                obtain ⟨r, hr, h1, h2⟩ := hrow k j hk hj
                have hcat : ({ acc with
                    report := acc.report ++ [p0]
                    cat := (set_status (set_uuid acc.cat i0 (some u))
                      now p0.1.species "Up-To-Date"
                      (some i0)).1 } : PassState).cat =
                    ((acc.cat.map (fun r =>
                      if r.id = i0 then { r with uuid := some u }
                      else r)).map (fun r =>
                      if r.id = i0 then
                        { r with status := "Up-To-Date",
                                 checkdate := now }
                      else r)) := by
                  rw [show ({ acc with
                      report := acc.report ++ [p0]
                      cat := (set_status (set_uuid acc.cat i0 (some u))
                        now p0.1.species "Up-To-Date"
                        (some i0)).1 } : PassState).cat =
                    (set_status (set_uuid acc.cat i0 (some u))
                      now p0.1.species "Up-To-Date" (some i0)).1 from
                    rfl, set_status_some_map _ _ _ _ _ (by decide)]
                  exact rfl
                by_cases hc : r.id = i0
                · have hm1 := List.mem_map_of_mem
                    (fun r => if r.id = i0 then { r with uuid := some u }
                      else r) hr
                  dsimp only at hm1
                  rw [if_pos hc] at hm1
                  have hm2 := List.mem_map_of_mem
                    (fun r => if r.id = i0 then
                      { r with status := "Up-To-Date", checkdate := now }
                    else r) hm1
                  dsimp only at hm2
                  rw [if_pos (show ({ r with uuid := some u } :
                    PFRow).id = i0 from hc)] at hm2
                  refine ⟨{ r with
                      uuid := some u
                      status := "Up-To-Date"
                      checkdate := now }, ?_, h1, h2⟩
                  rw [hcat]
                  exact hm2
                · have hm1 := List.mem_map_of_mem
                    (fun r => if r.id = i0 then { r with uuid := some u }
                      else r) hr
                  dsimp only at hm1
                  rw [if_neg hc] at hm1
                  have hm2 := List.mem_map_of_mem
                    (fun r => if r.id = i0 then
                      { r with status := "Up-To-Date", checkdate := now }
                    else r) hm1
                  dsimp only at hm2
                  rw [if_neg hc] at hm2
                  refine ⟨r, ?_, h1, h2⟩
                  rw [hcat]
                  exact hm2
              exact ih _ hrow2 hok p hpt hpe

end Vamdclib

namespace Vamdclib

/-- A group with no failing transition, whose species is not in the
error list, stamps every processed identity tuple: the dictionary
resolves it to a row carrying the query UUID in status `Up-To-Date`. -/
theorem runGroup_success (vl : RState → RState → String) (now : Nat)
    (st : PassState) (g : GroupInput) (u : String) (hInv : Inv st)
    (hdp : DPos st)
    (hg : ∀ tr ∈ g.transitions, tr.SpeciesID = g.species_id)
    (hnofail : ∀ tr ∈ g.transitions, transFails g.states tr = false)
    (hserr : g.species_id ∉ st.errors) (huuid : g.uuid = some u)
    (hok : (runGroup vl now st g).ok = true) :
    ∀ p ∈ (runGroup vl now st g).processed,
      ∃ i, dictGet (runGroup vl now st g).dict p.1 = some i ∧
        stamped i g.species_id (some u) (runGroup vl now st g).cat := by
  intro p hp
  have hps : p.1.species = g.species_id :=
    runGroup_processedSpecies vl now st g hg p hp
  unfold runGroup at hok hp ⊢
  rw [huuid] at hok hp ⊢
  have hInv1 : Inv { st with
      cat := markUpdating st.cat g.species_id,
      trs := deleteTransOf (markUpdating st.cat g.species_id) st.trs
        g.species_id,
      processed := [] } :=
    inv_markUpdating hInv g.species_id rfl (fun k => rfl) rfl
  have hdp1 : DPos { st with
      cat := markUpdating st.cat g.species_id,
      trs := deleteTransOf (markUpdating st.cat g.species_id) st.trs
        g.species_id,
      processed := [] } := hdp
  have hokf : (g.transitions.foldl (processTransition vl g)
      { st with
        cat := markUpdating st.cat g.species_id,
        trs := deleteTransOf (markUpdating st.cat g.species_id) st.trs
          g.species_id,
        processed := [] }).ok = true := by
    cases hb : (g.transitions.foldl (processTransition vl g)
        { st with
          cat := markUpdating st.cat g.species_id,
          trs := deleteTransOf (markUpdating st.cat g.species_id) st.trs
            g.species_id,
          processed := [] }).ok with
    | false =>
        exfalso
        have h1 : (cleanupErrors now (g.transitions.foldl
            (processTransition vl g)
            { st with
              cat := markUpdating st.cat g.species_id,
              trs := deleteTransOf (markUpdating st.cat g.species_id)
                st.trs g.species_id,
              processed := [] })).ok = false := by
          rw [cleanupErrors_ok]
          exact hb
        rw [finishProcessed_ok_false now (some u) _ h1] at hok
        cases hok
    | true => rfl
  have hInv2 := fold_trans_inv vl g g.transitions hg _ hInv1 hokf
  have hdp2 := fold_trans_dpos vl g g.transitions hg _ hInv1 hdp1 hokf
  have hInv3 := inv_cleanupErrors now _ hInv2
  have hdp3 : DPos (cleanupErrors now (g.transitions.foldl
      (processTransition vl g)
      { st with
        cat := markUpdating st.cat g.species_id,
        trs := deleteTransOf (markUpdating st.cat g.species_id) st.trs
          g.species_id,
        processed := [] })) := by
    intro k i hk
    rw [(cleanupErrors_frame now _).2.1] at hk
    exact hdp2 k i hk
  have herr3 : (cleanupErrors now (g.transitions.foldl
      (processTransition vl g)
      { st with
        cat := markUpdating st.cat g.species_id,
        trs := deleteTransOf (markUpdating st.cat g.species_id) st.trs
          g.species_id,
        processed := [] })).errors = st.errors := by
    rw [(cleanupErrors_frame now _).1]
    exact fold_trans_nofail_errors vl g g.transitions hnofail _
  have hpne : p.1.species ∉ (cleanupErrors now (g.transitions.foldl
      (processTransition vl g)
      { st with
        cat := markUpdating st.cat g.species_id,
        trs := deleteTransOf (markUpdating st.cat g.species_id) st.trs
          g.species_id,
        processed := [] })).errors := by
    rw [herr3, hps]
    exact hserr
  rw [(finishProcessed_frame now (some u) _).2.2.1] at hp
  unfold finishProcessed at hok
  obtain ⟨i, hdict, hstamp⟩ := finish_fold_post now u _ _
    (rowFor_of_inv hInv3) hok p hp hpne
  refine ⟨i, ?_, ?_⟩
  · rw [(finishProcessed_frame now (some u) _).2.1]
    exact hdict
  · have hst2 := hstamp (hdp3 p.1 i hdict)
    rw [hps] at hst2
    exact hst2

end Vamdclib

namespace Vamdclib

theorem nodup_split_ne {α β : Type} (f : α → β) (pre post : List α)
    (a : α) (h : ((pre ++ a :: post).map f).Nodup) :
    (∀ b ∈ pre, f b ≠ f a) ∧ (∀ b ∈ post, f b ≠ f a) := by
  rw [List.map_append, List.map_cons, List.nodup_append] at h
  obtain ⟨h1, h2, h3⟩ := h
  constructor
  · intro b hb he
    exact (List.disjoint_left.mp h3) (List.mem_map_of_mem f hb)
      (by rw [he]; exact List.mem_cons_self _ _)
  · intro b hb he
    have h4 := (List.nodup_cons.mp h2).1
    exact h4 (he ▸ List.mem_map_of_mem f hb)

/-- C1: failure isolation between the species of one pass.  Operating
context: the pass starts from a well-formed catalogue (positive,
distinct rowids below the next free rowid; distinct masked identity
keys; every row in one of the four updatable statuses), every fetched
document contains only transitions of the requested species, no two
groups fetch the same species, and the run raises no uncaught
exception (`ok`).  Then (A) for every group with a failing transition,
at pass end every row of that species is `Update Failed` and no
Transition Record is owned by any of its rows — in particular every
transition inserted for it during the pass is gone; and (B) for every
group with no failing transition and a fetched query UUID, every
transition it inserted for its own rows survives to the end of the
pass, and every identity tuple it processed resolves to a Species
Record that carries the query UUID and status `Up-To-Date` in the
final catalogue. -/
theorem c1_failure_isolation (vl : RState → RState → String)
    (force : Bool) (now : Nat) (nextPf nextT : Int) (cat : List PFRow)
    (trs : List TRow) (groups : List GroupInput)
    (hPf : 0 < nextPf)
    (hPos : ∀ r ∈ cat, 0 < r.id)
    (hLt : ∀ r ∈ cat, r.id < nextPf)
    (hIds : (cat.map (·.id)).Nodup)
    (hKeys : (cat.map maskedKey).Nodup)
    (hElig : ∀ r ∈ cat, canonStatus r.status)
    (hSpec : ∀ g ∈ groups, ∀ tr ∈ g.transitions,
      tr.SpeciesID = g.species_id)
    (hDist : (groups.map (·.species_id)).Nodup)
    (hok : (update_species_data vl force now nextPf nextT cat trs
      groups).ok = true) :
    (∀ gA ∈ groups,
       (∃ tr ∈ gA.transitions, transFails gA.states tr = true) →
       (∀ r ∈ (update_species_data vl force now nextPf nextT cat trs
            groups).cat,
          r.species_id = gA.species_id → r.status = "Update Failed") ∧
       (∀ t ∈ (update_species_data vl force now nextPf nextT cat trs
            groups).trs,
          ∀ r ∈ (update_species_data vl force now nextPf nextT cat trs
              groups).cat,
            r.species_id = gA.species_id → t.pf_id ≠ r.id)) ∧
    (∀ pre gB post, groups = pre ++ gB :: post →
       (∀ tr ∈ gB.transitions, transFails gB.states tr = false) →
       ∀ u, gB.uuid = some u →
       (∀ t ∈ (runGroup vl now (pre.foldl (runGroup vl now)
             (initPass force nextPf nextT cat trs)) gB).trs,
          (∃ r ∈ (runGroup vl now (pre.foldl (runGroup vl now)
               (initPass force nextPf nextT cat trs)) gB).cat,
             r.species_id = gB.species_id ∧ r.id = t.pf_id) →
          t ∈ (update_species_data vl force now nextPf nextT cat trs
            groups).trs) ∧
       (∀ p ∈ (runGroup vl now (pre.foldl (runGroup vl now)
             (initPass force nextPf nextT cat trs)) gB).processed,
          ∃ i, dictGet (runGroup vl now (pre.foldl (runGroup vl now)
              (initPass force nextPf nextT cat trs)) gB).dict p.1 =
            some i ∧
            stamped i gB.species_id (some u)
              (update_species_data vl force now nextPf nextT cat trs
                groups).cat)) := by
  have hInv0 : Inv (initPass force nextPf nextT cat trs) :=
    inv_initial force nextPf nextT cat trs hPf hPos hLt hIds hKeys
  have hdp0 : DPos (initPass force nextPf nextT cat trs) :=
    dpos_initial force nextPf nextT cat trs hPos hElig
  constructor
  · -- Part A
    intro gA hgA hfail
    obtain ⟨tr0, h0, hf⟩ := hfail
    obtain ⟨preA, postA, hsplit⟩ := List.append_of_mem hgA
    have hne := nodup_split_ne (·.species_id) preA postA gA
      (hsplit ▸ hDist)
    have hSpecPre : ∀ g ∈ preA, ∀ tr ∈ g.transitions,
        tr.SpeciesID = g.species_id := fun g hg =>
      hSpec g (hsplit ▸ List.mem_append_left _ hg)
    have hSpecPost : ∀ g ∈ postA, ∀ tr ∈ g.transitions,
        tr.SpeciesID = g.species_id := fun g hg =>
      hSpec g (hsplit ▸ List.mem_append_right _
        (List.mem_cons_of_mem gA hg))
    have hSpecA : ∀ tr ∈ gA.transitions, tr.SpeciesID = gA.species_id :=
      hSpec gA hgA
    have hokfull : (postA.foldl (runGroup vl now)
        (runGroup vl now (preA.foldl (runGroup vl now)
          (initPass force nextPf nextT cat trs)) gA)).ok = true := by
      rw [update_species_data_eq, hsplit, List.foldl_append,
        List.foldl_cons] at hok
      exact hok
    have hokA : (runGroup vl now (preA.foldl (runGroup vl now)
        (initPass force nextPf nextT cat trs)) gA).ok = true := by
      cases hb : (runGroup vl now (preA.foldl (runGroup vl now)
          (initPass force nextPf nextT cat trs)) gA).ok with
      | false =>
          exfalso
          rw [fold_groups_ok_false vl now postA _ hb] at hokfull
          cases hokfull
      | true => rfl
    have hokP : (preA.foldl (runGroup vl now)
        (initPass force nextPf nextT cat trs)).ok = true := by
      cases hb : (preA.foldl (runGroup vl now)
          (initPass force nextPf nextT cat trs)).ok with
      | false =>
          exfalso
          rw [runGroup_ok_false vl now _ gA hb] at hokA
          cases hokA
      | true => rfl
    obtain ⟨hInvP, _⟩ := fold_groups_invdpos vl now preA hSpecPre _
      hInv0 hdp0 hokP
    have hserrP : gA.species_id ∉ (preA.foldl (runGroup vl now)
        (initPass force nextPf nextT cat trs)).errors := by
      intro hmem
      rcases fold_groups_errors_sub vl now preA hSpecPre _ _ hmem with
        h | h
      · exact absurd h (List.not_mem_nil _)
      · obtain ⟨b, hb, he⟩ := List.mem_map.mp h
        exact hne.1 b hb he
    have hfixP := fold_groups_fix vl now preA gA.species_id hSpecPre
      (fun b hb => hne.1 b hb) _ hInv0 (List.not_mem_nil _) hokP
    have hcanonP : ∀ r ∈ (preA.foldl (runGroup vl now)
        (initPass force nextPf nextT cat trs)).cat,
        r.species_id = gA.species_id → canonStatus r.status := by
      intro r hr hs
      exact hElig r (hfixP.2.1 r hr hs)
    obtain ⟨hquietA, hmemA⟩ := runGroup_failed vl now _ gA hSpecA
      hcanonP tr0 h0 hf
    have hInvA := inv_runGroup vl now _ gA hInvP hSpecA hokA
    have hquietF := fold_groups_quiet vl now postA gA.species_id
      hSpecPost (fun b hb => hne.2 b hb) _ hInvA hmemA hquietA hokfull
    have hfinal : update_species_data vl force now nextPf nextT cat trs
        groups = postA.foldl (runGroup vl now)
        (runGroup vl now (preA.foldl (runGroup vl now)
          (initPass force nextPf nextT cat trs)) gA) := by
      rw [update_species_data_eq, hsplit, List.foldl_append,
        List.foldl_cons]
    rw [hfinal]
    exact hquietF
  · -- Part B
    intro pre gB post hsplit hnofail u huuid
    have hne := nodup_split_ne (·.species_id) pre post gB
      (hsplit ▸ hDist)
    have hSpecPre : ∀ g ∈ pre, ∀ tr ∈ g.transitions,
        tr.SpeciesID = g.species_id := fun g hg =>
      hSpec g (hsplit ▸ List.mem_append_left _ hg)
    have hSpecPost : ∀ g ∈ post, ∀ tr ∈ g.transitions,
        tr.SpeciesID = g.species_id := fun g hg =>
      hSpec g (hsplit ▸ List.mem_append_right _
        (List.mem_cons_of_mem gB hg))
    have hSpecB : ∀ tr ∈ gB.transitions, tr.SpeciesID = gB.species_id :=
      hSpec gB (hsplit ▸ List.mem_append_right _
        (List.mem_cons_self gB post))
    have hokfull : (post.foldl (runGroup vl now)
        (runGroup vl now (pre.foldl (runGroup vl now)
          (initPass force nextPf nextT cat trs)) gB)).ok = true := by
      rw [update_species_data_eq, hsplit, List.foldl_append,
        List.foldl_cons] at hok
      exact hok
    have hokB : (runGroup vl now (pre.foldl (runGroup vl now)
        (initPass force nextPf nextT cat trs)) gB).ok = true := by
      cases hb : (runGroup vl now (pre.foldl (runGroup vl now)
          (initPass force nextPf nextT cat trs)) gB).ok with
      | false =>
          exfalso
          rw [fold_groups_ok_false vl now post _ hb] at hokfull
          cases hokfull
      | true => rfl
    have hokP : (pre.foldl (runGroup vl now)
        (initPass force nextPf nextT cat trs)).ok = true := by
      cases hb : (pre.foldl (runGroup vl now)
          (initPass force nextPf nextT cat trs)).ok with
      | false =>
          exfalso
          rw [runGroup_ok_false vl now _ gB hb] at hokB
          cases hokB
      | true => rfl
    obtain ⟨hInvP, hdpP⟩ := fold_groups_invdpos vl now pre hSpecPre _
      hInv0 hdp0 hokP
    have hserrP : gB.species_id ∉ (pre.foldl (runGroup vl now)
        (initPass force nextPf nextT cat trs)).errors := by
      intro hmem
      rcases fold_groups_errors_sub vl now pre hSpecPre _ _ hmem with
        h | h
      · exact absurd h (List.not_mem_nil _)
      · obtain ⟨b, hb, he⟩ := List.mem_map.mp h
        exact hne.1 b hb he
    have hsucc := runGroup_success vl now _ gB u hInvP hdpP hSpecB
      hnofail hserrP huuid hokB
    have hInvB := inv_runGroup vl now _ gB hInvP hSpecB hokB
    have hserrB : gB.species_id ∉ (runGroup vl now
        (pre.foldl (runGroup vl now)
          (initPass force nextPf nextT cat trs)) gB).errors := by
      rw [runGroup_nofail_errors vl now _ gB hnofail]
      exact hserrP
    have hfix := fold_groups_fix vl now post gB.species_id hSpecPost
      (fun b hb => hne.2 b hb) _ hInvB hserrB hokfull
    have hfinal : update_species_data vl force now nextPf nextT cat trs
        groups = post.foldl (runGroup vl now)
        (runGroup vl now (pre.foldl (runGroup vl now)
          (initPass force nextPf nextT cat trs)) gB) := by
      rw [update_species_data_eq, hsplit, List.foldl_append,
        List.foldl_cons]
    constructor
    · intro t ht hown
      rw [hfinal]
      exact hfix.2.2 t ht (by
        obtain ⟨r, hr, hs, hid⟩ := hown
        exact ⟨r, hr, hs, hid⟩)
    · intro p hp
      obtain ⟨i, hdict, hstamp⟩ := hsucc p hp
      refine ⟨i, hdict, ?_⟩
      rw [hfinal]
      obtain ⟨r, hr, h1, h2, h3, h4⟩ := hstamp
      exact ⟨r, hfix.1 r hr h2, h1, h2, h3, h4⟩

end Vamdclib

namespace Vamdclib

/-- C1 witness input: label function returning no vibrational tag. -/
def vlW1 : RState → RState → String := fun _ _ => ""

/-- C1 witness input: a well-formed transition of species `A`. -/
def trAW1 : RTrans :=
  { SpeciesID := "A", UpperStateRef := "u", LowerStateRef := "l",
    FrequencyValue := 100, FrequencyAccuracy := some 1,
    TransitionProbabilityA := 2, ProcessClass := [] }

/-- C1 witness input: a transition of `A` with a missing frequency
accuracy — the failure of the scenario. -/
def trBadW1 : RTrans := { trAW1 with FrequencyAccuracy := none }

/-- C1 witness input: a well-formed transition of species `B`. -/
def trBW1 : RTrans := { trAW1 with SpeciesID := "B" }

/-- C1 witness input: catalogue row of species `A`. -/
def rowAW1 : PFRow :=
  { id := 1, name := "HA", species_id := "A", nsi := none,
    vibstate := none, hfs := none, status := "New", uuid := none,
    pf := [], checkdate := 0 }

/-- C1 witness input: catalogue row of species `B`. -/
def rowBW1 : PFRow :=
  { rowAW1 with
      id := 2
      name := "HB"
      species_id := "B" }

/-- C1 witness input: the failing group for species `A`. -/
def gAW1 : GroupInput :=
  { species_id := "A", formula := "HA",
    states := [("u", upC6), ("l", lowC6)],
    transitions := [trAW1, trBadW1], uuid := some "uuid-A" }

/-- C1 witness input: the succeeding group for species `B`. -/
def gBW1 : GroupInput :=
  { species_id := "B", formula := "HB",
    states := [("u", upC6), ("l", lowC6)],
    transitions := [trBW1], uuid := some "uuid-B" }

theorem c1_failure_isolation_witness :
    ((∀ r ∈ (update_species_data vlW1 false 7 3 1 [rowAW1, rowBW1] []
         [gAW1, gBW1]).cat,
        r.species_id = gAW1.species_id → r.status = "Update Failed") ∧
     (∀ t ∈ (update_species_data vlW1 false 7 3 1 [rowAW1, rowBW1] []
          [gAW1, gBW1]).trs,
        ∀ r ∈ (update_species_data vlW1 false 7 3 1 [rowAW1, rowBW1]
            [] [gAW1, gBW1]).cat,
          r.species_id = gAW1.species_id → t.pf_id ≠ r.id)) ∧
    ((∀ t ∈ (runGroup vlW1 7 ([gAW1].foldl (runGroup vlW1 7)
          (initPass false 3 1 [rowAW1, rowBW1] [])) gBW1).trs,
        (∃ r ∈ (runGroup vlW1 7 ([gAW1].foldl (runGroup vlW1 7)
             (initPass false 3 1 [rowAW1, rowBW1] [])) gBW1).cat,
           r.species_id = gBW1.species_id ∧ r.id = t.pf_id) →
        t ∈ (update_species_data vlW1 false 7 3 1 [rowAW1, rowBW1] []
          [gAW1, gBW1]).trs) ∧
     (∀ p ∈ (runGroup vlW1 7 ([gAW1].foldl (runGroup vlW1 7)
           (initPass false 3 1 [rowAW1, rowBW1] [])) gBW1).processed,
        ∃ i, dictGet (runGroup vlW1 7 ([gAW1].foldl (runGroup vlW1 7)
            (initPass false 3 1 [rowAW1, rowBW1] [])) gBW1).dict p.1 =
          some i ∧
          stamped i gBW1.species_id (some "uuid-B")
            (update_species_data vlW1 false 7 3 1 [rowAW1, rowBW1] []
              [gAW1, gBW1]).cat)) :=
  ⟨(c1_failure_isolation vlW1 false 7 3 1 [rowAW1, rowBW1] []
      [gAW1, gBW1] (by decide) (by decide) (by decide) (by decide)
      (by decide) (by decide) (by decide) (by decide) (by decide)).1
    gAW1 (List.mem_cons_self gAW1 [gBW1]) (by decide),
   (c1_failure_isolation vlW1 false 7 3 1 [rowAW1, rowBW1] []
      [gAW1, gBW1] (by decide) (by decide) (by decide) (by decide)
      (by decide) (by decide) (by decide) (by decide) (by decide)).2
    [gAW1] gBW1 [] rfl (by decide) "uuid-B" rfl⟩

end Vamdclib
